import Mathlib

/-!
Verification development for the Bulk File Renamer's core engine
(`bulk_file_renamer/renamer.py` and `undo.py`).

The filesystem is modelled as a flat store mapping absolute paths to file
data (content plus modification time) and a separate set of existing
directories.  Paths are plain strings; `os.path.abspath` is modelled as the
identity (all paths in scope are already absolute and normalized, with no
trailing slash).  Python exceptions are modelled by an error type; stateful
functions return the filesystem reached at the point of the raise together
with the result, since a raised exception does not undo earlier mutations.
The ambient clock and the `re` module (exterior to the repository) are
modelled by an environment of oracles: `reSub` stands for
`re.sub(pattern, replacement, ·)`, `strftime` for `time.strftime`, `epoch`
for `str(int(time.time()))` and `now` for the current mtime stamp.
-/

namespace BFR

/-- Python exception kinds raised or caught by the engine. -/
inductive PyError where
  | valueError (msg : String)
  | fileExistsError (msg : String)
  | attributeError (msg : String)
  | typeError (msg : String)
  | keyError (msg : String)
  | indexError (msg : String)
  | ioError (msg : String)
deriving DecidableEq, Repr

/-- Message carried by an exception (used by undo's `except Exception` handler). -/
def errMsg : PyError → String
  | .valueError m => m
  | .fileExistsError m => m
  | .attributeError m => m
  | .typeError m => m
  | .keyError m => m
  | .indexError m => m
  | .ioError m => m

/-- JSON values as produced by `json.dump` and consumed by `json.load`. -/
inductive JVal where
  | jstr (s : String)
  | jnum (n : Int)
  | jbool (b : Bool)
  | jnull
  | jarr (xs : List JVal)
  | jobj (kvs : List (String × JVal))

/-- Python truthiness of a JSON value. -/
def JVal.truthy : JVal → Bool
  | .jstr s => decide (s ≠ "")
  | .jnum n => decide (n ≠ 0)
  | .jbool b => b
  | .jnull => false
  | .jarr xs => !xs.isEmpty
  | .jobj kvs => !kvs.isEmpty

/-- Content of a file: either opaque bytes (not valid JSON) or bytes that
parse as the JSON value carried. -/
inductive FileContent where
  | raw (s : String)
  | json (v : JVal)

/-- A file's data: content and modification time. -/
structure FileData where
  content : FileContent
  mtime : Int

/-- Flat filesystem: association lists from absolute paths to file data and
to directory mtimes.  Earlier entries shadow later ones. -/
structure FS where
  files : List (String × FileData)
  dirs : List (String × Int)

/-- First-match association-list lookup. -/
def lookupP {α : Type} : List (String × α) → String → Option α
  | [], _ => none
  | (k, v) :: rest, p => if k = p then some v else lookupP rest p

/-- Remove every binding of a key. -/
def eraseKey {α : Type} : List (String × α) → String → List (String × α)
  | [], _ => []
  | (k, v) :: rest, p => if k = p then eraseKey rest p else (k, v) :: eraseKey rest p

/-- Read a file's data. -/
def FS.read (fs : FS) (p : String) : Option FileData := lookupP fs.files p

/-- Look up a directory's mtime. -/
def FS.readDir (fs : FS) (p : String) : Option Int := lookupP fs.dirs p

/-- `os.path.exists`: true for files and directories alike. -/
def pyExists (fs : FS) (p : String) : Bool :=
  (fs.read p).isSome || (fs.readDir p).isSome

/-- Create or overwrite a file. -/
def FS.setFile (fs : FS) (p : String) (d : FileData) : FS :=
  ⟨(p, d) :: eraseKey fs.files p, fs.dirs⟩

/-- Delete a file entry. -/
def FS.removeFile (fs : FS) (p : String) : FS :=
  ⟨eraseKey fs.files p, fs.dirs⟩

/-- Create a directory with the given mtime (`os.makedirs`). -/
def FS.mkdir (fs : FS) (p : String) (t : Int) : FS :=
  ⟨fs.files, (p, t) :: eraseKey fs.dirs p⟩

/-! ### Path helpers (modelling `os.path` on already-normalized paths) -/

/-- `os.path.join(d, n)` for a directory `d` without trailing slash. -/
def joinPath (d n : String) : String := d ++ "/" ++ n

/-- Characters of the base name: everything after the last slash. -/
def basenameData (l : List Char) : List Char :=
  (l.reverse.takeWhile (fun c => c ≠ '/')).reverse

/-- `os.path.basename`. -/
def pyBasename (s : String) : String := ⟨basenameData s.data⟩

/-- Characters of `os.path.dirname`: everything up to the last slash, with
trailing slashes stripped unless the head is all slashes. -/
def dirnameData (l : List Char) : List Char :=
  let pre := (l.reverse.dropWhile (fun c => c ≠ '/')).reverse
  if pre.all (fun c => c = '/') then pre
  else (pre.reverse.dropWhile (fun c => c = '/')).reverse

/-- `os.path.dirname`. -/
def pyDirname (s : String) : String := ⟨dirnameData s.data⟩

/-- `os.path.splitext` on a base name (no slash): split at the last dot,
unless every character before that dot is itself a dot. -/
def splitextData (l : List Char) : List Char × List Char :=
  let revAfter := l.reverse.takeWhile (fun c => c ≠ '.')
  if revAfter.length = l.length then (l, [])
  else
    let stemLen := l.length - revAfter.length - 1
    let stem := l.take stemLen
    if stem.all (fun c => c = '.') then (l, []) else (stem, l.drop stemLen)

/-- `os.path.splitext` returning strings. -/
def pySplitext (s : String) : String × String :=
  let p := splitextData s.data
  (⟨p.1⟩, ⟨p.2⟩)

/-- `str.zfill`: left-pad with zeros to the given width, keeping a leading
sign in front of the padding. -/
def zfillData (l : List Char) (w : Nat) : List Char :=
  if w ≤ l.length then l
  else
    match l with
    | [] => List.replicate w '0'
    | c :: rest =>
      if c = '+' ∨ c = '-' then c :: (List.replicate (w - l.length) '0' ++ rest)
      else List.replicate (w - l.length) '0' ++ l

/-- `str.replace(" ", "_")`. -/
def replaceSpaces (s : String) : String :=
  ⟨s.data.map (fun c => if c = ' ' then '_' else c)⟩

/-- Boolean prefix test on character lists. -/
def startsD : List Char → List Char → Bool
  | [], _ => true
  | _ :: _, [] => false
  | a :: as, b :: bs => a = b && startsD as bs

/-- Boolean suffix test on character lists. -/
def endsD (suf l : List Char) : Bool := startsD suf.reverse l.reverse

/-- Strip a leading run of characters, returning the remainder. -/
def stripPre : List Char → List Char → Option (List Char)
  | [], l => some l
  | _ :: _, [] => none
  | a :: as, b :: bs => if a = b then stripPre as bs else none

/-- Does a character list contain a slash? -/
def hasSlash : List Char → Bool
  | [] => false
  | c :: t => c = '/' || hasSlash t

/-- If `p` is a direct child of directory `dir` (i.e. `p = dir ++ "/" ++ name`
with `name` nonempty and slash-free), return the child name. -/
def childOf? (dir p : String) : Option String :=
  (stripPre (dir.data ++ ['/']) p.data).bind (fun rest =>
    if rest.isEmpty || hasSlash rest then none else some ⟨rest⟩)

/-! ### Stable insertion sort (Python `sorted` / `list.sort`) -/

/-- Insert before the first element the new element compares `le` to. -/
def insertLe {α : Type} (le : α → α → Bool) (x : α) : List α → List α
  | [] => [x]
  | y :: ys => if le x y then x :: y :: ys else y :: insertLe le x ys

/-- Insertion sort; stable for a total `le`. -/
def insSort {α : Type} (le : α → α → Bool) : List α → List α
  | [] => []
  | x :: xs => insertLe le x (insSort le xs)

/-- Lexicographic code-point comparison on character lists (Python string
`<=`). -/
def strLeData : List Char → List Char → Bool
  | [], _ => true
  | _ :: _, [] => false
  | a :: as, b :: bs =>
    if a.toNat < b.toNat then true
    else if b.toNat < a.toNat then false
    else strLeData as bs

/-- String comparison used by `sorted` on paths. -/
def strLe (a b : String) : Bool := strLeData a.data b.data

/-- Descending modification-time comparison used by
`sort(key=os.path.getmtime, reverse=True)`. -/
def descMtime (a b : String × Int) : Bool := decide (b.2 ≤ a.2)

/-! ### Configuration and environment -/

/-- `BulkRenameConfig` after `__init__` normalization: `prefix`/`suffix` are
stored with `None` collapsed to `""` (the source's `prefix or ""`), and
`extensions` is the output of `_normalize_extensions`.  The source field
`prefix` is spelled `prefixStr` (and `suffix` `suffixStr`) because `prefix`
is a Lean keyword. -/
structure BulkRenameConfig where
  directory : String
  prefixStr : String
  suffixStr : String
  numbering : Bool
  numberingStart : Int
  numberingPadding : Int
  timestamp : Bool
  timestampFormat : String
  regexPattern : Option String
  regexReplacement : Option String
  extensions : Option (List String)
  dryRun : Bool
  backupDir : Option String
  logFile : Option String

/-- Python truthiness of an optional string (`None` and `""` are falsy). -/
def truthyS : Option String → Bool
  | none => false
  | some s => decide (s ≠ "")

/-- `BulkRenameConfig._normalize_extensions`. -/
def normalize_extensions (exts : Option (List String)) : Option (List String) :=
  match exts with
  | none => none
  | some l =>
    if l.isEmpty then none
    else
      let normalized := l.filterMap (fun ext =>
        if ext = "" then none
        else
          let low : String := ⟨ext.data.map Char.toLower⟩
          if low.startsWith "." then some low else some ("." ++ low))
      if normalized.isEmpty then none else some normalized

/-- Ambient oracles: the `re` module and the clock, which are exterior to
the repository.  `reSub p r s` models `re.sub(p, r, s)` (error = `re.error`
message), `strftime` models `time.strftime`, `epoch` models
`str(int(time.time()))`, and `now` is the mtime given to newly created
filesystem entries. -/
structure Env where
  reSub : String → String → String → Except String String
  strftime : String → String
  epoch : String
  now : Int

/-- `BulkRenameConfig.validate`. -/
def validate (fs : FS) (cfg : BulkRenameConfig) : Except PyError Unit :=
  if cfg.directory = "" then
    .error (.valueError "A directory path is required.")
  else if ¬ pyExists fs cfg.directory then
    .error (.valueError ("Directory not found: " ++ cfg.directory))
  else if (fs.readDir cfg.directory).isNone then
    .error (.valueError ("Path is not a directory: " ++ cfg.directory))
  else if cfg.numbering ∧ cfg.numberingPadding < 0 then
    .error (.valueError "Numbering padding must be non-negative.")
  else if cfg.numbering ∧ cfg.numberingStart < 0 then
    .error (.valueError "Numbering start must be non-negative.")
  else if truthyS cfg.regexPattern ≠ truthyS cfg.regexReplacement then
    .error (.valueError "Both --regex-pattern and --regex-replacement are required together.")
  else .ok ()

/-! ### Plan building and apply (`rename_files`) -/

/-- One row of a plan/log (`rename_records` entry). -/
structure Record where
  original_name : String
  new_name : String
  original_path : String
  new_path : String
  skipped : Option String
  renamed_at : Option String
deriving DecidableEq, Repr

/-- The dictionary returned by `rename_files`. -/
structure RenameResult where
  renamed_count : Nat
  backup_dir : Option String
  log_file : Option String
  dry_run : Bool
  records : List Record
deriving DecidableEq, Repr

/-- Extension filter of `_collect_files`: keep the entry when no allow-list
is set, or when the lower-cased extension is listed. -/
def matchExt (exts : Option (List String)) (name : String) : Bool :=
  match exts with
  | none => true
  | some es =>
    let ext : String := ⟨((splitextData name.data).2).map Char.toLower⟩
    es.contains ext

/-- Names of the regular files directly inside `dir`, in store order. -/
def listNames (fs : FS) (dir : String) : List String :=
  fs.files.filterMap (fun e => childOf? dir e.1)

/-- The unsorted matching file paths of `_collect_files`. -/
def matchingFiles (fs : FS) (dir : String) (exts : Option (List String)) : List String :=
  (listNames fs dir).filterMap (fun name =>
    if matchExt exts name then some (joinPath dir name) else none)

/-- `_collect_files`: gather matching files of the directory and sort their
paths. -/
def collect_files (fs : FS) (dir : String) (exts : Option (List String)) : List String :=
  insSort strLe (matchingFiles fs dir exts)

/-- The numbering token of `_build_new_name` (lines 195-198):
`str(counter).zfill(padding) if padding else str(counter)` with
`padding = max(0, numbering_padding)`. -/
def pyNumToken (cfg : BulkRenameConfig) (counter : Int) : String :=
  let padding := (max 0 cfg.numberingPadding).toNat
  if padding ≠ 0 then ⟨zfillData (toString counter).data padding⟩
  else toString counter

/-- `_build_new_name`. -/
def build_new_name (env : Env) (cfg : BulkRenameConfig) (original_name : String)
    (counter : Int) : Except PyError String :=
  let se := pySplitext original_name
  let stem := se.1
  let extension := se.2
  let subbed : Except PyError String :=
    if truthyS cfg.regexPattern && truthyS cfg.regexReplacement then
      match env.reSub (cfg.regexPattern.getD "") (cfg.regexReplacement.getD "") stem with
      | .ok s => .ok s
      | .error e => .error (.valueError ("Invalid regex pattern: " ++ e))
    else .ok stem
  match subbed with
  | .error e => .error e
  | .ok new_stem =>
    if new_stem = "" then
      .error (.valueError ("Regex produced an empty file name for " ++ original_name ++ "."))
    else
      let s1 := if cfg.prefixStr = "" then new_stem else cfg.prefixStr ++ new_stem
      let s2 := if cfg.suffixStr = "" then s1 else s1 ++ cfg.suffixStr
      let s3 := if cfg.numbering then s2 ++ pyNumToken cfg counter else s2
      let s4 :=
        if cfg.timestamp then s3 ++ replaceSpaces (env.strftime cfg.timestampFormat)
        else s3
      .ok (s4 ++ extension)

/-- `_ensure_directory`. -/
def ensure_directory (env : Env) (fs : FS) (p : String) : FS :=
  if pyExists fs p then fs else fs.mkdir p env.now

/-- `shutil.copy2 src dst`: requires `src` to be an existing file; copying
onto an existing directory copies into it under the source's base name;
content and mtime are preserved. -/
def copy2 (fs : FS) (src dst : String) : Except PyError FS :=
  match fs.read src with
  | none =>
    if (fs.readDir src).isSome then .error (.ioError ("IsADirectoryError: " ++ src))
    else .error (.ioError ("FileNotFoundError: " ++ src))
  | some d =>
    match fs.readDir dst with
    | some _ => .ok (fs.setFile (joinPath dst (pyBasename src)) d)
    | none => .ok (fs.setFile dst d)

/-- `os.replace src dst`: move `src` onto `dst`, overwriting a file there. -/
def pyReplace (fs : FS) (src dst : String) : Except PyError FS :=
  match fs.read src with
  | none => .error (.ioError ("FileNotFoundError: " ++ src))
  | some d =>
    if (fs.readDir dst).isSome then .error (.ioError ("IsADirectoryError: " ++ dst))
    else .ok ((fs.removeFile src).setFile dst d)

/-- `os.remove p`. -/
def pyRemove (fs : FS) (p : String) : Except PyError FS :=
  match fs.read p with
  | some _ => .ok (fs.removeFile p)
  | none =>
    if (fs.readDir p).isSome then .error (.ioError ("IsADirectoryError: " ++ p))
    else .error (.ioError ("FileNotFoundError: " ++ p))

/-- JSON encoding of one record as written by `json.dump` (dict insertion
order: the four path fields, then `skipped` or `renamed_at` if set). -/
def recToJVal (r : Record) : JVal :=
  .jobj ([("original_name", .jstr r.original_name),
          ("new_name", .jstr r.new_name),
          ("original_path", .jstr r.original_path),
          ("new_path", .jstr r.new_path)]
    ++ (match r.skipped with | some s => [("skipped", JVal.jstr s)] | none => [])
    ++ (match r.renamed_at with | some t => [("renamed_at", JVal.jstr t)] | none => []))

/-- `_write_log`. -/
def write_log (env : Env) (fs : FS) (log_path : String) (records : List Record) : FS :=
  fs.setFile log_path
    ⟨.json (.jobj [("renamed_files", .jarr (records.map recToJVal)),
                   ("generated_at", .jstr (env.strftime "%Y-%m-%d %H:%M:%S"))]),
     env.now⟩

/-- The per-file loop of `rename_files` (lines 106-141).  Returns the
filesystem reached (mutations before a raise persist), the final counter and
either the records of the processed files or the raised error. -/
def renameLoop (env : Env) (cfg : BulkRenameConfig) (backup_dir : String) :
    List String → FS → Int → FS × Int × Except PyError (List Record)
  | [], fs, counter => (fs, counter, .ok [])
  | file_path :: rest, fs, counter =>
    let original_name := pyBasename file_path
    match build_new_name env cfg original_name counter with
    | .error e => (fs, counter, .error e)
    | .ok new_name =>
      let new_path := joinPath cfg.directory new_name
      let counter' := if cfg.numbering then counter + 1 else counter
      let rec0 : Record := ⟨original_name, new_name, file_path, new_path, none, none⟩
      if cfg.dryRun then
        let out := renameLoop env cfg backup_dir rest fs counter'
        (out.1, out.2.1, out.2.2.map (fun rs => rec0 :: rs))
      else if file_path = new_path then
        let out := renameLoop env cfg backup_dir rest fs counter'
        (out.1, out.2.1, out.2.2.map (fun rs => {rec0 with skipped := some "Name unchanged."} :: rs))
      else if pyExists fs new_path then
        (fs, counter, .error (.fileExistsError ("Target file already exists: " ++ new_path)))
      else
        let fs1 := ensure_directory env fs backup_dir
        let backup_path := joinPath backup_dir original_name
        match copy2 fs1 file_path backup_path with
        | .error e => (fs1, counter, .error e)
        | .ok fs2 =>
          match pyReplace fs2 file_path new_path with
          | .error e => (fs2, counter, .error e)
          | .ok fs3 =>
            let recR : Record :=
              {rec0 with renamed_at := some (env.strftime "%Y-%m-%d %H:%M:%S")}
            let out := renameLoop env cfg backup_dir rest fs3 counter'
            (out.1, out.2.1, out.2.2.map (fun rs => recR :: rs))

/-- Default backup directory (line 96-98): the override when truthy, else
`backup_<epoch>` inside the target directory. -/
def backupDirOf (env : Env) (cfg : BulkRenameConfig) : String :=
  if truthyS cfg.backupDir then cfg.backupDir.getD ""
  else joinPath cfg.directory ("backup_" ++ env.epoch)

/-- Default log file (line 99-101). -/
def logFileOf (env : Env) (cfg : BulkRenameConfig) : String :=
  if truthyS cfg.logFile then cfg.logFile.getD ""
  else joinPath cfg.directory ("rename_log_" ++ env.epoch ++ ".json")

/-- `rename_files`. -/
def rename_files (env : Env) (cfg : BulkRenameConfig) (fs : FS) :
    FS × Except PyError RenameResult :=
  match validate fs cfg with
  | .error e => (fs, .error e)
  | .ok _ =>
    let files := collect_files fs cfg.directory cfg.extensions
    if files.isEmpty then
      (fs, .error (.valueError "No files found to rename. Check the directory or extension filters."))
    else
      let backup_dir := backupDirOf env cfg
      let log_file := logFileOf env cfg
      match renameLoop env cfg backup_dir files fs cfg.numberingStart with
      | (fs1, _, .error e) => (fs1, .error e)
      | (fs1, _, .ok records) =>
        let fs2 := if cfg.dryRun then fs1 else write_log env fs1 log_file records
        (fs2, .ok ⟨records.length,
                   if cfg.dryRun then none else some backup_dir,
                   if cfg.dryRun then none else some log_file,
                   cfg.dryRun, records⟩)

/-! ### Undo engine (`undo.py`) -/

/-- Does this name match the glob `rename_log_*.json`? -/
def logGlobName (name : String) : Bool :=
  startsD "rename_log_".data name.data && endsD ".json".data name.data
    && decide (16 ≤ name.data.length)

/-- Does this name match the glob `backup_*`? -/
def backupGlobName (name : String) : Bool :=
  startsD "backup_".data name.data

/-- `glob.glob(os.path.join(dir, pattern))` paired with `os.path.getmtime`:
matching direct children among files and directories, in store enumeration
order (files, then directories). -/
def globMtime (fs : FS) (dir : String) (pat : String → Bool) : List (String × Int) :=
  fs.files.filterMap (fun e =>
      match childOf? dir e.1 with
      | some n => if pat n then some (e.1, e.2.mtime) else none
      | none => none)
    ++ fs.dirs.filterMap (fun e =>
      match childOf? dir e.1 with
      | some n => if pat n then some (e.1, e.2) else none
      | none => none)

/-- `find_latest_log`. -/
def find_latest_log (fs : FS) (directory : String) : Option String :=
  match insSort descMtime (globMtime fs directory logGlobName) with
  | [] => none
  | c :: _ => some c.1

/-- `load_rename_log`: `None` on `FileNotFoundError` or `JSONDecodeError`;
opening a directory raises. -/
def load_rename_log (fs : FS) (log_file : String) : Except PyError (Option JVal) :=
  match fs.read log_file with
  | some d =>
    match d.content with
    | .json v => .ok (some v)
    | .raw _ => .ok none
  | none =>
    if (fs.readDir log_file).isSome then .error (.ioError ("IsADirectoryError: " ++ log_file))
    else .ok none

/-- Python `dict.get(key, default)`; raises `AttributeError` on a non-dict. -/
def pyGet (v : JVal) (k : String) (dflt : JVal) : Except PyError JVal :=
  match v with
  | .jobj kvs => .ok ((lookupP kvs k).getD dflt)
  | _ => .error (.attributeError ("object has no attribute get: " ++ k))

/-- Python `v[0]`. -/
def firstElem : JVal → Except PyError JVal
  | .jarr (x :: _) => .ok x
  | .jarr [] => .error (.indexError "list index out of range")
  | .jstr s =>
    match s.data with
    | c :: _ => .ok (.jstr ⟨[c]⟩)
    | [] => .error (.indexError "string index out of range")
  | .jobj _ => .error (.keyError "0")
  | _ => .error (.typeError "object is not subscriptable")

/-- Python `for x in v`: lists yield elements, strings characters, dicts
keys; other values are not iterable. -/
def toIter : JVal → Except PyError (List JVal)
  | .jarr xs => .ok xs
  | .jstr s => .ok (s.data.map (fun c => .jstr ⟨[c]⟩))
  | .jobj kvs => .ok (kvs.map (fun kv => .jstr kv.1))
  | _ => .error (.typeError "object is not iterable")

/-- Use a JSON value where a path string is required (`os.path` functions
raise `TypeError` on non-strings). -/
def asPath : JVal → Except PyError String
  | .jstr s => .ok s
  | _ => .error (.typeError "expected str, bytes or os.PathLike object")

/-- Rendering inside an f-string (`str(v)`); composite values only occur in
statuses and are not inspected by any claim. -/
def jfmt : JVal → String
  | .jstr s => s
  | .jnum n => toString n
  | .jbool true => "True"
  | .jbool false => "False"
  | .jnull => "None"
  | .jarr _ => "[...]"
  | .jobj _ => "{...}"

/-- The dictionary returned by `undo_rename`. -/
structure UndoResult where
  success : Bool
  restored_count : Nat
  skipped_count : Nat
  error_message : String
  log_file : String
  backup_dir : String
  details : List (JVal × String)

/-- The per-record loop of `undo_rename` (lines 137-185).  Errors raised
inside the `try` block are caught per record; errors outside it propagate,
with the filesystem reached so far. -/
def undoLoop (backup_dir : String) :
    List JVal → FS → Nat → Nat → List (JVal × String) →
    FS × Except PyError (Nat × Nat × List (JVal × String))
  | [], fs, restored, skipped_n, details => (fs, .ok (restored, skipped_n, details))
  | recJ :: rest, fs, restored, skipped_n, details =>
    match pyGet recJ "original_name" (.jstr "") with
    | .error e => (fs, .error e)
    | .ok original_nameV =>
      match pyGet recJ "new_name" (.jstr "") with
      | .error e => (fs, .error e)
      | .ok new_nameV =>
        match pyGet recJ "original_path" (.jstr "") with
        | .error e => (fs, .error e)
        | .ok original_pathV =>
          match pyGet recJ "new_path" (.jstr "") with
          | .error e => (fs, .error e)
          | .ok new_pathV =>
            match pyGet recJ "skipped" .jnull with
            | .error e => (fs, .error e)
            | .ok skippedV =>
              if skippedV.truthy then
                undoLoop backup_dir rest fs restored (skipped_n + 1)
                  (details ++ [(original_nameV, "Skipped (was not renamed)")])
              else
                match asPath original_nameV with
                | .error e => (fs, .error e)
                | .ok original_name =>
                  let backup_file_path := joinPath backup_dir original_name
                  if ¬ pyExists fs backup_file_path then
                    undoLoop backup_dir rest fs restored (skipped_n + 1)
                      (details ++ [(original_nameV, "Backup file not found: " ++ jfmt original_nameV)])
                  else
                    match asPath new_pathV with
                    | .error e => (fs, .error e)
                    | .ok new_path =>
                      if ¬ pyExists fs new_path then
                        undoLoop backup_dir rest fs restored (skipped_n + 1)
                          (details ++ [(original_nameV, "Current file missing: " ++ jfmt new_nameV)])
                      else
                        -- from here on exceptions are caught by `except Exception`
                        match asPath original_pathV with
                        | .error e =>
                          undoLoop backup_dir rest fs restored (skipped_n + 1)
                            (details ++ [(original_nameV, "Error: " ++ errMsg e)])
                        | .ok original_path =>
                          match copy2 fs backup_file_path original_path with
                          | .error e =>
                            undoLoop backup_dir rest fs restored (skipped_n + 1)
                              (details ++ [(original_nameV, "Error: " ++ errMsg e)])
                          | .ok fs1 =>
                            match (if pyExists fs1 new_path ∧ new_path ≠ original_path then
                                     pyRemove fs1 new_path
                                   else .ok fs1) with
                            | .error e =>
                              undoLoop backup_dir rest fs1 restored (skipped_n + 1)
                                (details ++ [(original_nameV, "Error: " ++ errMsg e)])
                            | .ok fs2 =>
                              undoLoop backup_dir rest fs2 (restored + 1) skipped_n
                                (details ++ [(original_nameV, "Restored successfully")])

/-- `undo_rename`. -/
def undo_rename (fs : FS) (directory : String) (log_file? : Option String) :
    FS × Except PyError UndoResult :=
  let r0 : UndoResult := ⟨false, 0, 0, "", "", "", []⟩
  match (match log_file? with
         | none => find_latest_log fs directory
         | some lf => some lf) with
  | none => (fs, .ok {r0 with error_message := "No rename log files found in directory."})
  | some lf =>
    let r1 := {r0 with log_file := lf}
    match load_rename_log fs lf with
    | .error e => (fs, .error e)
    | .ok none => (fs, .ok {r1 with error_message := "Failed to read log file: " ++ lf})
    | .ok (some log_data) =>
      match pyGet log_data "renamed_files" (.jarr []) with
      | .error e => (fs, .error e)
      | .ok renamed_files =>
        if ¬ renamed_files.truthy then
          (fs, .ok {r1 with error_message := "Log file contains no rename records."})
        else
          match firstElem renamed_files with
          | .error e => (fs, .error e)
          | .ok first_record =>
            match pyGet first_record "original_path" (.jstr "") with
            | .error e => (fs, .error e)
            | .ok original_pathV =>
              if ¬ original_pathV.truthy then
                (fs, .ok {r1 with error_message := "Log file format invalid (missing original_path)."})
              else
                match asPath original_pathV with
                | .error e => (fs, .error e)
                | .ok original_path0 =>
                  let parent_dir := pyDirname original_path0
                  match insSort descMtime (globMtime fs parent_dir backupGlobName) with
                  | [] =>
                    (fs, .ok {r1 with error_message := "No backup directories found in " ++ parent_dir})
                  | bd :: _ =>
                    let backup_dir := bd.1
                    let r2 := {r1 with backup_dir := backup_dir}
                    if ¬ pyExists fs backup_dir then
                      (fs, .ok {r2 with error_message := "Backup directory not found: " ++ backup_dir})
                    else
                      match toIter renamed_files with
                      | .error e => (fs, .error e)
                      | .ok recordsJ =>
                        match undoLoop backup_dir recordsJ fs 0 0 [] with
                        | (fs1, .error e) => (fs1, .error e)
                        | (fs1, .ok (restored, skipped_n, details)) =>
                          (fs1, .ok {r2 with
                            success := decide (0 < restored),
                            restored_count := restored,
                            skipped_count := skipped_n,
                            error_message :=
                              if restored = 0 then
                                "No files could be restored. Check backup directory."
                              else "",
                            details := details})

/-! ### Basic lemmas about the store -/

theorem lookupP_eraseKey {α : Type} (l : List (String × α)) (p q : String) :
    lookupP (eraseKey l p) q = if q = p then none else lookupP l q := by
  induction l with
  | nil => simp [eraseKey, lookupP]
  | cons e rest ih =>
    obtain ⟨k, v⟩ := e
    by_cases hk : k = p
    · rw [show eraseKey ((k, v) :: rest) p = eraseKey rest p by simp [eraseKey, hk]]
      rw [ih]
      by_cases hq : q = p
      · simp [hq]
      · have hkq : ¬ k = q := fun h => hq (h.symm.trans hk)
        simp [hq, lookupP, hkq]
    · rw [show eraseKey ((k, v) :: rest) p = (k, v) :: eraseKey rest p by simp [eraseKey, hk]]
      by_cases hkq : k = q
      · have hq : ¬ q = p := fun h => hk (hkq.trans h)
        simp [lookupP, hkq, hq]
      · simp [lookupP, hkq, ih]

theorem FS.read_setFile (fs : FS) (p : String) (d : FileData) (q : String) :
    (fs.setFile p d).read q = if q = p then some d else fs.read q := by
  unfold FS.setFile FS.read
  simp only [lookupP]
  by_cases hq : q = p
  · simp [hq, lookupP]
  · simp [hq, lookupP_eraseKey, Ne.symm hq]

theorem FS.read_removeFile (fs : FS) (p : String) (q : String) :
    (fs.removeFile p).read q = if q = p then none else fs.read q := by
  unfold FS.removeFile FS.read
  simp [lookupP_eraseKey]

theorem FS.read_mkdir (fs : FS) (p : String) (t : Int) (q : String) :
    (fs.mkdir p t).read q = fs.read q := rfl

theorem FS.readDir_mkdir (fs : FS) (p : String) (t : Int) (q : String) :
    (fs.mkdir p t).readDir q = if q = p then some t else fs.readDir q := by
  unfold FS.mkdir FS.readDir
  simp only [lookupP]
  by_cases hq : q = p
  · simp [hq, lookupP]
  · simp [hq, lookupP_eraseKey, Ne.symm hq]

theorem FS.readDir_setFile (fs : FS) (p : String) (d : FileData) (q : String) :
    (fs.setFile p d).readDir q = fs.readDir q := rfl

theorem FS.readDir_removeFile (fs : FS) (p : String) (q : String) :
    (fs.removeFile p).readDir q = fs.readDir q := rfl

theorem FS.dirs_setFile (fs : FS) (p : String) (d : FileData) :
    (fs.setFile p d).dirs = fs.dirs := rfl

theorem FS.dirs_removeFile (fs : FS) (p : String) :
    (fs.removeFile p).dirs = fs.dirs := rfl

/-! ### Insertion sort lemmas -/

theorem insertLe_length {α : Type} (le : α → α → Bool) (x : α) (l : List α) :
    (insertLe le x l).length = l.length + 1 := by
  induction l with
  | nil => rfl
  | cons y ys ih =>
    unfold insertLe
    by_cases h : le x y = true <;> simp [h, ih]

theorem insSort_length {α : Type} (le : α → α → Bool) (l : List α) :
    (insSort le l).length = l.length := by
  induction l with
  | nil => rfl
  | cons x xs ih => simp [insSort, insertLe_length, ih]

theorem insertLe_perm {α : Type} (le : α → α → Bool) (x : α) (l : List α) :
    (insertLe le x l).Perm (x :: l) := by
  induction l with
  | nil => simp [insertLe]
  | cons y ys ih =>
    unfold insertLe
    by_cases h : le x y = true
    · simp [h]
    · simp only [h, if_false]
      exact ((ih.cons y).trans (List.Perm.swap x y ys))

theorem insSort_perm {α : Type} (le : α → α → Bool) (l : List α) :
    (insSort le l).Perm l := by
  induction l with
  | nil => simp [insSort]
  | cons x xs ih => exact (insertLe_perm le x (insSort le xs)).trans (ih.cons x)

theorem insertLe_pairwise {α : Type} (le : α → α → Bool)
    (htot : ∀ a b : α, le a b = true ∨ le b a = true)
    (htrans : ∀ a b c : α, le a b = true → le b c = true → le a c = true)
    (x : α) (l : List α)
    (hl : l.Pairwise (fun a b => le a b = true)) :
    (insertLe le x l).Pairwise (fun a b => le a b = true) := by
  induction l with
  | nil => simp [insertLe]
  | cons y ys ih =>
    rcases List.pairwise_cons.mp hl with ⟨hy, hys⟩
    unfold insertLe
    by_cases h : le x y = true
    · simp only [h, if_true]
      refine List.pairwise_cons.mpr ⟨?_, hl⟩
      intro b hb
      rcases List.mem_cons.mp hb with hb | hb
      · exact hb ▸ h
      · exact htrans x y b h (hy b hb)
    · simp only [h, if_false]
      refine List.pairwise_cons.mpr ⟨?_, ih hys⟩
      intro b hb
      have hmem : b = x ∨ b ∈ ys := by
        have := (insertLe_perm le x ys).mem_iff.mp hb
        simpa using this
      rcases hmem with hb' | hb'
      · rcases htot x y with hxy | hyx
        · exact absurd hxy h
        · rw [hb']
          exact hyx
      · exact hy b hb'

theorem insSort_pairwise {α : Type} (le : α → α → Bool)
    (htot : ∀ a b : α, le a b = true ∨ le b a = true)
    (htrans : ∀ a b c : α, le a b = true → le b c = true → le a c = true)
    (l : List α) :
    (insSort le l).Pairwise (fun a b => le a b = true) := by
  induction l with
  | nil => simp [insSort]
  | cons x xs ih => exact insertLe_pairwise le htot htrans x (insSort le xs) ih

theorem strLeData_total (a b : List Char) :
    strLeData a b = true ∨ strLeData b a = true := by
  induction a generalizing b with
  | nil => exact Or.inl rfl
  | cons x xs ih =>
    cases b with
    | nil => exact Or.inr rfl
    | cons y ys =>
      by_cases hxy : x.toNat < y.toNat
      · left
        simp only [strLeData]
        rw [if_pos hxy]
      · by_cases hyx : y.toNat < x.toNat
        · right
          simp only [strLeData]
          rw [if_pos hyx]
        · rcases ih ys with h | h
          · left
            simp only [strLeData]
            rw [if_neg hxy, if_neg hyx]
            exact h
          · right
            simp only [strLeData]
            rw [if_neg hyx, if_neg hxy]
            exact h

theorem strLeData_trans (a b c : List Char) :
    strLeData a b = true → strLeData b c = true → strLeData a c = true := by
  induction a generalizing b c with
  | nil => intro _ _; rfl
  | cons x xs ih =>
    intro h1 h2
    cases b with
    | nil => exact absurd h1 (by simp [strLeData])
    | cons y ys =>
      cases c with
      | nil => exact absurd h2 (by simp [strLeData])
      | cons z zs =>
        simp only [strLeData] at h1 h2 ⊢
        by_cases hxy : x.toNat < y.toNat
        · by_cases hyz : y.toNat < z.toNat
          · have : x.toNat < z.toNat := by omega
            simp [this]
          · by_cases hzy : z.toNat < y.toNat
            · rw [if_neg hyz, if_pos hzy] at h2
              exact absurd h2 (by simp)
            · have : x.toNat < z.toNat := by omega
              simp [this]
        · by_cases hyx : y.toNat < x.toNat
          · rw [if_neg hxy, if_pos hyx] at h1
            exact absurd h1 (by simp)
          · rw [if_neg hxy, if_neg hyx] at h1
            by_cases hyz : y.toNat < z.toNat
            · have : x.toNat < z.toNat := by omega
              simp [this]
            · by_cases hzy : z.toNat < y.toNat
              · rw [if_neg hyz, if_pos hzy] at h2
                exact absurd h2 (by simp)
              · rw [if_neg hyz, if_neg hzy] at h2
                have hxz : ¬ x.toNat < z.toNat := by omega
                have hzx : ¬ z.toNat < x.toNat := by omega
                rw [if_neg hxz, if_neg hzx]
                exact ih ys zs h1 h2

theorem strLe_total (a b : String) : strLe a b = true ∨ strLe b a = true :=
  strLeData_total a.data b.data

theorem strLe_trans (a b c : String) :
    strLe a b = true → strLe b c = true → strLe a c = true :=
  strLeData_trans a.data b.data c.data

theorem descMtime_total (a b : String × Int) :
    descMtime a b = true ∨ descMtime b a = true := by
  unfold descMtime
  rcases le_total a.2 b.2 with h | h
  · exact Or.inr (by simpa using h)
  · exact Or.inl (by simpa using h)

theorem descMtime_trans (a b c : String × Int) :
    descMtime a b = true → descMtime b c = true → descMtime a c = true := by
  unfold descMtime
  intro h1 h2
  have h1' : b.2 ≤ a.2 := by simpa using h1
  have h2' : c.2 ≤ b.2 := by simpa using h2
  simpa using le_trans h2' h1'

/-! ### Path lemmas -/

theorem hasSlash_append (l₁ l₂ : List Char) :
    hasSlash (l₁ ++ l₂) = (hasSlash l₁ || hasSlash l₂) := by
  induction l₁ with
  | nil => simp [hasSlash]
  | cons c t ih => simp [hasSlash, ih, Bool.or_assoc]

theorem hasSlash_false_forall {l : List Char} (h : hasSlash l = false) :
    ∀ c ∈ l, c ≠ '/' := by
  induction l with
  | nil => simp
  | cons a t ih =>
    simp only [hasSlash, Bool.or_eq_false_iff, decide_eq_false_iff_not] at h
    intro c hc
    rcases List.mem_cons.mp hc with hc | hc
    · exact hc ▸ h.1
    · exact ih h.2 c hc

theorem stripPre_self_append (pre rest : List Char) :
    stripPre pre (pre ++ rest) = some rest := by
  induction pre with
  | nil => rfl
  | cons a t ih => simp [stripPre, ih]

theorem stripPre_eq_some {pre l rest : List Char} (h : stripPre pre l = some rest) :
    l = pre ++ rest := by
  induction pre generalizing l with
  | nil =>
    simp only [stripPre, Option.some.injEq] at h
    simp [h]
  | cons a t ih =>
    cases l with
    | nil => exact absurd h (by simp [stripPre])
    | cons b bs =>
      simp only [stripPre] at h
      by_cases hab : a = b
      · rw [if_pos hab] at h
        rw [hab, List.cons_append, ih h]
      · rw [if_neg hab] at h
        exact absurd h (by simp)

theorem data_joinPath (d n : String) :
    (joinPath d n).data = (d.data ++ ['/']) ++ n.data := by
  unfold joinPath
  rw [String.data_append, String.data_append]

theorem childOf?_joinPath (dir name : String)
    (hne : name.data ≠ []) (hns : hasSlash name.data = false) :
    childOf? dir (joinPath dir name) = some name := by
  unfold childOf?
  rw [data_joinPath, stripPre_self_append]
  have h1 : name.data.isEmpty = false := by
    cases hd : name.data with
    | nil => exact absurd hd hne
    | cons a t => rfl
  simp only [Option.some_bind, h1, hns, Bool.or_self, if_false]
  simp

theorem childOf?_eq_some {dir p name : String} (h : childOf? dir p = some name) :
    p = joinPath dir name ∧ name.data ≠ [] ∧ hasSlash name.data = false := by
  unfold childOf? at h
  rcases hs : stripPre (dir.data ++ ['/']) p.data with _ | rest
  · rw [hs] at h
    exact absurd h (by simp)
  · rw [hs, Option.some_bind] at h
    by_cases hc : (rest.isEmpty || hasSlash rest) = true
    · rw [if_pos hc] at h
      exact absurd h (by simp)
    · rw [if_neg hc] at h
      have hrest : name = (⟨rest⟩ : String) := by
        injection h with h
        exact h.symm
      subst hrest
      have hp : p.data = (dir.data ++ ['/']) ++ rest := stripPre_eq_some hs
      simp only [Bool.or_eq_true, not_or, Bool.not_eq_true] at hc
      refine ⟨String.ext ?_, ?_, hc.2⟩
      · rw [data_joinPath, hp]
      · intro hnil
        have hr : rest = [] := hnil
        rw [hr] at hc
        simp [List.isEmpty] at hc

theorem joinPath_inj {d a b : String} (h : joinPath d a = joinPath d b) : a = b := by
  have hd : (joinPath d a).data = (joinPath d b).data := by rw [h]
  rw [data_joinPath, data_joinPath] at hd
  exact String.ext (List.append_cancel_left hd)

theorem ne_of_childOf_some_none {dir p q : String} {a : String}
    (hp : childOf? dir p = some a) (hq : childOf? dir q = none) : p ≠ q := by
  intro h
  rw [h, hq] at hp
  exact absurd hp (by simp)

theorem ne_of_childOf_some_some {dir p q : String} {a b : String}
    (hp : childOf? dir p = some a) (hq : childOf? dir q = some b) (hab : a ≠ b) :
    p ≠ q := by
  intro h
  rw [h, hq] at hp
  injection hp with hp
  exact hab hp.symm

/-- A path in a subdirectory of `dir` is not a direct child of `dir`. -/
theorem childOf?_joinPath_joinPath (dir sub name : String)
    (hs : hasSlash sub.data = false) :
    childOf? dir (joinPath (joinPath dir sub) name) = none := by
  unfold childOf?
  have : (joinPath (joinPath dir sub) name).data
      = (dir.data ++ ['/']) ++ (sub.data ++ '/' :: name.data) := by
    rw [data_joinPath, data_joinPath]
    simp
  rw [this, stripPre_self_append]
  have hsl : hasSlash (sub.data ++ '/' :: name.data) = true := by
    rw [hasSlash_append]
    simp [hasSlash]
  simp [hsl]

theorem takeWhile_append_all {p : Char → Bool} {l₁ : List Char} (l₂ : List Char)
    (h : ∀ c ∈ l₁, p c = true) :
    (l₁ ++ l₂).takeWhile p = l₁ ++ l₂.takeWhile p := by
  induction l₁ with
  | nil => simp
  | cons a t ih =>
    have hpa : p a = true := h a (List.mem_cons_self a t)
    simp only [List.cons_append, List.takeWhile_cons, hpa, if_true]
    exact congrArg (List.cons a) (ih (fun c hc => h c (List.mem_cons_of_mem a hc)))

theorem dropWhile_append_all {p : Char → Bool} {l₁ : List Char} (l₂ : List Char)
    (h : ∀ c ∈ l₁, p c = true) :
    (l₁ ++ l₂).dropWhile p = l₂.dropWhile p := by
  induction l₁ with
  | nil => simp
  | cons a t ih =>
    have ha : p a = true := h a (by simp)
    simp only [List.cons_append, List.dropWhile_cons, ha, if_true]
    exact ih (fun c hc => h c (by simp [hc]))

theorem pyBasename_joinPath (dir name : String) (hns : hasSlash name.data = false) :
    pyBasename (joinPath dir name) = name := by
  unfold pyBasename basenameData
  rw [data_joinPath]
  have hrev : ((dir.data ++ ['/']) ++ name.data).reverse
      = name.data.reverse ++ '/' :: dir.data.reverse := by
    simp
  rw [hrev]
  have hall : ∀ c ∈ name.data.reverse, (fun c => decide (c ≠ '/')) c = true := by
    intro c hc
    simp only [decide_eq_true_eq]
    exact hasSlash_false_forall hns c (List.mem_reverse.mp hc)
  rw [takeWhile_append_all _ hall]
  have : List.takeWhile (fun c => decide (c ≠ '/')) ('/' :: dir.data.reverse) = [] := by
    simp [List.takeWhile_cons]
  rw [this, List.append_nil, List.reverse_reverse]

/-- `dir` is a usable directory path: nonempty without a trailing slash. -/
def goodDir (dir : String) : Bool :=
  match dir.data.reverse with
  | [] => false
  | c :: _ => decide (c ≠ '/')

theorem pyDirname_joinPath (dir name : String) (hgd : goodDir dir = true)
    (hns : hasSlash name.data = false) :
    pyDirname (joinPath dir name) = dir := by
  unfold pyDirname dirnameData
  rw [data_joinPath]
  have hrev : ((dir.data ++ ['/']) ++ name.data).reverse
      = name.data.reverse ++ '/' :: dir.data.reverse := by
    simp
  rw [hrev]
  have hall : ∀ c ∈ name.data.reverse, (fun c => decide (c ≠ '/')) c = true := by
    intro c hc
    simp only [decide_eq_true_eq]
    exact hasSlash_false_forall hns c (List.mem_reverse.mp hc)
  rw [dropWhile_append_all _ hall]
  have hdrop : List.dropWhile (fun c => decide (c ≠ '/')) ('/' :: dir.data.reverse)
      = '/' :: dir.data.reverse := by
    simp [List.dropWhile_cons]
  rw [hdrop]
  simp only [List.reverse_cons, List.reverse_reverse]
  unfold goodDir at hgd
  rcases hrd : dir.data.reverse with _ | ⟨c, t⟩
  · rw [hrd] at hgd
    simp at hgd
  · rw [hrd] at hgd
    simp only [decide_eq_true_eq] at hgd
    have hnotall : ¬ (dir.data ++ ['/']).all (fun c => decide (c = '/')) = true := by
      intro hall'
      have hc : c ∈ dir.data := by
        have : c ∈ dir.data.reverse := by rw [hrd]; simp
        exact List.mem_reverse.mp this
      have := List.all_eq_true.mp hall' c (by simp [hc])
      exact hgd (by simpa using this)
    rw [if_neg hnotall]
    have : (dir.data ++ ['/']).reverse = '/' :: dir.data.reverse := by simp
    rw [this]
    rw [hrd]
    have hdrop2 : List.dropWhile (fun c => decide (c = '/')) ('/' :: c :: t)
        = c :: t := by
      simp only [List.dropWhile_cons, decide_True, if_true]
      simp [List.dropWhile_cons, hgd]
    rw [hdrop2, ← hrd, List.reverse_reverse]

/-! ### Glob-name lemmas -/

theorem startsD_append (pre rest : List Char) : startsD pre (pre ++ rest) = true := by
  induction pre with
  | nil => rfl
  | cons a t ih => simp [startsD, ih]

theorem startsD_eq_true {pre l : List Char} (h : startsD pre l = true) :
    ∃ rest, l = pre ++ rest := by
  induction pre generalizing l with
  | nil => exact ⟨l, rfl⟩
  | cons a t ih =>
    cases l with
    | nil => exact absurd h (by simp [startsD])
    | cons b bs =>
      simp only [startsD, Bool.and_eq_true, decide_eq_true_eq] at h
      obtain ⟨rest, hrest⟩ := ih h.2
      exact ⟨rest, by rw [h.1, hrest]; rfl⟩

theorem logGlobName_concat (e : String) :
    logGlobName ("rename_log_" ++ e ++ ".json") = true := by
  have hd : ("rename_log_" ++ e ++ ".json").data
      = "rename_log_".data ++ e.data ++ ".json".data := by
    rw [String.data_append, String.data_append]
  unfold logGlobName
  rw [hd]
  have h1 : startsD "rename_log_".data ("rename_log_".data ++ e.data ++ ".json".data) = true := by
    rw [List.append_assoc]
    exact startsD_append _ _
  have h2 : endsD ".json".data ("rename_log_".data ++ e.data ++ ".json".data) = true := by
    unfold endsD
    rw [List.reverse_append]
    exact startsD_append _ _
  have h3 : (16 : Nat) ≤ ("rename_log_".data ++ e.data ++ ".json".data).length := by
    simp only [List.length_append, List.length_cons, List.length_nil]
    omega
  rw [h1, h2, decide_eq_true h3]
  rfl

theorem backupGlobName_concat (e : String) :
    backupGlobName ("backup_" ++ e) = true := by
  unfold backupGlobName
  have hd : ("backup_" ++ e).data = "backup_".data ++ e.data := String.data_append _ _
  rw [hd]
  exact startsD_append _ _

theorem ne_of_glob {name₁ name₂ : String} {g : String → Bool}
    (h₁ : g name₁ = true) (h₂ : g name₂ = false) : name₁ ≠ name₂ := by
  intro h
  rw [h, h₂] at h₁
  exact absurd h₁ (by simp)

theorem isSome_false_eq_none {α : Type} {o : Option α} (h : o.isSome = false) :
    o = none := by
  cases o with
  | none => rfl
  | some a => simp at h

/-! ### Structure of the records produced by the rename loop -/

/-- What `rename_files` guarantees about the record at position `i` of the
plan, when the loop was entered with counter `c`. -/
def RecSpec (env : Env) (cfg : BulkRenameConfig) (c : Int) (i : Nat)
    (rec : Record) (fp : String) : Prop :=
  rec.original_path = fp ∧
  rec.original_name = pyBasename fp ∧
  build_new_name env cfg (pyBasename fp) (c + (if cfg.numbering then (i : Int) else 0))
    = .ok rec.new_name ∧
  rec.new_path = joinPath cfg.directory rec.new_name ∧
  (cfg.dryRun = true → rec.skipped = none ∧ rec.renamed_at = none) ∧
  (cfg.dryRun = false →
    (rec.skipped = some "Name unchanged." ∧ rec.renamed_at = none ∧
      rec.new_path = rec.original_path) ∨
    (rec.skipped = none ∧ rec.renamed_at = some (env.strftime "%Y-%m-%d %H:%M:%S") ∧
      rec.new_path ≠ rec.original_path))

theorem recSpec_shift {env : Env} {cfg : BulkRenameConfig} {c₁ c₂ : Int} {i j : Nat}
    {rec : Record} {fp : String}
    (hc : c₁ + (if cfg.numbering then (i : Int) else 0)
        = c₂ + (if cfg.numbering then (j : Int) else 0))
    (h : RecSpec env cfg c₁ i rec fp) : RecSpec env cfg c₂ j rec fp := by
  unfold RecSpec at h ⊢
  rw [← hc]
  exact h

theorem renameLoop_ok_spec (env : Env) (cfg : BulkRenameConfig) (bdir : String) :
    ∀ (l : List String) (fs : FS) (c : Int) (fs' : FS) (c' : Int) (recs : List Record),
      renameLoop env cfg bdir l fs c = (fs', c', .ok recs) →
      recs.length = l.length ∧
      ∀ i rec fp, recs[i]? = some rec → l[i]? = some fp → RecSpec env cfg c i rec fp := by
  intro l
  induction l with
  | nil =>
    intro fs c fs' c' recs h
    simp only [renameLoop, Prod.mk.injEq] at h
    obtain ⟨-, -, h3⟩ := h
    have : recs = [] := by
      cases h3
      rfl
    subst this
    exact ⟨rfl, by intro i rec fp h1 _; simp at h1⟩
  | cons fp rest ih =>
    intro fs c fs' c' recs h
    simp only [renameLoop] at h
    cases hbn : build_new_name env cfg (pyBasename fp) c with
    | error e =>
      rw [hbn] at h
      simp at h
    | ok nn =>
      rw [hbn] at h
      dsimp only at h
      by_cases hdry : cfg.dryRun = true
      · rw [if_pos hdry] at h
        rcases hrec : renameLoop env cfg bdir rest fs (if cfg.numbering then c + 1 else c)
          with ⟨fs₁, c₁, res₁⟩
        rw [hrec] at h
        cases res₁ with
        | error e => simp [Except.map] at h
        | ok rs =>
          simp only [Except.map, Prod.mk.injEq, Except.ok.injEq] at h
          obtain ⟨-, -, hrecs⟩ := h
          obtain ⟨ihlen, ihspec⟩ := ih fs (if cfg.numbering then c + 1 else c) fs₁ c₁ rs hrec
          subst hrecs
          constructor
          · simp [ihlen]
          · intro i rec fp' h1 h2
            cases i with
            | zero =>
              simp only [List.getElem?_cons_zero, Option.some.injEq] at h1 h2
              subst h1; subst h2
              refine ⟨rfl, rfl, ?_, rfl, fun _ => ⟨rfl, rfl⟩, fun hnd => absurd hdry (by simp [hnd])⟩
              simpa using hbn
            | succ i =>
              simp only [List.getElem?_cons_succ] at h1 h2
              refine recSpec_shift ?_ (ihspec i rec fp' h1 h2)
              by_cases hnum : cfg.numbering = true <;> simp [hnum] <;> push_cast <;> ring
      · rw [if_neg hdry] at h
        by_cases hskip : fp = joinPath cfg.directory nn
        · rw [if_pos hskip] at h
          rcases hrec : renameLoop env cfg bdir rest fs (if cfg.numbering then c + 1 else c)
            with ⟨fs₁, c₁, res₁⟩
          rw [hrec] at h
          cases res₁ with
          | error e => simp [Except.map] at h
          | ok rs =>
            simp only [Except.map, Prod.mk.injEq, Except.ok.injEq] at h
            obtain ⟨-, -, hrecs⟩ := h
            obtain ⟨ihlen, ihspec⟩ := ih fs (if cfg.numbering then c + 1 else c) fs₁ c₁ rs hrec
            subst hrecs
            constructor
            · simp [ihlen]
            · intro i rec fp' h1 h2
              cases i with
              | zero =>
                simp only [List.getElem?_cons_zero, Option.some.injEq] at h1 h2
                subst h1; subst h2
                refine ⟨rfl, rfl, ?_, rfl, fun hd => absurd hd (by simp [hdry]), ?_⟩
                · simpa using hbn
                · intro _
                  exact Or.inl ⟨rfl, rfl, hskip.symm⟩
              | succ i =>
                simp only [List.getElem?_cons_succ] at h1 h2
                refine recSpec_shift ?_ (ihspec i rec fp' h1 h2)
                by_cases hnum : cfg.numbering = true <;> simp [hnum] <;> push_cast <;> ring
        · rw [if_neg hskip] at h
          by_cases hex : pyExists fs (joinPath cfg.directory nn) = true
          · rw [if_pos hex] at h
            simp at h
          · rw [if_neg hex] at h
            cases hcp : copy2 (ensure_directory env fs bdir) fp (joinPath bdir (pyBasename fp)) with
            | error e =>
              rw [hcp] at h
              simp at h
            | ok fs2 =>
              rw [hcp] at h
              dsimp only at h
              cases hrp : pyReplace fs2 fp (joinPath cfg.directory nn) with
              | error e =>
                rw [hrp] at h
                simp at h
              | ok fs3 =>
                rw [hrp] at h
                dsimp only at h
                rcases hrec : renameLoop env cfg bdir rest fs3 (if cfg.numbering then c + 1 else c)
                  with ⟨fs₁, c₁, res₁⟩
                rw [hrec] at h
                cases res₁ with
                | error e => simp [Except.map] at h
                | ok rs =>
                  simp only [Except.map, Prod.mk.injEq, Except.ok.injEq] at h
                  obtain ⟨-, -, hrecs⟩ := h
                  obtain ⟨ihlen, ihspec⟩ :=
                    ih fs3 (if cfg.numbering then c + 1 else c) fs₁ c₁ rs hrec
                  subst hrecs
                  constructor
                  · simp [ihlen]
                  · intro i rec fp' h1 h2
                    cases i with
                    | zero =>
                      simp only [List.getElem?_cons_zero, Option.some.injEq] at h1 h2
                      subst h1; subst h2
                      refine ⟨rfl, rfl, ?_, rfl, fun hd => absurd hd (by simp [hdry]), ?_⟩
                      · simpa using hbn
                      · intro _
                        exact Or.inr ⟨rfl, rfl, fun hcontra => hskip hcontra.symm⟩
                    | succ i =>
                      simp only [List.getElem?_cons_succ] at h1 h2
                      refine recSpec_shift ?_ (ihspec i rec fp' h1 h2)
                      by_cases hnum : cfg.numbering = true <;> simp [hnum] <;> push_cast <;> ring

/-! ### Error classification and dry-run behaviour -/

theorem build_new_name_error {env : Env} {cfg : BulkRenameConfig} {name : String}
    {c : Int} {e : PyError} (h : build_new_name env cfg name c = .error e) :
    ∃ m, e = .valueError m := by
  simp only [build_new_name] at h
  by_cases hr : (truthyS cfg.regexPattern && truthyS cfg.regexReplacement) = true
  · rw [if_pos hr] at h
    cases hsub : env.reSub (cfg.regexPattern.getD "") (cfg.regexReplacement.getD "")
        (pySplitext name).1 with
    | error msg =>
      rw [hsub] at h
      dsimp only at h
      injection h with h
      exact ⟨_, h.symm⟩
    | ok s =>
      rw [hsub] at h
      dsimp only at h
      by_cases hs : s = ""
      · rw [if_pos hs] at h
        injection h with h
        exact ⟨_, h.symm⟩
      · rw [if_neg hs] at h
        simp at h
  · rw [if_neg hr] at h
    dsimp only at h
    by_cases hs : (pySplitext name).1 = ""
    · rw [if_pos hs] at h
      injection h with h
      exact ⟨_, h.symm⟩
    · rw [if_neg hs] at h
      simp at h

theorem validate_error {fs : FS} {cfg : BulkRenameConfig} {e : PyError}
    (h : validate fs cfg = .error e) : ∃ m, e = .valueError m := by
  unfold validate at h
  split at h
  · injection h with h; exact ⟨_, h.symm⟩
  · split at h
    · injection h with h; exact ⟨_, h.symm⟩
    · split at h
      · injection h with h; exact ⟨_, h.symm⟩
      · split at h
        · injection h with h; exact ⟨_, h.symm⟩
        · split at h
          · injection h with h; exact ⟨_, h.symm⟩
          · split at h
            · injection h with h; exact ⟨_, h.symm⟩
            · simp at h

theorem renameLoop_dryRun (env : Env) (cfg : BulkRenameConfig) (bdir : String)
    (hdry : cfg.dryRun = true) :
    ∀ (l : List String) (fs : FS) (c : Int),
      (renameLoop env cfg bdir l fs c).1 = fs ∧
      ∀ e, (renameLoop env cfg bdir l fs c).2.2 = .error e → ∃ m, e = .valueError m := by
  intro l
  induction l with
  | nil =>
    intro fs c
    exact ⟨rfl, by intro e h; simp [renameLoop] at h⟩
  | cons fp rest ih =>
    intro fs c
    simp only [renameLoop]
    cases hbn : build_new_name env cfg (pyBasename fp) c with
    | error e₀ =>
      refine ⟨rfl, ?_⟩
      intro e h
      dsimp only at h
      injection h with h
      exact h ▸ build_new_name_error hbn
    | ok nn =>
      dsimp only
      rw [if_pos hdry]
      obtain ⟨ih1, ih2⟩ := ih fs (if cfg.numbering then c + 1 else c)
      refine ⟨ih1, ?_⟩
      intro e h
      dsimp only at h
      cases hres : (renameLoop env cfg bdir rest fs (if cfg.numbering then c + 1 else c)).2.2 with
      | error e₁ =>
        rw [hres] at h
        injection h with h
        exact h ▸ ih2 e₁ hres
      | ok rs =>
        rw [hres] at h
        simp [Except.map] at h

/-! ### Success-case characterization of `rename_files` -/

theorem rename_files_ok_spec {env : Env} {cfg : BulkRenameConfig} {fs fs' : FS}
    {r : RenameResult} (h : rename_files env cfg fs = (fs', .ok r)) :
    r.records.length = (collect_files fs cfg.directory cfg.extensions).length ∧
    r.renamed_count = r.records.length ∧
    r.dry_run = cfg.dryRun ∧
    r.backup_dir = (if cfg.dryRun then none else some (backupDirOf env cfg)) ∧
    r.log_file = (if cfg.dryRun then none else some (logFileOf env cfg)) ∧
    ∀ (i : Nat) rec fp, r.records[i]? = some rec →
      (collect_files fs cfg.directory cfg.extensions)[i]? = some fp →
      RecSpec env cfg cfg.numberingStart i rec fp := by
  unfold rename_files at h
  cases hval : validate fs cfg with
  | error e =>
    rw [hval] at h
    simp at h
  | ok u =>
    rw [hval] at h
    dsimp only at h
    by_cases hemp : (collect_files fs cfg.directory cfg.extensions).isEmpty = true
    · rw [if_pos hemp] at h
      simp at h
    · rw [if_neg hemp] at h
      rcases hloop : renameLoop env cfg (backupDirOf env cfg)
          (collect_files fs cfg.directory cfg.extensions) fs cfg.numberingStart
        with ⟨fs₁, c₁, res₁⟩
      rw [hloop] at h
      cases res₁ with
      | error e => simp at h
      | ok records =>
        dsimp only at h
        obtain ⟨-, hr⟩ := Prod.mk.injEq .. ▸ h
        have hr' : r = ⟨records.length,
            if cfg.dryRun then none else some (backupDirOf env cfg),
            if cfg.dryRun then none else some (logFileOf env cfg),
            cfg.dryRun, records⟩ := by
          injection h with h1 h2
          injection h2 with h2
          exact h2.symm
        obtain ⟨hlen, hspec⟩ := renameLoop_ok_spec env cfg (backupDirOf env cfg)
          (collect_files fs cfg.directory cfg.extensions) fs cfg.numberingStart fs₁ c₁ records hloop
        subst hr'
        exact ⟨hlen, rfl, rfl, rfl, rfl, hspec⟩

/-- Decomposition of the new name when numbering is on. -/
theorem build_new_name_ok_shape {env : Env} {cfg : BulkRenameConfig} {name nn : String}
    {c : Int} (hnum : cfg.numbering = true)
    (h : build_new_name env cfg name c = .ok nn) :
    ∃ pre, nn = pre ++ pyNumToken cfg c
      ++ (if cfg.timestamp then replaceSpaces (env.strftime cfg.timestampFormat) else "")
      ++ (pySplitext name).2 := by
  simp only [build_new_name] at h
  by_cases hr : (truthyS cfg.regexPattern && truthyS cfg.regexReplacement) = true
  · rw [if_pos hr] at h
    cases hsub : env.reSub (cfg.regexPattern.getD "") (cfg.regexReplacement.getD "")
        (pySplitext name).1 with
    | error msg =>
      rw [hsub] at h
      simp at h
    | ok s =>
      rw [hsub] at h
      dsimp only at h
      by_cases hs : s = ""
      · rw [if_pos hs] at h
        simp at h
      · rw [if_neg hs] at h
        rw [hnum] at h
        injection h with h
        refine ⟨(if cfg.prefixStr = "" then s else cfg.prefixStr ++ s)
          ++ (if cfg.suffixStr = "" then "" else cfg.suffixStr), ?_⟩
        rw [← h]
        by_cases hts : cfg.timestamp = true
        · rw [if_pos hts, if_pos hts]
          by_cases hsf : cfg.suffixStr = "" <;>
            simp [hsf, String.append_assoc]
        · have hts' : cfg.timestamp = false := by simpa using hts
          rw [hts']
          by_cases hsf : cfg.suffixStr = "" <;>
            simp [hsf, String.append_assoc]
  · rw [if_neg hr] at h
    dsimp only at h
    by_cases hs : (pySplitext name).1 = ""
    · rw [if_pos hs] at h
      simp at h
    · rw [if_neg hs] at h
      rw [hnum] at h
      injection h with h
      refine ⟨(if cfg.prefixStr = "" then (pySplitext name).1
          else cfg.prefixStr ++ (pySplitext name).1)
        ++ (if cfg.suffixStr = "" then "" else cfg.suffixStr), ?_⟩
      rw [← h]
      by_cases hts : cfg.timestamp = true
      · rw [if_pos hts, if_pos hts]
        by_cases hsf : cfg.suffixStr = "" <;>
          simp [hsf, String.append_assoc]
      · have hts' : cfg.timestamp = false := by simpa using hts
        rw [hts']
        by_cases hsf : cfg.suffixStr = "" <;>
          simp [hsf, String.append_assoc]

/-! ### Claim C9: renamed_count counts every record of the plan -/

/-- C9: for every apply call that completes, the returned `renamed_count`
equals the total number of records in the plan, which is the number of
discovered matching files — skipped and dry-run records included, not only
physical renames. -/
theorem C9_renamed_count_total (env : Env) (cfg : BulkRenameConfig) (fs fs' : FS)
    (r : RenameResult) (h : rename_files env cfg fs = (fs', .ok r)) :
    r.renamed_count = r.records.length ∧
    r.records.length = (matchingFiles fs cfg.directory cfg.extensions).length := by
  obtain ⟨h1, h2, -⟩ := rename_files_ok_spec h
  refine ⟨h2, ?_⟩
  rw [h1]
  exact insSort_length _ _

/-! ### Witness scaffolding: concrete environments and directory states -/

/-- Witness environment: `re.sub` is the identity substitution (as with a
pattern that matches nothing), the clock renders as `"T"`, `int(time.time())`
as `"100"`, and new filesystem entries get mtime 50. -/
def envW : Env := ⟨fun _ _ s => .ok s, fun _ => "T", "100", 50⟩

/-- Witness environment whose `re.sub` models `re.sub("x", "y", ·)` on
single-letter stems. -/
def envW7 : Env :=
  ⟨fun _ _ s => .ok (if s = "x" then "y" else s), fun _ => "T", "100", 50⟩

def cfgW7 : BulkRenameConfig :=
  ⟨"/d", "", "", false, 1, 3, false, "%Y%m%d%H%M%S", some "x", some "y", none, false, none, none⟩

def fsW7 : FS := ⟨[("/d/x.txt", ⟨.raw "X", 1⟩), ("/d/z.txt", ⟨.raw "Z", 2⟩)], [("/d", 0)]⟩

def rFallback : RenameResult := ⟨0, none, none, false, []⟩

def rW7 : RenameResult :=
  match (rename_files envW7 cfgW7 fsW7).2 with
  | .ok r => r
  | .error _ => rFallback

theorem C9_renamed_count_total_witness :
    rename_files envW7 cfgW7 fsW7 = ((rename_files envW7 cfgW7 fsW7).1, .ok rW7) ∧
    rW7.renamed_count = 2 ∧ (rW7.records.filter (fun rec => rec.skipped.isSome)).length = 1 ∧
    (rW7.renamed_count = rW7.records.length ∧
      rW7.records.length = (matchingFiles fsW7 cfgW7.directory cfgW7.extensions).length) := by
  refine ⟨by rfl, by rfl, by rfl, ?_⟩
  exact C9_renamed_count_total envW7 cfgW7 fsW7 (rename_files envW7 cfgW7 fsW7).1 rW7 (by rfl)

/-! ### Claim C2: numbering counter progression and token shape -/

/-- C2: with numbering enabled, the file at position `i` of the plan (in
discovery order) is built with counter `numbering_start + i` — the counter
advances by one for every file, skipped or not — and the new name carries
the token `pyNumToken` (zero-padding to the configured width, none when the
width is 0) appended to the transformed stem, before the timestamp part and
the preserved extension. -/
theorem C2_numbering_progression (env : Env) (cfg : BulkRenameConfig) (fs fs' : FS)
    (r : RenameResult) (hnum : cfg.numbering = true)
    (h : rename_files env cfg fs = (fs', .ok r)) :
    ∀ (i : Nat) rec fp, r.records[i]? = some rec →
      (collect_files fs cfg.directory cfg.extensions)[i]? = some fp →
      build_new_name env cfg (pyBasename fp) (cfg.numberingStart + (i : Int))
        = .ok rec.new_name ∧
      ∃ pre, rec.new_name = pre ++ pyNumToken cfg (cfg.numberingStart + (i : Int))
        ++ (if cfg.timestamp then replaceSpaces (env.strftime cfg.timestampFormat) else "")
        ++ (pySplitext (pyBasename fp)).2 := by
  intro i rec fp h1 h2
  obtain ⟨-, -, -, -, -, hspec⟩ := rename_files_ok_spec h
  obtain ⟨-, -, hbuild, -, -, -⟩ := hspec i rec fp h1 h2
  rw [hnum] at hbuild
  simp only [if_true] at hbuild
  exact ⟨hbuild, build_new_name_ok_shape hnum hbuild⟩

def cfgW2 : BulkRenameConfig :=
  ⟨"/d", "", "", true, 5, 3, false, "%Y%m%d%H%M%S", none, none, none, false, none, none⟩

def fsW2 : FS :=
  ⟨[("/d/b.txt", ⟨.raw "B", 1⟩), ("/d/a.txt", ⟨.raw "A", 1⟩), ("/d/c.txt", ⟨.raw "C", 1⟩)],
   [("/d", 0)]⟩

def rW2 : RenameResult :=
  match (rename_files envW cfgW2 fsW2).2 with
  | .ok r => r
  | .error _ => rFallback

theorem C2_numbering_progression_witness :
    cfgW2.numbering = true ∧
    rename_files envW cfgW2 fsW2 = ((rename_files envW cfgW2 fsW2).1, .ok rW2) ∧
    rW2.records.map (fun rec => rec.new_name) = ["a005.txt", "b006.txt", "c007.txt"] ∧
    (∀ (i : Nat) rec fp, rW2.records[i]? = some rec →
      (collect_files fsW2 cfgW2.directory cfgW2.extensions)[i]? = some fp →
      build_new_name envW cfgW2 (pyBasename fp) (cfgW2.numberingStart + (i : Int))
        = .ok rec.new_name ∧
      ∃ pre, rec.new_name = pre ++ pyNumToken cfgW2 (cfgW2.numberingStart + (i : Int))
        ++ (if cfgW2.timestamp then replaceSpaces (envW.strftime cfgW2.timestampFormat) else "")
        ++ (pySplitext (pyBasename fp)).2) := by
  refine ⟨rfl, by rfl, by rfl, ?_⟩
  exact C2_numbering_progression envW cfgW2 fsW2 (rename_files envW cfgW2 fsW2).1 rW2 rfl (by rfl)

/-! ### Claim C7: exactly one of skipped / renamed_at -/

/-- C7: in a completed non-dry-run apply, every returned record carries
exactly one of `skipped` and `renamed_at`; in a completed dry run, neither
is present on any record. -/
theorem C7_record_invariant (env : Env) (cfg : BulkRenameConfig) (fs fs' : FS)
    (r : RenameResult) (h : rename_files env cfg fs = (fs', .ok r)) :
    (cfg.dryRun = false → ∀ rec ∈ r.records,
      (rec.skipped.isSome ∧ rec.renamed_at = none) ∨
      (rec.skipped = none ∧ rec.renamed_at.isSome)) ∧
    (cfg.dryRun = true → ∀ rec ∈ r.records,
      rec.skipped = none ∧ rec.renamed_at = none) := by
  obtain ⟨hlen, -, -, -, -, hspec⟩ := rename_files_ok_spec h
  have hmem : ∀ rec ∈ r.records, ∃ (i : Nat) (fp : String),
      r.records[i]? = some rec ∧
      (collect_files fs cfg.directory cfg.extensions)[i]? = some fp := by
    intro rec hrec
    obtain ⟨i, hi, hget⟩ := List.getElem_of_mem hrec
    refine ⟨i, (collect_files fs cfg.directory cfg.extensions).get ⟨i, by omega⟩, ?_, ?_⟩
    · rw [List.getElem?_eq_getElem hi, hget]
    · rw [List.getElem?_eq_getElem]
      rw [List.get_eq_getElem]
  constructor
  · intro hdry rec hrec
    obtain ⟨i, fp, h1, h2⟩ := hmem rec hrec
    obtain ⟨-, -, -, -, -, hnd⟩ := hspec i rec fp h1 h2
    rcases hnd hdry with ⟨hs, hr', -⟩ | ⟨hs, hr', -⟩
    · exact Or.inl ⟨by simp [hs], hr'⟩
    · exact Or.inr ⟨hs, by simp [hr']⟩
  · intro hdry rec hrec
    obtain ⟨i, fp, h1, h2⟩ := hmem rec hrec
    obtain ⟨-, -, -, -, hd, -⟩ := hspec i rec fp h1 h2
    exact hd hdry

theorem C7_record_invariant_witness :
    rename_files envW7 cfgW7 fsW7 = ((rename_files envW7 cfgW7 fsW7).1, .ok rW7) ∧
    rW7.records.map (fun rec => (rec.skipped.isSome, rec.renamed_at.isSome))
      = [(false, true), (true, false)] ∧
    ((cfgW7.dryRun = false → ∀ rec ∈ rW7.records,
      (rec.skipped.isSome ∧ rec.renamed_at = none) ∨
      (rec.skipped = none ∧ rec.renamed_at.isSome)) ∧
    (cfgW7.dryRun = true → ∀ rec ∈ rW7.records,
      rec.skipped = none ∧ rec.renamed_at = none)) := by
  refine ⟨by rfl, by rfl, ?_⟩
  exact C7_record_invariant envW7 cfgW7 fsW7 (rename_files envW7 cfgW7 fsW7).1 rW7 (by rfl)

/-! ### Claim C6: dry-run purity -/

/-- C6: with `dry_run` set, apply leaves the filesystem untouched (no
backup, no rename, no log, no directory creation), reports `backup_dir` and
`log_file` as absent, and can only raise validation-kind `ValueError`s —
never `FileExistsError` or the I/O errors of the mutation path. -/
theorem C6_dry_run_purity (env : Env) (cfg : BulkRenameConfig) (fs : FS)
    (hdry : cfg.dryRun = true) :
    (rename_files env cfg fs).1 = fs ∧
    (∀ r, (rename_files env cfg fs).2 = .ok r →
      r.backup_dir = none ∧ r.log_file = none) ∧
    (∀ e, (rename_files env cfg fs).2 = .error e → ∃ m, e = .valueError m) := by
  unfold rename_files
  cases hval : validate fs cfg with
  | error e =>
    refine ⟨rfl, by intro r h; simp at h, ?_⟩
    intro e' h
    dsimp only at h
    injection h with h
    exact h ▸ validate_error hval
  | ok u =>
    dsimp only
    by_cases hemp : (collect_files fs cfg.directory cfg.extensions).isEmpty = true
    · rw [if_pos hemp]
      refine ⟨rfl, by intro r h; simp at h, ?_⟩
      intro e h
      injection h with h
      exact ⟨_, h.symm⟩
    · rw [if_neg hemp]
      obtain ⟨hfs, herr⟩ := renameLoop_dryRun env cfg (backupDirOf env cfg) hdry
        (collect_files fs cfg.directory cfg.extensions) fs cfg.numberingStart
      rcases hloop : renameLoop env cfg (backupDirOf env cfg)
          (collect_files fs cfg.directory cfg.extensions) fs cfg.numberingStart
        with ⟨fs₁, c₁, res₁⟩
      rw [hloop] at hfs herr
      dsimp only at hfs herr ⊢
      cases res₁ with
      | error e =>
        exact ⟨hfs, by intro r h; simp at h, by
          intro e' h
          injection h with h
          exact h ▸ herr e rfl⟩
      | ok records =>
        rw [hdry]
        refine ⟨by simpa using hfs, ?_, by intro e h; simp at h⟩
        intro r h
        injection h with h
        rw [← h]
        exact ⟨rfl, rfl⟩

def cfgW6 : BulkRenameConfig :=
  ⟨"/d", "p", "", false, 1, 3, false, "%Y%m%d%H%M%S", none, none, none, true, none, none⟩

def fsW6 : FS := ⟨[("/d/a.txt", ⟨.raw "A", 1⟩)], [("/d", 0)]⟩

theorem C6_dry_run_purity_witness :
    cfgW6.dryRun = true ∧
    ((rename_files envW cfgW6 fsW6).1 = fsW6 ∧
    (∀ r, (rename_files envW cfgW6 fsW6).2 = .ok r →
      r.backup_dir = none ∧ r.log_file = none) ∧
    (∀ e, (rename_files envW cfgW6 fsW6).2 = .error e → ∃ m, e = .valueError m)) :=
  ⟨rfl, C6_dry_run_purity envW cfgW6 fsW6 rfl⟩

/-! ### Claim C4: plan size, ordering, determinism, empty-match failure -/

/-- C4: under a validated configuration, a completed apply returns exactly
one record per matching file, with original paths equal to the sorted list
of matching paths (hence pairwise ordered); repeated calls on the same
state return identical record sequences; and when no file matches, the call
fails with the `NotFoundError`-kind `ValueError` before any mutation. -/
theorem C4_plan_determinism (env : Env) (cfg : BulkRenameConfig) (fs : FS)
    (hval : validate fs cfg = .ok ()) :
    (∀ fs' r, rename_files env cfg fs = (fs', .ok r) →
      r.records.map (fun rec => rec.original_path)
        = collect_files fs cfg.directory cfg.extensions ∧
      r.records.length = (matchingFiles fs cfg.directory cfg.extensions).length ∧
      (r.records.map (fun rec => rec.original_path)).Pairwise
        (fun a b => strLe a b = true)) ∧
    (∀ fs₁ r₁ fs₂ r₂, rename_files env cfg fs = (fs₁, .ok r₁) →
      rename_files env cfg fs = (fs₂, .ok r₂) → r₁.records = r₂.records) ∧
    (matchingFiles fs cfg.directory cfg.extensions = [] →
      rename_files env cfg fs
        = (fs, .error (.valueError
            "No files found to rename. Check the directory or extension filters."))) := by
  refine ⟨?_, ?_, ?_⟩
  · intro fs' r h
    obtain ⟨hlen, -, -, -, -, hspec⟩ := rename_files_ok_spec h
    have hmap : r.records.map (fun rec => rec.original_path)
        = collect_files fs cfg.directory cfg.extensions := by
      apply List.ext_getElem?
      intro i
      by_cases hi : i < r.records.length
      · have hico : i < (collect_files fs cfg.directory cfg.extensions).length := by omega
        have h1 : r.records[i]? = some (r.records.get ⟨i, hi⟩) := List.getElem?_eq_getElem hi
        have h2 : (collect_files fs cfg.directory cfg.extensions)[i]?
            = some ((collect_files fs cfg.directory cfg.extensions).get ⟨i, hico⟩) :=
          List.getElem?_eq_getElem hico
        obtain ⟨horig, -⟩ := hspec i _ _ h1 h2
        rw [List.getElem?_map, h1, h2]
        simpa using horig
      · have hico : ¬ i < (collect_files fs cfg.directory cfg.extensions).length := by omega
        rw [List.getElem?_map, List.getElem?_eq_none (by omega),
          List.getElem?_eq_none (by omega)]
        rfl
    refine ⟨hmap, by rw [hlen, collect_files]; exact insSort_length _ _, ?_⟩
    rw [hmap]
    exact insSort_pairwise strLe strLe_total strLe_trans _
  · intro fs₁ r₁ fs₂ r₂ h₁ h₂
    rw [h₁] at h₂
    injection h₂ with h₂a h₂b
    injection h₂b with h₂c
    rw [h₂c]
  · intro hm
    have hempty : collect_files fs cfg.directory cfg.extensions = [] := by
      rw [collect_files, hm]
      rfl
    unfold rename_files
    rw [hval]
    dsimp only
    rw [hempty]
    rfl

def cfgW4 : BulkRenameConfig :=
  ⟨"/d", "p", "", false, 1, 3, false, "%Y%m%d%H%M%S", none, none, some [".txt"], false,
   none, none⟩

def fsW4 : FS :=
  ⟨[("/d/b.jpg", ⟨.raw "B", 1⟩), ("/d/a.txt", ⟨.raw "A", 1⟩)], [("/d", 0)]⟩

def rW4 : RenameResult :=
  match (rename_files envW cfgW4 fsW4).2 with
  | .ok r => r
  | .error _ => rFallback

theorem C4_plan_determinism_witness :
    validate fsW4 cfgW4 = .ok () ∧
    rename_files envW cfgW4 fsW4 = ((rename_files envW cfgW4 fsW4).1, .ok rW4) ∧
    rW4.records.map (fun rec => rec.original_path) = ["/d/a.txt"] ∧
    ((∀ fs' r, rename_files envW cfgW4 fsW4 = (fs', .ok r) →
      r.records.map (fun rec => rec.original_path)
        = collect_files fsW4 cfgW4.directory cfgW4.extensions ∧
      r.records.length = (matchingFiles fsW4 cfgW4.directory cfgW4.extensions).length ∧
      (r.records.map (fun rec => rec.original_path)).Pairwise
        (fun a b => strLe a b = true)) ∧
    (∀ fs₁ r₁ fs₂ r₂, rename_files envW cfgW4 fsW4 = (fs₁, .ok r₁) →
      rename_files envW cfgW4 fsW4 = (fs₂, .ok r₂) → r₁.records = r₂.records) ∧
    (matchingFiles fsW4 cfgW4.directory cfgW4.extensions = [] →
      rename_files envW cfgW4 fsW4
        = (fsW4, .error (.valueError
            "No files found to rename. Check the directory or extension filters.")))) := by
  refine ⟨rfl, by rfl, by rfl, ?_⟩
  exact C4_plan_determinism envW cfgW4 fsW4 rfl

/-! ### Loop composition and filesystem-effect lemmas -/

theorem renameLoop_append (env : Env) (cfg : BulkRenameConfig) (bdir : String)
    (l₁ l₂ : List String) :
    ∀ (fs : FS) (c : Int),
      renameLoop env cfg bdir (l₁ ++ l₂) fs c =
        (match renameLoop env cfg bdir l₁ fs c with
         | (fs₁, c₁, .error e) => (fs₁, c₁, .error e)
         | (fs₁, c₁, .ok recs₁) =>
           match renameLoop env cfg bdir l₂ fs₁ c₁ with
           | (fs₂, c₂, .error e) => (fs₂, c₂, .error e)
           | (fs₂, c₂, .ok recs₂) => (fs₂, c₂, .ok (recs₁ ++ recs₂))) := by
  induction l₁ with
  | nil =>
    intro fs c
    rw [List.nil_append]
    show renameLoop env cfg bdir l₂ fs c = _
    rcases h₂ : renameLoop env cfg bdir l₂ fs c with ⟨fs₂, c₂, res₂⟩
    simp only [renameLoop]
    rw [h₂]
    cases res₂ <;> simp
  | cons fp l₁' ih =>
    intro fs c
    rw [List.cons_append]
    simp only [renameLoop]
    cases hbn : build_new_name env cfg (pyBasename fp) c with
    | error e => rfl
    | ok nn =>
      dsimp only
      by_cases hdry : cfg.dryRun = true
      · rw [if_pos hdry, if_pos hdry, ih fs (if cfg.numbering then c + 1 else c)]
        rcases h₁ : renameLoop env cfg bdir l₁' fs (if cfg.numbering then c + 1 else c)
          with ⟨fs₁, c₁, res₁⟩
        cases res₁ with
        | error e => simp [Except.map]
        | ok recs₁ =>
          dsimp only [Except.map]
          rcases h₂ : renameLoop env cfg bdir l₂ fs₁ c₁ with ⟨fs₂, c₂, res₂⟩
          cases res₂ <;> simp [Except.map]
      · rw [if_neg hdry, if_neg hdry]
        by_cases hskip : fp = joinPath cfg.directory nn
        · rw [if_pos hskip, if_pos hskip, ih fs (if cfg.numbering then c + 1 else c)]
          rcases h₁ : renameLoop env cfg bdir l₁' fs (if cfg.numbering then c + 1 else c)
            with ⟨fs₁, c₁, res₁⟩
          cases res₁ with
          | error e => simp [Except.map]
          | ok recs₁ =>
            dsimp only [Except.map]
            rcases h₂ : renameLoop env cfg bdir l₂ fs₁ c₁ with ⟨fs₂, c₂, res₂⟩
            cases res₂ <;> simp [Except.map]
        · rw [if_neg hskip, if_neg hskip]
          by_cases hex : pyExists fs (joinPath cfg.directory nn) = true
          · rw [if_pos hex, if_pos hex]
          · rw [if_neg hex, if_neg hex]
            cases hcp : copy2 (ensure_directory env fs bdir) fp (joinPath bdir (pyBasename fp)) with
            | error e => rfl
            | ok fs2 =>
              dsimp only
              cases hrp : pyReplace fs2 fp (joinPath cfg.directory nn) with
              | error e => rfl
              | ok fs3 =>
                dsimp only
                rw [ih fs3 (if cfg.numbering then c + 1 else c)]
                rcases h₁ : renameLoop env cfg bdir l₁' fs3 (if cfg.numbering then c + 1 else c)
                  with ⟨fs₁, c₁, res₁⟩
                cases res₁ with
                | error e => simp [Except.map]
                | ok recs₁ =>
                  dsimp only [Except.map]
                  rcases h₂ : renameLoop env cfg bdir l₂ fs₁ c₁ with ⟨fs₂, c₂, res₂⟩
                  cases res₂ <;> simp [Except.map]

theorem ensure_directory_read (env : Env) (fs : FS) (p q : String) :
    (ensure_directory env fs p).read q = fs.read q := by
  unfold ensure_directory
  by_cases h : pyExists fs p = true <;> simp [h, FS.read_mkdir]

theorem copy2_ok_shape {fs : FS} {a b : String} {fs₂ : FS}
    (h : copy2 fs a b = .ok fs₂) :
    ∃ X d, fs.read a = some d ∧ fs₂ = fs.setFile X d
      ∧ (X = b ∨ X = joinPath b (pyBasename a)) := by
  unfold copy2 at h
  cases hr : fs.read a with
  | none =>
    rw [hr] at h
    by_cases hd : (fs.readDir a).isSome = true <;> simp [hd] at h
  | some d =>
    rw [hr] at h
    dsimp only at h
    cases hdd : fs.readDir b with
    | some t =>
      rw [hdd] at h
      injection h with h
      exact ⟨_, d, rfl, h.symm, Or.inr rfl⟩
    | none =>
      rw [hdd] at h
      injection h with h
      exact ⟨_, d, rfl, h.symm, Or.inl rfl⟩

theorem pyReplace_ok_shape {fs : FS} {a b : String} {fs₃ : FS}
    (h : pyReplace fs a b = .ok fs₃) :
    ∃ d, fs.read a = some d ∧ (fs.readDir b).isSome = false
      ∧ fs₃ = (fs.removeFile a).setFile b d := by
  unfold pyReplace at h
  cases hr : fs.read a with
  | none =>
    rw [hr] at h
    simp at h
  | some d =>
    rw [hr] at h
    dsimp only at h
    by_cases hdd : (fs.readDir b).isSome = true
    · rw [if_pos hdd] at h
      simp at h
    · rw [if_neg hdd] at h
      injection h with h
      exact ⟨d, rfl, by simpa using hdd, h.symm⟩

/-! ### Presence of renamed files after the loop (no rollback) -/

theorem renameLoop_presence (env : Env) (cfg : BulkRenameConfig) (bdir : String)
    (hdry : cfg.dryRun = false) :
    ∀ (l : List String) (fs : FS) (c : Int) (fs' : FS) (c' : Int) (recs : List Record),
      renameLoop env cfg bdir l fs c = (fs', c', .ok recs) →
      (∀ fp ∈ l, (fs.read fp).isSome = true) →
      l.Nodup →
      (∀ p, (fs.read p).isSome = true → p ∉ l → (fs'.read p).isSome = true) ∧
      (∀ rec ∈ recs, (fs'.read rec.new_path).isSome = true) := by
  intro l
  induction l with
  | nil =>
    intro fs c fs' c' recs h hpres hnd
    simp only [renameLoop, Prod.mk.injEq] at h
    obtain ⟨h1, -, h3⟩ := h
    have hrecs : recs = [] := by cases h3; rfl
    subst h1; subst hrecs
    exact ⟨fun p hp _ => hp, by simp⟩
  | cons fp rest ih =>
    intro fs c fs' c' recs h hpres hnd
    simp only [renameLoop] at h
    cases hbn : build_new_name env cfg (pyBasename fp) c with
    | error e =>
      rw [hbn] at h
      simp at h
    | ok nn =>
      rw [hbn] at h
      dsimp only at h
      rw [if_neg (by simp [hdry])] at h
      have hndrest : rest.Nodup := (List.nodup_cons.mp hnd).2
      have hfpnotin : fp ∉ rest := (List.nodup_cons.mp hnd).1
      by_cases hskip : fp = joinPath cfg.directory nn
      · rw [if_pos hskip] at h
        rcases hrec : renameLoop env cfg bdir rest fs (if cfg.numbering then c + 1 else c)
          with ⟨fs₁, c₁, res₁⟩
        rw [hrec] at h
        cases res₁ with
        | error e => simp [Except.map] at h
        | ok rs =>
          simp only [Except.map, Prod.mk.injEq, Except.ok.injEq] at h
          obtain ⟨hfs, -, hrecs⟩ := h
          subst hrecs
          rw [← hfs]
          obtain ⟨ihp, ihr⟩ := ih fs (if cfg.numbering then c + 1 else c) fs₁ c₁ rs hrec
            (fun q hq => hpres q (by simp [hq])) hndrest
          refine ⟨fun p hp hpl => ihp p hp (fun hin => hpl (by simp [hin])), ?_⟩
          intro rec hrec'
          rcases List.mem_cons.mp hrec' with hh | hh
          · subst hh
            dsimp only
            rw [← hskip]
            exact ihp fp (hpres fp (by simp)) hfpnotin
          · exact ihr rec hh
      · rw [if_neg hskip] at h
        by_cases hex : pyExists fs (joinPath cfg.directory nn) = true
        · rw [if_pos hex] at h
          simp at h
        · rw [if_neg hex] at h
          cases hcp : copy2 (ensure_directory env fs bdir) fp (joinPath bdir (pyBasename fp)) with
          | error e =>
            rw [hcp] at h
            simp at h
          | ok fs2 =>
            rw [hcp] at h
            dsimp only at h
            cases hrp : pyReplace fs2 fp (joinPath cfg.directory nn) with
            | error e =>
              rw [hrp] at h
              simp at h
            | ok fs3 =>
              rw [hrp] at h
              dsimp only at h
              rcases hrec : renameLoop env cfg bdir rest fs3 (if cfg.numbering then c + 1 else c)
                with ⟨fs₁, c₁, res₁⟩
              rw [hrec] at h
              cases res₁ with
              | error e => simp [Except.map] at h
              | ok rs =>
                simp only [Except.map, Prod.mk.injEq, Except.ok.injEq] at h
                obtain ⟨hfs, -, hrecs⟩ := h
                subst hrecs
                rw [← hfs]
                obtain ⟨X, d, hread2, hfs2, -⟩ := copy2_ok_shape hcp
                obtain ⟨d', hread3, -, hfs3⟩ := pyReplace_ok_shape hrp
                -- presence transfer into fs3 for paths other than fp
                have hstep : ∀ q, q ≠ fp → (fs.read q).isSome = true →
                    (fs3.read q).isSome = true := by
                  intro q hqfp hq
                  rw [hfs3, FS.read_setFile]
                  by_cases hq1 : q = joinPath cfg.directory nn
                  · simp [hq1]
                  · rw [if_neg hq1, FS.read_removeFile, if_neg hqfp]
                    rw [hfs2, FS.read_setFile]
                    by_cases hq2 : q = X
                    · simp [hq2]
                    · rw [if_neg hq2, ensure_directory_read]
                      exact hq
                have hnew3 : (fs3.read (joinPath cfg.directory nn)).isSome = true := by
                  rw [hfs3, FS.read_setFile, if_pos rfl]
                  rfl
                have hnewfresh : joinPath cfg.directory nn ∉ rest := by
                  intro hin
                  have := hpres (joinPath cfg.directory nn) (by simp [hin])
                  unfold pyExists at hex
                  simp only [Bool.or_eq_true] at hex
                  exact hex (Or.inl this)
                obtain ⟨ihp, ihr⟩ := ih fs3 (if cfg.numbering then c + 1 else c) fs₁ c₁ rs hrec
                  (by
                    intro q hq
                    exact hstep q (fun hqe => hfpnotin (hqe ▸ hq)) (hpres q (by simp [hq])))
                  hndrest
                refine ⟨?_, ?_⟩
                · intro p hp hpl
                  have hpfp : p ≠ fp := fun hh => hpl (by simp [hh])
                  exact ihp p (hstep p hpfp hp) (fun hin => hpl (by simp [hin]))
                · intro rec hrec'
                  rcases List.mem_cons.mp hrec' with hh | hh
                  · subst hh
                    exact ihp _ hnew3 hnewfresh
                  · exact ihr rec hh

/-! ### Further path facts -/

theorem joinPath_ne_left (d n : String) : joinPath d n ≠ d := by
  intro h
  have hd : (joinPath d n).data = d.data := by rw [h]
  rw [data_joinPath] at hd
  have hlen : ((d.data ++ ['/']) ++ n.data).length = d.data.length := by rw [hd]
  simp only [List.length_append, List.length_cons, List.length_nil] at hlen
  omega

theorem pyBasename_of_childOf {dir fp name : String}
    (h : childOf? dir fp = some name) : pyBasename fp = name := by
  obtain ⟨hp, -, hs⟩ := childOf?_eq_some h
  rw [hp]
  exact pyBasename_joinPath dir name hs

theorem copy2_ok_cases {fs : FS} {a b : String} {fs₂ : FS}
    (h : copy2 fs a b = .ok fs₂) :
    ∃ d, fs.read a = some d ∧
      ((fs.readDir b = none ∧ fs₂ = fs.setFile b d) ∨
       ((fs.readDir b).isSome = true ∧ fs₂ = fs.setFile (joinPath b (pyBasename a)) d)) := by
  unfold copy2 at h
  cases hr : fs.read a with
  | none =>
    rw [hr] at h
    by_cases hd : (fs.readDir a).isSome = true <;> simp [hd] at h
  | some d =>
    rw [hr] at h
    dsimp only at h
    cases hdd : fs.readDir b with
    | some t =>
      rw [hdd] at h
      injection h with h
      exact ⟨d, rfl, Or.inr ⟨by simp [hdd], h.symm⟩⟩
    | none =>
      rw [hdd] at h
      injection h with h
      exact ⟨d, rfl, Or.inl ⟨rfl, h.symm⟩⟩

/-- A successfully built name is nonempty: the empty-stem check guards the
stem, and every later step only appends. -/
theorem build_new_name_ok_nonempty {env : Env} {cfg : BulkRenameConfig}
    {name nn : String} {c : Int} (h : build_new_name env cfg name c = .ok nn) :
    nn.data ≠ [] := by
  simp only [build_new_name] at h
  by_cases hr : (truthyS cfg.regexPattern && truthyS cfg.regexReplacement) = true
  · rw [if_pos hr] at h
    cases hsub : env.reSub (cfg.regexPattern.getD "") (cfg.regexReplacement.getD "")
        (pySplitext name).1 with
    | error msg =>
      rw [hsub] at h
      simp at h
    | ok s =>
      rw [hsub] at h
      dsimp only at h
      by_cases hs : s = ""
      · rw [if_pos hs] at h
        simp at h
      · rw [if_neg hs] at h
        injection h with h
        have hs1 : 1 ≤ s.length := by
          show 1 ≤ s.data.length
          cases hd : s.data with
          | nil => exact absurd (String.ext hd) hs
          | cons a t => simp
        have hpos : 1 ≤ nn.data.length := by
          rw [← h]
          by_cases h1 : cfg.prefixStr = "" <;> by_cases h2 : cfg.suffixStr = "" <;>
            by_cases h3 : cfg.numbering = true <;> by_cases h4 : cfg.timestamp = true <;>
            simp [h1, h2, h3, h4, String.data_append] <;>
            omega
        intro hnil
        rw [hnil] at hpos
        simp at hpos
  · rw [if_neg hr] at h
    dsimp only at h
    by_cases hs : (pySplitext name).1 = ""
    · rw [if_pos hs] at h
      simp at h
    · rw [if_neg hs] at h
      injection h with h
      have hs1 : 1 ≤ ((pySplitext name).1).length := by
        show 1 ≤ ((pySplitext name).1).data.length
        cases hd : ((pySplitext name).1).data with
        | nil => exact absurd (String.ext hd) hs
        | cons a t => simp
      have hpos : 1 ≤ nn.data.length := by
        rw [← h]
        by_cases h1 : cfg.prefixStr = "" <;> by_cases h2 : cfg.suffixStr = "" <;>
          by_cases h3 : cfg.numbering = true <;> by_cases h4 : cfg.timestamp = true <;>
          simp [h1, h2, h3, h4, String.data_append] <;>
          omega
      intro hnil
      rw [hnil] at hpos
      simp at hpos

/-! ### The filesystem view after a successful non-dry-run apply loop -/

/-- How a successful non-dry-run loop transformed the filesystem, stated
relative to the renamed records `R`: the backup directory holds a copy of
every renamed original (under its base name), each renamed original sits at
its new path and is gone from its original path, the new paths were fresh,
the backup directory is the only directory change, everything else is
untouched, and renamed targets are mutually distinct. -/
def ApplyView (env : Env) (bdir : String) (fs fs' : FS) (recs : List Record) : Prop :=
  let R := recs.filter (fun rec => rec.renamed_at.isSome)
  (∀ q, q ≠ bdir → fs'.readDir q = fs.readDir q) ∧
  (fs'.readDir bdir = some env.now ∨ (fs'.readDir bdir = fs.readDir bdir ∧ R = [])) ∧
  (∀ rec ∈ R, fs'.read (joinPath bdir rec.original_name) = fs.read rec.original_path) ∧
  (∀ rec ∈ R, fs'.read rec.new_path = fs.read rec.original_path) ∧
  (∀ rec ∈ R, fs'.read rec.original_path = none) ∧
  (∀ rec ∈ R, pyExists fs rec.new_path = false) ∧
  (∀ q, (∀ rec ∈ R, q ≠ joinPath bdir rec.original_name ∧ q ≠ rec.new_path ∧
      q ≠ rec.original_path) → fs'.read q = fs.read q) ∧
  (∀ rec₁ ∈ R, ∀ rec₂ ∈ R, rec₁.new_path = rec₂.new_path →
    rec₁.original_path = rec₂.original_path)

theorem renameLoop_view (env : Env) (cfg : BulkRenameConfig) (bdir bname : String)
    (hdry : cfg.dryRun = false)
    (hbdir : childOf? cfg.directory bdir = some bname) :
    ∀ (l : List String) (fs : FS) (c : Int) (fs' : FS) (c' : Int) (recs : List Record),
      renameLoop env cfg bdir l fs c = (fs', c', .ok recs) →
      (∀ fp ∈ l, (fs.read fp).isSome = true) →
      l.Nodup →
      (∀ fp ∈ l, childOf? cfg.directory fp = some (pyBasename fp)) →
      fs.read bdir = none →
      (fs.readDir bdir = none ∨ fs.readDir bdir = some env.now) →
      (∀ n, fs.readDir (joinPath bdir n) = none) →
      (∀ rec ∈ recs, hasSlash rec.new_name.data = false ∧ rec.new_name ≠ bname) →
      (∀ rec₁ ∈ recs, ∀ rec₂ ∈ recs, rec₁.renamed_at.isSome = true →
        rec₁.new_path ≠ rec₂.original_path) →
      ApplyView env bdir fs fs' recs := by
  intro l
  induction l with
  | nil =>
    intro fs c fs' c' recs h hpres hnd hchild hbdf hbdd hbsub hnn hni
    simp only [renameLoop, Prod.mk.injEq] at h
    obtain ⟨h1, -, h3⟩ := h
    have hrecs : recs = [] := by cases h3; rfl
    subst h1; subst hrecs
    exact ⟨fun q _ => rfl, Or.inr ⟨rfl, rfl⟩, by simp, by simp, by simp, by simp,
      fun q _ => rfl, by simp⟩
  | cons fp rest ih =>
    intro fs c fs' c' recs h hpres hnd hchild hbdf hbdd hbsub hnn hni
    simp only [renameLoop] at h
    cases hbn : build_new_name env cfg (pyBasename fp) c with
    | error e =>
      rw [hbn] at h
      simp at h
    | ok nn =>
      rw [hbn] at h
      dsimp only at h
      rw [if_neg (by simp [hdry])] at h
      have hndrest : rest.Nodup := (List.nodup_cons.mp hnd).2
      have hfpnotin : fp ∉ rest := (List.nodup_cons.mp hnd).1
      by_cases hskip : fp = joinPath cfg.directory nn
      · -- skipped record: filesystem untouched, record filtered out of R
        rw [if_pos hskip] at h
        rcases hrec : renameLoop env cfg bdir rest fs (if cfg.numbering then c + 1 else c)
          with ⟨fs₁, c₁, res₁⟩
        rw [hrec] at h
        cases res₁ with
        | error e => simp [Except.map] at h
        | ok rs =>
          simp only [Except.map, Prod.mk.injEq, Except.ok.injEq] at h
          obtain ⟨hfs, -, hrecs⟩ := h
          subst hrecs
          rw [← hfs]
          have hview := ih fs (if cfg.numbering then c + 1 else c) fs₁ c₁ rs hrec
            (fun q hq => hpres q (by simp [hq])) hndrest
            (fun q hq => hchild q (by simp [hq])) hbdf hbdd hbsub
            (fun rec hr => hnn rec (by simp [hr]))
            (fun r₁ h₁ r₂ h₂ => hni r₁ (by simp [h₁]) r₂ (by simp [h₂]))
          unfold ApplyView at hview ⊢
          simpa using hview
      · rw [if_neg hskip] at h
        by_cases hex : pyExists fs (joinPath cfg.directory nn) = true
        · rw [if_pos hex] at h
          simp at h
        · rw [if_neg hex] at h
          cases hcp : copy2 (ensure_directory env fs bdir) fp (joinPath bdir (pyBasename fp)) with
          | error e =>
            rw [hcp] at h
            simp at h
          | ok fs2 =>
            rw [hcp] at h
            dsimp only at h
            cases hrp : pyReplace fs2 fp (joinPath cfg.directory nn) with
            | error e =>
              rw [hrp] at h
              simp at h
            | ok fs3 =>
              rw [hrp] at h
              dsimp only at h
              rcases hrec : renameLoop env cfg bdir rest fs3 (if cfg.numbering then c + 1 else c)
                with ⟨fs₁, c₁, res₁⟩
              rw [hrec] at h
              cases res₁ with
              | error e => simp [Except.map] at h
              | ok rs =>
                simp only [Except.map, Prod.mk.injEq, Except.ok.injEq] at h
                obtain ⟨hfs, -, hrecs⟩ := h
                subst hrecs
                rw [← hfs]
                -- path facts for the head record
                have hsubnone : ∀ n, childOf? cfg.directory (joinPath bdir n) = none := by
                  intro n
                  obtain ⟨hbp', -, hbs⟩ := childOf?_eq_some hbdir
                  rw [hbp']
                  exact childOf?_joinPath_joinPath cfg.directory bname n hbs
                have hfpchild := hchild fp (by simp)
                have hfp_ne_bp : fp ≠ joinPath bdir (pyBasename fp) :=
                  ne_of_childOf_some_none hfpchild (hsubnone (pyBasename fp))
                have hnnhead : hasSlash nn.data = false ∧ nn ≠ bname :=
                  hnn ⟨pyBasename fp, nn, fp, joinPath cfg.directory nn,
                    none, some (env.strftime "%Y-%m-%d %H:%M:%S")⟩ (by simp)
                have hnnne : nn.data ≠ [] := build_new_name_ok_nonempty hbn
                have hnpchild : childOf? cfg.directory (joinPath cfg.directory nn) = some nn :=
                  childOf?_joinPath cfg.directory nn hnnne hnnhead.1
                have hnp_ne_bp : joinPath cfg.directory nn ≠ joinPath bdir (pyBasename fp) :=
                  ne_of_childOf_some_none hnpchild (hsubnone (pyBasename fp))
                have hnp_ne_fp : joinPath cfg.directory nn ≠ fp := fun hh => hskip hh.symm
                have hbp_ne_bdir : joinPath bdir (pyBasename fp) ≠ bdir :=
                  joinPath_ne_left bdir (pyBasename fp)
                have hnp_ne_bdir : joinPath cfg.directory nn ≠ bdir :=
                  ne_of_childOf_some_some hnpchild hbdir hnnhead.2
                have hfp_pres : (fs.read fp).isSome = true := hpres fp (by simp)
                have hfp_ne_bdir : fp ≠ bdir := by
                  intro hh
                  rw [hh, hbdf] at hfp_pres
                  simp at hfp_pres
                have hexd : (fs.read (joinPath cfg.directory nn)).isSome = false ∧
                    (fs.readDir (joinPath cfg.directory nn)).isSome = false := by
                  unfold pyExists at hex
                  simp only [Bool.or_eq_true, not_or, Bool.not_eq_true] at hex
                  exact hex
                have hnp_f : fs.read (joinPath cfg.directory nn) = none :=
                  isSome_false_eq_none hexd.1
                have hnp_d : fs.readDir (joinPath cfg.directory nn) = none :=
                  isSome_false_eq_none hexd.2
                -- behaviour of ensure_directory
                have hens_read : ∀ q, (ensure_directory env fs bdir).read q = fs.read q :=
                  ensure_directory_read env fs bdir
                have hens_dirb : (ensure_directory env fs bdir).readDir bdir = some env.now := by
                  unfold ensure_directory
                  rcases hbdd with hdd | hdd
                  · rw [if_neg (by simp [pyExists, hbdf, hdd])]
                    rw [FS.readDir_mkdir, if_pos rfl]
                  · rw [if_pos (by simp [pyExists, hdd])]
                    exact hdd
                have hens_dirq : ∀ q, q ≠ bdir →
                    (ensure_directory env fs bdir).readDir q = fs.readDir q := by
                  intro q hq
                  unfold ensure_directory
                  by_cases hpe : pyExists fs bdir = true
                  · rw [if_pos hpe]
                  · rw [if_neg hpe, FS.readDir_mkdir, if_neg hq]
                -- resolve the copy and the move
                obtain ⟨d, hd_read, hcases⟩ := copy2_ok_cases hcp
                rw [hens_read] at hd_read
                have hfs2 : fs2 = (ensure_directory env fs bdir).setFile
                    (joinPath bdir (pyBasename fp)) d := by
                  rcases hcases with ⟨-, hh⟩ | ⟨hh, -⟩
                  · exact hh
                  · rw [hens_dirq _ hbp_ne_bdir, hbsub (pyBasename fp)] at hh
                    simp at hh
                obtain ⟨d', hd'_read, -, hfs3⟩ := pyReplace_ok_shape hrp
                rw [hfs2, FS.read_setFile, if_neg hfp_ne_bp, hens_read, hd_read] at hd'_read
                injection hd'_read with hd'_read
                subst hd'_read
                -- reads on fs3
                have h3np : fs3.read (joinPath cfg.directory nn) = some d := by
                  rw [hfs3, FS.read_setFile, if_pos rfl]
                have h3fp : fs3.read fp = none := by
                  rw [hfs3, FS.read_setFile, if_neg (Ne.symm hnp_ne_fp),
                    FS.read_removeFile, if_pos rfl]
                have h3bp : fs3.read (joinPath bdir (pyBasename fp)) = some d := by
                  rw [hfs3, FS.read_setFile, if_neg (Ne.symm hnp_ne_bp),
                    FS.read_removeFile, if_neg (Ne.symm hfp_ne_bp),
                    hfs2, FS.read_setFile, if_pos rfl]
                have h3frame : ∀ q, q ≠ joinPath cfg.directory nn → q ≠ fp →
                    q ≠ joinPath bdir (pyBasename fp) → fs3.read q = fs.read q := by
                  intro q hq1 hq2 hq3
                  rw [hfs3, FS.read_setFile, if_neg hq1, FS.read_removeFile, if_neg hq2,
                    hfs2, FS.read_setFile, if_neg hq3, hens_read]
                have h3dirb : fs3.readDir bdir = some env.now := by
                  rw [hfs3, FS.readDir_setFile, FS.readDir_removeFile, hfs2,
                    FS.readDir_setFile]
                  exact hens_dirb
                have h3dirq : ∀ q, q ≠ bdir → fs3.readDir q = fs.readDir q := by
                  intro q hq
                  rw [hfs3, FS.readDir_setFile, FS.readDir_removeFile, hfs2,
                    FS.readDir_setFile]
                  exact hens_dirq q hq
                have h3bsub : ∀ n, fs3.readDir (joinPath bdir n) = none := by
                  intro n
                  rw [h3dirq _ (joinPath_ne_left bdir n)]
                  exact hbsub n
                have hbdf3 : fs3.read bdir = none := by
                  rw [h3frame bdir (Ne.symm hnp_ne_bdir) (Ne.symm hfp_ne_bdir)
                    (Ne.symm hbp_ne_bdir)]
                  exact hbdf
                have hpres3 : ∀ q ∈ rest, (fs3.read q).isSome = true := by
                  intro q hq
                  have hqfs := hpres q (by simp [hq])
                  have hq_ne_fp : q ≠ fp := fun hh => hfpnotin (hh ▸ hq)
                  by_cases hqbp : q = joinPath bdir (pyBasename fp)
                  · rw [hqbp, h3bp]
                    rfl
                  · have hq_ne_np : q ≠ joinPath cfg.directory nn := by
                      intro hh
                      rw [hh, hnp_f] at hqfs
                      simp at hqfs
                    rw [h3frame q hq_ne_np hq_ne_fp hqbp]
                    exact hqfs
                -- apply the induction hypothesis from fs3
                have hview := ih fs3 (if cfg.numbering then c + 1 else c) fs₁ c₁ rs hrec
                  hpres3 hndrest (fun q hq => hchild q (by simp [hq])) hbdf3
                  (Or.inr h3dirb) h3bsub
                  (fun rec hr => hnn rec (by simp [hr]))
                  (fun r₁ h₁ r₂ h₂ => hni r₁ (by simp [h₁]) r₂ (by simp [h₂]))
                -- structure of the tail records
                obtain ⟨hlenr, hspecr⟩ := renameLoop_ok_spec env cfg bdir rest fs3
                  (if cfg.numbering then c + 1 else c) fs₁ c₁ rs hrec
                have htail : ∀ rec ∈ rs, rec.original_path ∈ rest ∧
                    rec.original_name = pyBasename rec.original_path ∧
                    rec.new_path = joinPath cfg.directory rec.new_name ∧
                    rec.new_name.data ≠ [] := by
                  intro rec hr
                  obtain ⟨i, hi, hget⟩ := List.getElem_of_mem hr
                  have h1 : rs[i]? = some rec := by rw [List.getElem?_eq_getElem hi, hget]
                  have hi' : i < rest.length := by rw [← hlenr]; omega
                  have h2 : rest[i]? = some (rest.get ⟨i, hi'⟩) := List.getElem?_eq_getElem hi'
                  obtain ⟨ho, hon, hb, hnp', -, -⟩ := hspecr i rec _ h1 h2
                  refine ⟨?_, ?_, hnp', build_new_name_ok_nonempty hb⟩
                  · rw [ho]
                    exact List.getElem_mem hi'
                  · rw [ho]
                    exact hon
                have htailchild : ∀ rec ∈ rs,
                    childOf? cfg.directory rec.original_path = some rec.original_name := by
                  intro rec hr
                  obtain ⟨hm, hon, -, -⟩ := htail rec hr
                  rw [hon]
                  exact hchild rec.original_path (by simp [hm])
                have hnewchild : ∀ rec ∈ rs,
                    childOf? cfg.directory rec.new_path = some rec.new_name := by
                  intro rec hr
                  obtain ⟨-, -, hnp', hne'⟩ := htail rec hr
                  rw [hnp']
                  exact childOf?_joinPath cfg.directory rec.new_name hne'
                    (hnn rec (by simp [hr])).1
                have hname_ne : ∀ rec ∈ rs, rec.original_name ≠ pyBasename fp := by
                  intro rec hr heq
                  have h1 := childOf?_eq_some (htailchild rec hr)
                  have h2 := childOf?_eq_some hfpchild
                  have heqp : rec.original_path = fp := by rw [h1.1, h2.1, heq]
                  exact hfpnotin (heqp ▸ (htail rec hr).1)
                have horig_ne_fp : ∀ rec ∈ rs, rec.original_path ≠ fp := by
                  intro rec hr heq
                  exact hfpnotin (heq ▸ (htail rec hr).1)
                -- unpack the tail view
                unfold ApplyView at hview
                obtain ⟨v1, v2, v3, v4, v5, v6, v7, v8⟩ := hview
                have hRmem : ∀ rec ∈ rs.filter (fun rec => rec.renamed_at.isSome),
                    rec ∈ rs ∧ rec.renamed_at.isSome = true := by
                  intro rec hr
                  have := List.mem_filter.mp hr
                  exact ⟨this.1, by simpa using this.2⟩
                -- derived disequalities for the tail renamed records
                have hnew_ne_np : ∀ rec ∈ rs.filter (fun rec => rec.renamed_at.isSome),
                    rec.new_path ≠ joinPath cfg.directory nn := by
                  intro rec hr heq
                  have h6 := v6 rec hr
                  rw [heq] at h6
                  unfold pyExists at h6
                  rw [h3np] at h6
                  simp at h6
                have hnew_ne_fp : ∀ rec ∈ rs.filter (fun rec => rec.renamed_at.isSome),
                    rec.new_path ≠ fp := by
                  intro rec hr
                  exact hni rec (by simp [(hRmem rec hr).1])
                    ⟨pyBasename fp, nn, fp, joinPath cfg.directory nn,
                      none, some (env.strftime "%Y-%m-%d %H:%M:%S")⟩ (by simp)
                    (hRmem rec hr).2
                have hnew_ne_bp : ∀ rec ∈ rs, ∀ n, rec.new_path ≠ joinPath bdir n := by
                  intro rec hr n
                  exact ne_of_childOf_some_none (hnewchild rec hr) (hsubnone n)
                have horig_ne_np : ∀ rec ∈ rs,
                    rec.original_path ≠ joinPath cfg.directory nn := by
                  intro rec hr heq
                  exact hni ⟨pyBasename fp, nn, fp, joinPath cfg.directory nn,
                      none, some (env.strftime "%Y-%m-%d %H:%M:%S")⟩ (by simp)
                    rec (by simp [hr]) (by simp) heq.symm
                have horig_ne_bp : ∀ rec ∈ rs, ∀ n,
                    rec.original_path ≠ joinPath bdir n := by
                  intro rec hr n
                  exact ne_of_childOf_some_none (htailchild rec hr) (hsubnone n)
                have hbpj_ne_np : ∀ rec ∈ rs,
                    joinPath cfg.directory nn ≠ joinPath bdir rec.original_name :=
                  fun rec _ => ne_of_childOf_some_none hnpchild (hsubnone rec.original_name)
                have hbpj_ne_fp : ∀ rec ∈ rs,
                    fp ≠ joinPath bdir rec.original_name :=
                  fun rec _ => ne_of_childOf_some_none hfpchild (hsubnone rec.original_name)
                have hbp_ne_bpj : ∀ rec ∈ rs,
                    joinPath bdir (pyBasename fp) ≠ joinPath bdir rec.original_name := by
                  intro rec hr heq
                  exact hname_ne rec hr (joinPath_inj heq).symm
                -- assemble the view for the extended record list
                unfold ApplyView
                simp only [List.filter_cons, Option.isSome_some, if_true]
                refine ⟨?_, ?_, ?_, ?_, ?_, ?_, ?_, ?_⟩
                · intro q hq
                  rw [v1 q hq, h3dirq q hq]
                · left
                  rcases v2 with hv | ⟨hv, -⟩
                  · exact hv
                  · rw [hv, h3dirb]
                · intro rec hrec'
                  rcases List.mem_cons.mp hrec' with hh | hh
                  · subst hh
                    dsimp only
                    rw [v7 (joinPath bdir (pyBasename fp)) (by
                      intro rec hr
                      have hrs := (hRmem rec hr).1
                      exact ⟨hbp_ne_bpj rec hrs,
                        Ne.symm (hnew_ne_bp rec hrs (pyBasename fp)),
                        Ne.symm (horig_ne_bp rec hrs (pyBasename fp))⟩)]
                    rw [h3bp, hd_read]
                  · have hrs := (hRmem _ hh).1
                    rw [v3 _ hh]
                    exact h3frame rec.original_path (horig_ne_np rec hrs)
                      (horig_ne_fp rec hrs) (horig_ne_bp rec hrs (pyBasename fp))
                · intro rec hrec'
                  rcases List.mem_cons.mp hrec' with hh | hh
                  · subst hh
                    dsimp only
                    rw [v7 (joinPath cfg.directory nn) (by
                      intro rec hr
                      have hrs := (hRmem rec hr).1
                      exact ⟨hbpj_ne_np rec hrs, Ne.symm (hnew_ne_np rec hr),
                        Ne.symm (horig_ne_np rec hrs)⟩)]
                    rw [h3np, hd_read]
                  · have hrs := (hRmem _ hh).1
                    rw [v4 _ hh]
                    exact h3frame rec.original_path (horig_ne_np rec hrs)
                      (horig_ne_fp rec hrs) (horig_ne_bp rec hrs (pyBasename fp))
                · intro rec hrec'
                  rcases List.mem_cons.mp hrec' with hh | hh
                  · subst hh
                    dsimp only
                    rw [v7 fp (by
                      intro rec hr
                      have hrs := (hRmem rec hr).1
                      exact ⟨hbpj_ne_fp rec hrs, Ne.symm (hnew_ne_fp rec hr),
                        Ne.symm (horig_ne_fp rec hrs)⟩)]
                    exact h3fp
                  · exact v5 _ hh
                · intro rec hrec'
                  rcases List.mem_cons.mp hrec' with hh | hh
                  · subst hh
                    dsimp only
                    simpa using hex
                  · have hrs := (hRmem _ hh).1
                    have h6 := v6 _ hh
                    unfold pyExists at h6 ⊢
                    simp only [Bool.or_eq_false_iff] at h6 ⊢
                    obtain ⟨h6f, h6d⟩ := h6
                    constructor
                    · rw [h3frame rec.new_path (hnew_ne_np rec hh) (hnew_ne_fp rec hh)
                        (hnew_ne_bp rec hrs (pyBasename fp))] at h6f
                      exact h6f
                    · have hnewbd : rec.new_path ≠ bdir :=
                        ne_of_childOf_some_some (hnewchild rec hrs) hbdir
                          (hnn rec (by simp [hrs])).2
                      rw [h3dirq rec.new_path hnewbd] at h6d
                      exact h6d
                · intro q hq
                  have hqhead := hq ⟨pyBasename fp, nn, fp, joinPath cfg.directory nn,
                    none, some (env.strftime "%Y-%m-%d %H:%M:%S")⟩ (by simp)
                  rw [v7 q (fun rec hr => hq rec (by simp [hr]))]
                  exact h3frame q hqhead.2.1 hqhead.2.2 hqhead.1
                · intro rec₁ hrec₁ rec₂ hrec₂ heq
                  rcases List.mem_cons.mp hrec₁ with hh₁ | hh₁ <;>
                    rcases List.mem_cons.mp hrec₂ with hh₂ | hh₂
                  · rw [hh₁, hh₂]
                  · exfalso
                    subst hh₁
                    exact hnew_ne_np rec₂ hh₂ (heq.symm)
                  · exfalso
                    subst hh₂
                    exact hnew_ne_np rec₁ hh₁ heq
                  · exact v8 rec₁ hh₁ rec₂ hh₂ heq

/-! ### Facts about the collected file list -/

theorem lookupP_isSome_of_mem {α : Type} {l : List (String × α)} {k : String} {v : α}
    (h : (k, v) ∈ l) : (lookupP l k).isSome = true := by
  induction l with
  | nil => simp at h
  | cons e rest ih =>
    obtain ⟨k', v'⟩ := e
    rcases List.mem_cons.mp h with hh | hh
    · injection hh with h1 h2
      simp [lookupP, h1.symm]
    · by_cases hk : k' = k
      · simp [lookupP, hk]
      · simp only [lookupP, if_neg hk]
        exact ih hh

theorem mem_matchingFiles_spec {fs : FS} {dir : String} {exts : Option (List String)}
    {fp : String} (h : fp ∈ matchingFiles fs dir exts) :
    (fs.read fp).isSome = true ∧ childOf? dir fp = some (pyBasename fp) := by
  unfold matchingFiles at h
  obtain ⟨name, hname, hjoin⟩ := List.mem_filterMap.mp h
  have hfp : fp = joinPath dir name := by
    by_cases hm : matchExt exts name = true
    · rw [if_pos hm] at hjoin
      injection hjoin with hj
      exact hj.symm
    · rw [if_neg hm] at hjoin
      exact absurd hjoin (by simp)
  unfold listNames at hname
  obtain ⟨e, he, hce⟩ := List.mem_filterMap.mp hname
  obtain ⟨hpath, hnne, hnsl⟩ := childOf?_eq_some hce
  have hefp : e.1 = fp := by rw [hpath, ← hfp]
  constructor
  · rw [← hefp]
    obtain ⟨k, v⟩ := e
    show (lookupP fs.files k).isSome = true
    exact lookupP_isSome_of_mem he
  · rw [hfp, childOf?_joinPath dir name hnne hnsl, pyBasename_joinPath dir name hnsl]

theorem mem_collect_spec {fs : FS} {dir : String} {exts : Option (List String)}
    {fp : String} (h : fp ∈ collect_files fs dir exts) :
    (fs.read fp).isSome = true ∧ childOf? dir fp = some (pyBasename fp) :=
  mem_matchingFiles_spec ((insSort_perm strLe _).mem_iff.mp h)

theorem collect_files_nodup {fs : FS} {dir : String} {exts : Option (List String)}
    (hwf : (fs.files.map Prod.fst).Nodup) :
    (collect_files fs dir exts).Nodup := by
  have h1 : listNames fs dir = (fs.files.map Prod.fst).filterMap (childOf? dir) := by
    unfold listNames
    rw [List.filterMap_map]
    rfl
  have h2 : (listNames fs dir).Nodup := by
    rw [h1]
    refine List.Nodup.filterMap ?_ hwf
    intro a a' b hb hb'
    obtain ⟨ha, -, -⟩ := childOf?_eq_some hb
    obtain ⟨ha', -, -⟩ := childOf?_eq_some hb'
    rw [ha, ha']
  have h3 : (matchingFiles fs dir exts).Nodup := by
    unfold matchingFiles
    refine List.Nodup.filterMap ?_ h2
    intro a a' b hb hb'
    by_cases hm : matchExt exts a = true
    · rw [if_pos hm] at hb
      by_cases hm' : matchExt exts a' = true
      · rw [if_pos hm'] at hb'
        have e1 : joinPath dir a = b := by simpa using hb
        have e2 : joinPath dir a' = b := by simpa using hb'
        exact joinPath_inj (e1.trans e2.symm)
      · rw [if_neg hm'] at hb'
        simp at hb'
    · rw [if_neg hm] at hb
      simp at hb
  exact ((insSort_perm strLe _).nodup_iff).mpr h3

/-! ### Claim C5: conflict aborts the batch, earlier renames persist -/

/-- C5: when during a non-dry-run apply the destination of a record (whose
new path differs from its original path) already exists, the whole call
fails at once with the `FileExistsError` for that destination: the returned
state is exactly the state after the earlier records — no further record is
processed, no log is written — and every file renamed by an earlier record
is still present at its new path (no rollback). -/
theorem C5_conflict_abort (env : Env) (cfg : BulkRenameConfig) (fs : FS)
    (hdry : cfg.dryRun = false) (hval : validate fs cfg = .ok ())
    (hwf : (fs.files.map Prod.fst).Nodup)
    (pre post : List String) (fp : String)
    (hsplit : collect_files fs cfg.directory cfg.extensions = pre ++ fp :: post)
    (fs₁ : FS) (c₁ : Int) (recs₁ : List Record)
    (hpre : renameLoop env cfg (backupDirOf env cfg) pre fs cfg.numberingStart
      = (fs₁, c₁, .ok recs₁))
    (nn : String) (hbn : build_new_name env cfg (pyBasename fp) c₁ = .ok nn)
    (hne : fp ≠ joinPath cfg.directory nn)
    (hex : pyExists fs₁ (joinPath cfg.directory nn) = true) :
    rename_files env cfg fs
      = (fs₁, .error (.fileExistsError
          ("Target file already exists: " ++ joinPath cfg.directory nn))) ∧
    ∀ rec ∈ recs₁, (fs₁.read rec.new_path).isSome = true := by
  have hnodup : (collect_files fs cfg.directory cfg.extensions).Nodup :=
    collect_files_nodup hwf
  rw [hsplit] at hnodup
  have hprend : pre.Nodup := hnodup.of_append_left
  have hprepres : ∀ q ∈ pre, (fs.read q).isSome = true := by
    intro q hq
    have : q ∈ collect_files fs cfg.directory cfg.extensions := by
      rw [hsplit]
      exact List.mem_append.mpr (Or.inl hq)
    exact (mem_collect_spec this).1
  constructor
  · unfold rename_files
    rw [hval]
    dsimp only
    rw [hsplit]
    rw [if_neg (by simp)]
    rw [renameLoop_append env cfg (backupDirOf env cfg) pre (fp :: post) fs
      cfg.numberingStart]
    rw [hpre]
    dsimp only
    have hstep : renameLoop env cfg (backupDirOf env cfg) (fp :: post) fs₁ c₁
        = (fs₁, c₁, .error (.fileExistsError
            ("Target file already exists: " ++ joinPath cfg.directory nn))) := by
      simp only [renameLoop]
      rw [hbn]
      dsimp only
      rw [if_neg (by simp [hdry]), if_neg hne, if_pos hex]
    rw [hstep]
  · obtain ⟨-, hpresout⟩ := renameLoop_presence env cfg (backupDirOf env cfg) hdry
      pre fs cfg.numberingStart fs₁ c₁ recs₁ hpre hprepres hprend
    exact hpresout

def cfgW5 : BulkRenameConfig :=
  ⟨"/d", "p", "", false, 1, 3, false, "%Y%m%d%H%M%S", none, none, none, false, none, none⟩

def fsW5 : FS :=
  ⟨[("/d/a.txt", ⟨.raw "A", 1⟩), ("/d/b.txt", ⟨.raw "B", 2⟩),
    ("/d/pb.txt", ⟨.raw "PB", 3⟩)], [("/d", 0)]⟩

def loopOutW5 : FS × Int × Except PyError (List Record) :=
  renameLoop envW cfgW5 (backupDirOf envW cfgW5) ["/d/a.txt"] fsW5 cfgW5.numberingStart

def recsW5 : List Record :=
  match loopOutW5.2.2 with
  | .ok rs => rs
  | .error _ => []

theorem C5_conflict_abort_witness :
    cfgW5.dryRun = false ∧ validate fsW5 cfgW5 = .ok () ∧
    (fsW5.files.map Prod.fst).Nodup ∧
    collect_files fsW5 cfgW5.directory cfgW5.extensions
      = ["/d/a.txt"] ++ "/d/b.txt" :: ["/d/pb.txt"] ∧
    renameLoop envW cfgW5 (backupDirOf envW cfgW5) ["/d/a.txt"] fsW5 cfgW5.numberingStart
      = (loopOutW5.1, loopOutW5.2.1, .ok recsW5) ∧
    build_new_name envW cfgW5 (pyBasename "/d/b.txt") loopOutW5.2.1 = .ok "pb.txt" ∧
    "/d/b.txt" ≠ joinPath cfgW5.directory "pb.txt" ∧
    pyExists loopOutW5.1 (joinPath cfgW5.directory "pb.txt") = true ∧
    (rename_files envW cfgW5 fsW5
      = (loopOutW5.1, .error (.fileExistsError
          ("Target file already exists: " ++ joinPath cfgW5.directory "pb.txt"))) ∧
    ∀ rec ∈ recsW5, (loopOutW5.1.read rec.new_path).isSome = true) := by
  refine ⟨rfl, by rfl, by decide, by rfl, by rfl, by rfl, by decide, by rfl, ?_⟩
  exact C5_conflict_abort envW cfgW5 fsW5 rfl (by rfl) (by decide)
    ["/d/a.txt"] ["/d/pb.txt"] "/d/b.txt" (by rfl)
    loopOutW5.1 loopOutW5.2.1 recsW5 (by rfl)
    "pb.txt" (by rfl) (by decide) (by rfl)

/-! ### Claim C3 (corrected): regex producing an empty stem -/

theorem build_new_name_empty_stem {env : Env} {cfg : BulkRenameConfig}
    {name : String} {c : Int}
    (hp : truthyS cfg.regexPattern = true) (hr : truthyS cfg.regexReplacement = true)
    (hsub : env.reSub (cfg.regexPattern.getD "") (cfg.regexReplacement.getD "")
      (pySplitext name).1 = .ok "") :
    build_new_name env cfg name c
      = .error (.valueError ("Regex produced an empty file name for " ++ name ++ ".")) := by
  simp only [build_new_name]
  rw [if_pos (by rw [hp, hr]; rfl)]
  rw [hsub]
  dsimp only
  rw [if_pos rfl]

/-- C3 (amended): with a truthy pattern and truthy replacement, a file whose
stem substitutes to the empty string makes the call fail with the
empty-result-name `ConfigError` once processing reaches that file; with an
*empty* replacement string, however, the same call fails earlier, at
validation, with the pattern-and-replacement-required-together `ConfigError`
(substitution never runs), not with the empty-result error. -/
theorem C3_regex_empty_result :
    (∀ (env : Env) (cfg : BulkRenameConfig) (fs : FS) (pre post : List String)
       (fp : String) (fs₁ : FS) (c₁ : Int) (recs₁ : List Record),
       validate fs cfg = .ok () →
       truthyS cfg.regexPattern = true → truthyS cfg.regexReplacement = true →
       collect_files fs cfg.directory cfg.extensions = pre ++ fp :: post →
       renameLoop env cfg (backupDirOf env cfg) pre fs cfg.numberingStart
         = (fs₁, c₁, .ok recs₁) →
       env.reSub (cfg.regexPattern.getD "") (cfg.regexReplacement.getD "")
         (pySplitext (pyBasename fp)).1 = .ok "" →
       rename_files env cfg fs
         = (fs₁, .error (.valueError
             ("Regex produced an empty file name for " ++ pyBasename fp ++ ".")))) ∧
    (∀ (env : Env) (cfg : BulkRenameConfig) (fs : FS) (pat : String),
       cfg.regexPattern = some pat → pat ≠ "" → cfg.regexReplacement = some "" →
       cfg.directory ≠ "" → pyExists fs cfg.directory = true →
       (fs.readDir cfg.directory).isNone = false →
       ¬(cfg.numbering = true ∧ cfg.numberingPadding < 0) →
       ¬(cfg.numbering = true ∧ cfg.numberingStart < 0) →
       rename_files env cfg fs
         = (fs, .error (.valueError
             "Both --regex-pattern and --regex-replacement are required together."))) := by
  constructor
  · intro env cfg fs pre post fp fs₁ c₁ recs₁ hval hp hr hsplit hpre hsub
    unfold rename_files
    rw [hval]
    dsimp only
    rw [hsplit]
    rw [if_neg (by simp)]
    rw [renameLoop_append env cfg (backupDirOf env cfg) pre (fp :: post) fs
      cfg.numberingStart]
    rw [hpre]
    dsimp only
    have hstep : renameLoop env cfg (backupDirOf env cfg) (fp :: post) fs₁ c₁
        = (fs₁, c₁, .error (.valueError
            ("Regex produced an empty file name for " ++ pyBasename fp ++ "."))) := by
      simp only [renameLoop]
      rw [build_new_name_empty_stem hp hr hsub]
    rw [hstep]
  · intro env cfg fs pat hp hpne hr hd hex hdir hn1 hn2
    have hval : validate fs cfg = .error (.valueError
        "Both --regex-pattern and --regex-replacement are required together.") := by
      unfold validate
      rw [if_neg hd, if_neg (by simp [hex]), if_neg (by simp [hdir]),
        if_neg hn1, if_neg hn2, if_pos (by simp [hp, hr, truthyS, hpne])]
    unfold rename_files
    rw [hval]

def cfgW3 : BulkRenameConfig :=
  ⟨"/d", "", "", false, 1, 3, false, "%Y%m%d%H%M%S", some "(z?)x", some "\\1", none,
   false, none, none⟩

/-- Witness environment whose `re.sub` models `re.sub("(z?)x", "\\1", ·)`:
the stem `"x"` substitutes to the empty string (the optional group is
empty), other stems are left alone. -/
def envW3 : Env :=
  ⟨fun _ _ s => .ok (if s = "x" then "" else s), fun _ => "T", "100", 50⟩

def fsW3 : FS := ⟨[("/d/x.txt", ⟨.raw "X", 1⟩)], [("/d", 0)]⟩

def cfgW3c : BulkRenameConfig :=
  ⟨"/d", "", "", false, 1, 3, false, "%Y%m%d%H%M%S", some ".*", some "", none,
   false, none, none⟩

/-- The claim's own concrete instance is false: a pattern matching the whole
stem with an *empty* replacement on `x.txt` fails with the
required-together `ConfigError` from validation, not with the
empty-result-name `ConfigError`. -/
theorem C3_regex_empty_result_counterexample :
    rename_files envW cfgW3c fsW3
      = (fsW3, .error (.valueError
          "Both --regex-pattern and --regex-replacement are required together.")) ∧
    (PyError.valueError "Both --regex-pattern and --regex-replacement are required together.")
      ≠ (PyError.valueError "Regex produced an empty file name for x.txt.") :=
  ⟨by rfl, by decide⟩

theorem C3_regex_empty_result_witness :
    validate fsW3 cfgW3 = .ok () ∧
    truthyS cfgW3.regexPattern = true ∧ truthyS cfgW3.regexReplacement = true ∧
    collect_files fsW3 cfgW3.directory cfgW3.extensions = [] ++ "/d/x.txt" :: [] ∧
    renameLoop envW3 cfgW3 (backupDirOf envW3 cfgW3) [] fsW3 cfgW3.numberingStart
      = (fsW3, cfgW3.numberingStart, .ok []) ∧
    envW3.reSub (cfgW3.regexPattern.getD "") (cfgW3.regexReplacement.getD "")
      (pySplitext (pyBasename "/d/x.txt")).1 = .ok "" ∧
    rename_files envW3 cfgW3 fsW3
      = (fsW3, .error (.valueError
          ("Regex produced an empty file name for " ++ pyBasename "/d/x.txt" ++ "."))) ∧
    rename_files envW cfgW3c fsW3
      = (fsW3, .error (.valueError
          "Both --regex-pattern and --regex-replacement are required together.")) := by
  refine ⟨by rfl, rfl, rfl, by rfl, by rfl, by rfl, ?_, ?_⟩
  · exact C3_regex_empty_result.1 envW3 cfgW3 fsW3 [] [] "/d/x.txt" fsW3
      cfgW3.numberingStart [] (by rfl) rfl rfl (by rfl) (by rfl) (by rfl)
  · exact C3_regex_empty_result.2 envW cfgW3c fsW3 ".*" rfl (by decide) rfl
      (by decide) (by rfl) (by rfl) (by decide) (by decide)

/-! ### Path-coverage of the loop's output filesystem -/

theorem startsD_data_concat (a b : String) : startsD a.data (a ++ b).data = true := by
  rw [String.data_append]
  exact startsD_append _ _

theorem startsD_child (pre : String) {dir p name : String}
    (hc : childOf? dir p = some name)
    (hs : startsD pre.data name.data = true) :
    startsD (dir ++ "/" ++ pre).data p.data = true := by
  obtain ⟨hp, -, -⟩ := childOf?_eq_some hc
  obtain ⟨rest, hrest⟩ := startsD_eq_true hs
  rw [hp, data_joinPath, hrest]
  have hdp : (dir ++ "/" ++ pre).data = (dir.data ++ ['/']) ++ pre.data := by
    rw [String.data_append, String.data_append]
  rw [hdp, ← List.append_assoc]
  exact startsD_append _ _

theorem lookupP_isSome_mem {α : Type} {l : List (String × α)} {k : String}
    (h : (lookupP l k).isSome = true) : k ∈ l.map Prod.fst := by
  induction l with
  | nil => simp [lookupP] at h
  | cons e rest ih =>
    obtain ⟨k', v'⟩ := e
    by_cases hk : k' = k
    · simp [hk]
    · simp only [lookupP, if_neg hk] at h
      simp only [List.map_cons, List.mem_cons]
      exact Or.inr (ih h)

theorem mem_map_fst_eraseKey {α : Type} {l : List (String × α)} {k p : String}
    (h : p ∈ (eraseKey l k).map Prod.fst) : p ∈ l.map Prod.fst := by
  induction l with
  | nil => simp [eraseKey] at h
  | cons e rest ih =>
    obtain ⟨k', v'⟩ := e
    by_cases hk : k' = k
    · rw [show eraseKey ((k', v') :: rest) k = eraseKey rest k by simp [eraseKey, hk]] at h
      simp only [List.map_cons, List.mem_cons]
      exact Or.inr (ih h)
    · rw [show eraseKey ((k', v') :: rest) k = (k', v') :: eraseKey rest k by
        simp [eraseKey, hk]] at h
      simp only [List.map_cons, List.mem_cons] at h ⊢
      rcases h with h | h
      · exact Or.inl h
      · exact Or.inr (ih h)

theorem mem_map_fst_setFile {fs : FS} {q p : String} {d : FileData}
    (h : p ∈ (fs.setFile q d).files.map Prod.fst) :
    p = q ∨ p ∈ fs.files.map Prod.fst := by
  unfold FS.setFile at h
  simp only [List.map_cons, List.mem_cons] at h
  rcases h with h | h
  · exact Or.inl h
  · exact Or.inr (mem_map_fst_eraseKey h)

theorem mem_map_fst_removeFile {fs : FS} {q p : String}
    (h : p ∈ (fs.removeFile q).files.map Prod.fst) : p ∈ fs.files.map Prod.fst :=
  mem_map_fst_eraseKey h

theorem ensure_directory_files (env : Env) (fs : FS) (p : String) :
    (ensure_directory env fs p).files = fs.files := by
  unfold ensure_directory
  by_cases h : pyExists fs p = true <;> simp [h, FS.mkdir]

theorem mem_dirs_ensure {env : Env} {fs : FS} {q p : String}
    (h : p ∈ (ensure_directory env fs q).dirs.map Prod.fst) :
    p = q ∨ p ∈ fs.dirs.map Prod.fst := by
  unfold ensure_directory at h
  by_cases he : pyExists fs q = true
  · rw [if_pos he] at h
    exact Or.inr h
  · rw [if_neg he] at h
    unfold FS.mkdir at h
    simp only [List.map_cons, List.mem_cons] at h
    rcases h with h | h
    · exact Or.inl h
    · exact Or.inr (mem_map_fst_eraseKey h)

theorem joinPath_joinPath (a b c : String) :
    joinPath (joinPath a b) c = joinPath a (b ++ "/" ++ c) := by
  simp [joinPath, String.append_assoc]

theorem renameLoop_paths (env : Env) (cfg : BulkRenameConfig) (bdir : String) :
    ∀ (l : List String) (fs : FS) (c : Int) (fs' : FS) (c' : Int) (recs : List Record),
      renameLoop env cfg bdir l fs c = (fs', c', .ok recs) →
      (∀ p, p ∈ fs'.files.map Prod.fst →
        p ∈ fs.files.map Prod.fst ∨ (∃ n, p = joinPath bdir n) ∨
        ∃ rec ∈ recs, p = rec.new_path) ∧
      (∀ p, p ∈ fs'.dirs.map Prod.fst → p ∈ fs.dirs.map Prod.fst ∨ p = bdir) := by
  intro l
  induction l with
  | nil =>
    intro fs c fs' c' recs h
    simp only [renameLoop, Prod.mk.injEq] at h
    obtain ⟨h1, -, h3⟩ := h
    subst h1
    exact ⟨fun p hp => Or.inl hp, fun p hp => Or.inl hp⟩
  | cons fp rest ih =>
    intro fs c fs' c' recs h
    simp only [renameLoop] at h
    cases hbn : build_new_name env cfg (pyBasename fp) c with
    | error e =>
      rw [hbn] at h
      simp at h
    | ok nn =>
      rw [hbn] at h
      dsimp only at h
      by_cases hdry : cfg.dryRun = true
      · rw [if_pos hdry] at h
        rcases hrec : renameLoop env cfg bdir rest fs (if cfg.numbering then c + 1 else c)
          with ⟨fs₁, c₁, res₁⟩
        rw [hrec] at h
        cases res₁ with
        | error e => simp [Except.map] at h
        | ok rs =>
          simp only [Except.map, Prod.mk.injEq, Except.ok.injEq] at h
          obtain ⟨hfs, -, hrecs⟩ := h
          subst hrecs
          rw [← hfs]
          obtain ⟨ihf, ihd⟩ := ih fs (if cfg.numbering then c + 1 else c) fs₁ c₁ rs hrec
          refine ⟨?_, ihd⟩
          intro p hp
          rcases ihf p hp with hh | hh | ⟨rec, hr, hh⟩
          · exact Or.inl hh
          · exact Or.inr (Or.inl hh)
          · exact Or.inr (Or.inr ⟨rec, by simp [hr], hh⟩)
      · rw [if_neg hdry] at h
        by_cases hskip : fp = joinPath cfg.directory nn
        · rw [if_pos hskip] at h
          rcases hrec : renameLoop env cfg bdir rest fs (if cfg.numbering then c + 1 else c)
            with ⟨fs₁, c₁, res₁⟩
          rw [hrec] at h
          cases res₁ with
          | error e => simp [Except.map] at h
          | ok rs =>
            simp only [Except.map, Prod.mk.injEq, Except.ok.injEq] at h
            obtain ⟨hfs, -, hrecs⟩ := h
            subst hrecs
            rw [← hfs]
            obtain ⟨ihf, ihd⟩ := ih fs (if cfg.numbering then c + 1 else c) fs₁ c₁ rs hrec
            refine ⟨?_, ihd⟩
            intro p hp
            rcases ihf p hp with hh | hh | ⟨rec, hr, hh⟩
            · exact Or.inl hh
            · exact Or.inr (Or.inl hh)
            · exact Or.inr (Or.inr ⟨rec, by simp [hr], hh⟩)
        · rw [if_neg hskip] at h
          by_cases hex : pyExists fs (joinPath cfg.directory nn) = true
          · rw [if_pos hex] at h
            simp at h
          · rw [if_neg hex] at h
            cases hcp : copy2 (ensure_directory env fs bdir) fp (joinPath bdir (pyBasename fp)) with
            | error e =>
              rw [hcp] at h
              simp at h
            | ok fs2 =>
              rw [hcp] at h
              dsimp only at h
              cases hrp : pyReplace fs2 fp (joinPath cfg.directory nn) with
              | error e =>
                rw [hrp] at h
                simp at h
              | ok fs3 =>
                rw [hrp] at h
                dsimp only at h
                rcases hrec : renameLoop env cfg bdir rest fs3 (if cfg.numbering then c + 1 else c)
                  with ⟨fs₁, c₁, res₁⟩
                rw [hrec] at h
                cases res₁ with
                | error e => simp [Except.map] at h
                | ok rs =>
                  simp only [Except.map, Prod.mk.injEq, Except.ok.injEq] at h
                  obtain ⟨hfs, -, hrecs⟩ := h
                  subst hrecs
                  rw [← hfs]
                  obtain ⟨X, d, -, hfs2, hX⟩ := copy2_ok_shape hcp
                  obtain ⟨d', -, -, hfs3⟩ := pyReplace_ok_shape hrp
                  obtain ⟨ihf, ihd⟩ :=
                    ih fs3 (if cfg.numbering then c + 1 else c) fs₁ c₁ rs hrec
                  have hXform : ∃ n, X = joinPath bdir n := by
                    rcases hX with hX | hX
                    · exact ⟨pyBasename fp, hX⟩
                    · rw [hX, joinPath_joinPath]
                      exact ⟨_, rfl⟩
                  constructor
                  · intro p hp
                    rcases ihf p hp with hh | hh | ⟨rec, hr, hh⟩
                    · -- p was in fs3: unravel the three set/remove steps
                      rw [hfs3] at hh
                      rcases mem_map_fst_setFile hh with hh' | hh'
                      · exact Or.inr (Or.inr ⟨⟨pyBasename fp, nn, fp,
                          joinPath cfg.directory nn, none,
                          some (env.strftime "%Y-%m-%d %H:%M:%S")⟩, by simp, hh'⟩)
                      · have hh'' := mem_map_fst_removeFile hh'
                        rw [hfs2] at hh''
                        rcases mem_map_fst_setFile hh'' with hh3 | hh3
                        · obtain ⟨n, hn⟩ := hXform
                          exact Or.inr (Or.inl ⟨n, by rw [hh3, hn]⟩)
                        · rw [ensure_directory_files] at hh3
                          exact Or.inl hh3
                    · exact Or.inr (Or.inl hh)
                    · exact Or.inr (Or.inr ⟨rec, by simp [hr], hh⟩)
                  · intro p hp
                    rcases ihd p hp with hh | hh
                    · rw [hfs3, FS.dirs_setFile, FS.dirs_removeFile, hfs2,
                        FS.dirs_setFile] at hh
                      rcases mem_dirs_ensure hh with hh' | hh'
                      · exact Or.inr hh'
                      · exact Or.inl hh'
                    · exact Or.inr hh

/-! ### Default artifact locations -/

theorem backupDirOf_default (env : Env) (cfg : BulkRenameConfig)
    (h : cfg.backupDir = none) :
    backupDirOf env cfg = joinPath cfg.directory ("backup_" ++ env.epoch) := by
  simp [backupDirOf, h, truthyS]

theorem logFileOf_default (env : Env) (cfg : BulkRenameConfig)
    (h : cfg.logFile = none) :
    logFileOf env cfg = joinPath cfg.directory ("rename_log_" ++ env.epoch ++ ".json") := by
  simp [logFileOf, h, truthyS]

theorem renameLoop_ok_mem_spec (env : Env) (cfg : BulkRenameConfig) (bdir : String)
    {l : List String} {fs : FS} {c : Int} {fs' : FS} {c' : Int} {recs : List Record}
    (h : renameLoop env cfg bdir l fs c = (fs', c', .ok recs)) :
    ∀ rec ∈ recs, rec.original_path ∈ l ∧
      rec.original_name = pyBasename rec.original_path ∧
      rec.new_path = joinPath cfg.directory rec.new_name ∧
      rec.new_name.data ≠ [] := by
  obtain ⟨hlen, hspec⟩ := renameLoop_ok_spec env cfg bdir l fs c fs' c' recs h
  intro rec hr
  obtain ⟨i, hi, hget⟩ := List.getElem_of_mem hr
  have h1 : recs[i]? = some rec := by rw [List.getElem?_eq_getElem hi, hget]
  have hi' : i < l.length := by rw [← hlen]; omega
  have h2 : l[i]? = some (l.get ⟨i, hi'⟩) := List.getElem?_eq_getElem hi'
  obtain ⟨ho, hon, hb, hnp', -, -⟩ := hspec i rec _ h1 h2
  refine ⟨?_, ?_, hnp', build_new_name_ok_nonempty hb⟩
  · rw [ho]
    exact List.getElem_mem hi'
  · rw [ho]
    exact hon

theorem logGlobName_startsD {n : String} (h : logGlobName n = true) :
    startsD "rename_log_".data n.data = true := by
  unfold logGlobName at h
  simp only [Bool.and_eq_true] at h
  exact h.1.1

/-! ### Claim C10: an aborted apply writes no log -/

/-- C10: when a non-dry-run apply with default artifact locations aborts on
a destination-exists error, no log is written: the log path of this
operation holds no file in the resulting state, and undo's log search over
the directory finds nothing — so the renames already performed by earlier
records of the batch are recorded nowhere. -/
theorem C10_no_log_on_abort (env : Env) (cfg : BulkRenameConfig) (fs : FS)
    (hdry : cfg.dryRun = false) (hval : validate fs cfg = .ok ())
    (hbd : cfg.backupDir = none) (hlf : cfg.logFile = none)
    (hepoch : hasSlash env.epoch.data = false)
    (hcleanL : ∀ p, p ∈ fs.files.map Prod.fst ++ fs.dirs.map Prod.fst →
      startsD (cfg.directory ++ "/" ++ "rename_log_").data p.data = false)
    (pre post : List String) (fp : String)
    (hsplit : collect_files fs cfg.directory cfg.extensions = pre ++ fp :: post)
    (fs₁ : FS) (c₁ : Int) (recs₁ : List Record)
    (hpre : renameLoop env cfg (backupDirOf env cfg) pre fs cfg.numberingStart
      = (fs₁, c₁, .ok recs₁))
    (nn : String) (hbn : build_new_name env cfg (pyBasename fp) c₁ = .ok nn)
    (hne : fp ≠ joinPath cfg.directory nn)
    (hex : pyExists fs₁ (joinPath cfg.directory nn) = true)
    (hnames : ∀ rec ∈ recs₁, startsD "rename_log_".data rec.new_name.data = false) :
    rename_files env cfg fs
      = (fs₁, .error (.fileExistsError
          ("Target file already exists: " ++ joinPath cfg.directory nn))) ∧
    fs₁.read (logFileOf env cfg) = none ∧
    find_latest_log fs₁ cfg.directory = none := by
  have hbdirEq := backupDirOf_default env cfg hbd
  have hlogEq := logFileOf_default env cfg hlf
  obtain ⟨hcovf, hcovd⟩ := renameLoop_paths env cfg (backupDirOf env cfg) pre fs
    cfg.numberingStart fs₁ c₁ recs₁ hpre
  have hmemspec := renameLoop_ok_mem_spec env cfg (backupDirOf env cfg) hpre
  have hbslash : hasSlash ("backup_" ++ env.epoch).data = false := by
    rw [String.data_append, hasSlash_append, hepoch]
    have : hasSlash "backup_".data = false := rfl
    rw [this]
    rfl
  have hlnstart : startsD "rename_log_".data
      ("rename_log_" ++ env.epoch ++ ".json").data = true := by
    rw [String.append_assoc]
    exact startsD_data_concat _ _
  have hlogchild : childOf? cfg.directory (logFileOf env cfg)
      = some ("rename_log_" ++ env.epoch ++ ".json") := by
    rw [hlogEq]
    apply childOf?_joinPath
    · intro hnil
      have hlen := congrArg List.length hnil
      rw [String.data_append, String.data_append] at hlen
      simp only [List.length_append, List.length_cons, List.length_nil] at hlen
      omega
    · rw [String.data_append, String.data_append, hasSlash_append, hasSlash_append, hepoch]
      have h1 : hasSlash "rename_log_".data = false := rfl
      have h2 : hasSlash ".json".data = false := rfl
      rw [h1, h2]
      rfl
  have hlogstart : startsD (cfg.directory ++ "/" ++ "rename_log_").data
      (logFileOf env cfg).data = true :=
    startsD_child "rename_log_" hlogchild hlnstart
  -- classify a path of fs₁ that is a log-glob child of the directory
  have hkey : ∀ p, p ∈ fs₁.files.map Prod.fst ++ fs₁.dirs.map Prod.fst →
      ∀ n, childOf? cfg.directory p = some n → logGlobName n = false := by
    intro p hp n hc
    by_cases hg : logGlobName n = true
    · exfalso
      have hps : startsD (cfg.directory ++ "/" ++ "rename_log_").data p.data = true :=
        startsD_child "rename_log_" hc (logGlobName_startsD hg)
      rcases List.mem_append.mp hp with hpf | hpd
      · rcases hcovf p hpf with hh | ⟨m, hm⟩ | ⟨rec, hr, hh⟩
        · have := hcleanL p (List.mem_append.mpr (Or.inl hh))
          rw [this] at hps
          exact absurd hps (by simp)
        · rw [hm, hbdirEq, childOf?_joinPath_joinPath cfg.directory
            ("backup_" ++ env.epoch) m hbslash] at hc
          exact absurd hc (by simp)
        · obtain ⟨-, -, hnj, -⟩ := hmemspec rec hr
          obtain ⟨hpj, -, -⟩ := childOf?_eq_some hc
          rw [hh, hnj] at hpj
          have hn_eq : rec.new_name = n := joinPath_inj hpj
          have hfalse := hnames rec hr
          rw [hn_eq] at hfalse
          have hns := logGlobName_startsD hg
          rw [hfalse] at hns
          exact absurd hns (by simp)
      · rcases hcovd p hpd with hh | hh
        · have := hcleanL p (List.mem_append.mpr (Or.inr hh))
          rw [this] at hps
          exact absurd hps (by simp)
        · rw [hh, hbdirEq] at hc
          rw [childOf?_joinPath cfg.directory ("backup_" ++ env.epoch)
            (by
              intro hnil
              have hlen := congrArg List.length hnil
              rw [String.data_append] at hlen
              simp only [List.length_append, List.length_cons, List.length_nil] at hlen
              omega) hbslash] at hc
          injection hc with hc
          have hns := logGlobName_startsD hg
          rw [← hc] at hns
          have hfalse : startsD "rename_log_".data ("backup_" ++ env.epoch).data = false := by
            rw [String.data_append]
            rfl
          rw [hfalse] at hns
          exact absurd hns (by simp)
    · simpa using hg
  refine ⟨?_, ?_, ?_⟩
  · unfold rename_files
    rw [hval]
    dsimp only
    rw [hsplit]
    rw [if_neg (by simp)]
    rw [renameLoop_append env cfg (backupDirOf env cfg) pre (fp :: post) fs
      cfg.numberingStart]
    rw [hpre]
    dsimp only
    have hstep : renameLoop env cfg (backupDirOf env cfg) (fp :: post) fs₁ c₁
        = (fs₁, c₁, .error (.fileExistsError
            ("Target file already exists: " ++ joinPath cfg.directory nn))) := by
      simp only [renameLoop]
      rw [hbn]
      dsimp only
      rw [if_neg (by simp [hdry]), if_neg hne, if_pos hex]
    rw [hstep]
  · cases hread : fs₁.read (logFileOf env cfg) with
    | none => rfl
    | some dd =>
      exfalso
      have hmem : logFileOf env cfg ∈ fs₁.files.map Prod.fst := by
        apply lookupP_isSome_mem (l := fs₁.files) (k := logFileOf env cfg)
        show (fs₁.read (logFileOf env cfg)).isSome = true
        rw [hread]
        rfl
      have := hkey (logFileOf env cfg) (List.mem_append.mpr (Or.inl hmem))
        ("rename_log_" ++ env.epoch ++ ".json") hlogchild
      unfold logGlobName at this
      rw [hlnstart] at this
      have hends : endsD ".json".data ("rename_log_" ++ env.epoch ++ ".json").data = true := by
        unfold endsD
        rw [String.data_append, List.reverse_append]
        exact startsD_append _ _
      rw [hends] at this
      have hlen16 : (16 : Nat) ≤ ("rename_log_" ++ env.epoch ++ ".json").data.length := by
        rw [String.data_append, String.data_append]
        simp only [List.length_append, List.length_cons, List.length_nil]
        omega
      rw [decide_eq_true hlen16] at this
      exact absurd this (by simp)
  · have hglob : globMtime fs₁ cfg.directory logGlobName = [] := by
      unfold globMtime
      rw [List.append_eq_nil]
      constructor
      · rw [List.filterMap_eq_nil]
        intro e he
        cases hc : childOf? cfg.directory e.1 with
        | none => rfl
        | some n =>
          dsimp only
          rw [if_neg (by
            rw [hkey e.1 (List.mem_append.mpr (Or.inl (List.mem_map_of_mem Prod.fst he)))
              n hc]
            simp)]
      · rw [List.filterMap_eq_nil]
        intro e he
        cases hc : childOf? cfg.directory e.1 with
        | none => rfl
        | some n =>
          dsimp only
          rw [if_neg (by
            rw [hkey e.1 (List.mem_append.mpr (Or.inr (List.mem_map_of_mem Prod.fst he)))
              n hc]
            simp)]
    unfold find_latest_log
    rw [hglob]
    rfl

theorem C10_no_log_on_abort_witness :
    cfgW5.dryRun = false ∧ validate fsW5 cfgW5 = .ok () ∧
    cfgW5.backupDir = none ∧ cfgW5.logFile = none ∧
    hasSlash envW.epoch.data = false ∧
    (∀ p, p ∈ fsW5.files.map Prod.fst ++ fsW5.dirs.map Prod.fst →
      startsD (cfgW5.directory ++ "/" ++ "rename_log_").data p.data = false) ∧
    collect_files fsW5 cfgW5.directory cfgW5.extensions
      = ["/d/a.txt"] ++ "/d/b.txt" :: ["/d/pb.txt"] ∧
    renameLoop envW cfgW5 (backupDirOf envW cfgW5) ["/d/a.txt"] fsW5 cfgW5.numberingStart
      = (loopOutW5.1, loopOutW5.2.1, .ok recsW5) ∧
    build_new_name envW cfgW5 (pyBasename "/d/b.txt") loopOutW5.2.1 = .ok "pb.txt" ∧
    "/d/b.txt" ≠ joinPath cfgW5.directory "pb.txt" ∧
    pyExists loopOutW5.1 (joinPath cfgW5.directory "pb.txt") = true ∧
    (∀ rec ∈ recsW5, startsD "rename_log_".data rec.new_name.data = false) ∧
    (rename_files envW cfgW5 fsW5
      = (loopOutW5.1, .error (.fileExistsError
          ("Target file already exists: " ++ joinPath cfgW5.directory "pb.txt"))) ∧
    loopOutW5.1.read (logFileOf envW cfgW5) = none ∧
    find_latest_log loopOutW5.1 cfgW5.directory = none) := by
  refine ⟨rfl, by rfl, rfl, rfl, by rfl, by decide, by rfl, by rfl, by rfl, by decide,
    by rfl, by decide, ?_⟩
  exact C10_no_log_on_abort envW cfgW5 fsW5 rfl (by rfl) rfl rfl (by rfl) (by decide)
    ["/d/a.txt"] ["/d/pb.txt"] "/d/b.txt" (by rfl)
    loopOutW5.1 loopOutW5.2.1 recsW5 (by rfl)
    "pb.txt" (by rfl) (by decide) (by rfl) (by decide)

theorem append_ne_empty_left (a b : String) (h : a.data ≠ []) : a ++ b ≠ "" := by
  intro he
  apply h
  have hd := congrArg String.data he
  rw [String.data_append] at hd
  exact (List.append_eq_nil.mp hd).1

/-! ### Claim C8: undo failure reporting -/

/-- C8: every log-discovery and log-validation failure mode of undo — no log
file matching the naming pattern, an unreadable/invalid selected log, a log
with a missing or empty record list, a first record without an original
path, and a missing backup directory — returns normally (never raises) with
`success = false`, a populated error message, and `restored_count = 0`. -/
theorem C8_undo_failure_reporting (fs : FS) (directory : String)
    (lf₂ lf₃ lf₄ lf₅ : String) (log_data₃ rf₃ log_data₄ rf₄ first₄ opv₄ : JVal)
    (log_data₅ rf₅ first₅ opv₅ : JVal) (op₅ : String) :
    (find_latest_log fs directory = none →
      ∃ u, undo_rename fs directory none = (fs, .ok u) ∧
        u.success = false ∧ u.error_message ≠ "" ∧ u.restored_count = 0) ∧
    (load_rename_log fs lf₂ = .ok none →
      ∃ u, undo_rename fs directory (some lf₂) = (fs, .ok u) ∧
        u.success = false ∧ u.error_message ≠ "" ∧ u.restored_count = 0) ∧
    (load_rename_log fs lf₃ = .ok (some log_data₃) →
     pyGet log_data₃ "renamed_files" (.jarr []) = .ok rf₃ →
     rf₃.truthy = false →
      ∃ u, undo_rename fs directory (some lf₃) = (fs, .ok u) ∧
        u.success = false ∧ u.error_message ≠ "" ∧ u.restored_count = 0) ∧
    (load_rename_log fs lf₄ = .ok (some log_data₄) →
     pyGet log_data₄ "renamed_files" (.jarr []) = .ok rf₄ →
     rf₄.truthy = true →
     firstElem rf₄ = .ok first₄ →
     pyGet first₄ "original_path" (.jstr "") = .ok opv₄ →
     opv₄.truthy = false →
      ∃ u, undo_rename fs directory (some lf₄) = (fs, .ok u) ∧
        u.success = false ∧ u.error_message ≠ "" ∧ u.restored_count = 0) ∧
    (load_rename_log fs lf₅ = .ok (some log_data₅) →
     pyGet log_data₅ "renamed_files" (.jarr []) = .ok rf₅ →
     rf₅.truthy = true →
     firstElem rf₅ = .ok first₅ →
     pyGet first₅ "original_path" (.jstr "") = .ok opv₅ →
     opv₅.truthy = true →
     asPath opv₅ = .ok op₅ →
     insSort descMtime (globMtime fs (pyDirname op₅) backupGlobName) = [] →
      ∃ u, undo_rename fs directory (some lf₅) = (fs, .ok u) ∧
        u.success = false ∧ u.error_message ≠ "" ∧ u.restored_count = 0) := by
  refine ⟨?_, ?_, ?_, ?_, ?_⟩
  · intro h
    refine ⟨⟨false, 0, 0, "No rename log files found in directory.", "", "", []⟩,
      ?_, rfl, by decide, rfl⟩
    unfold undo_rename
    dsimp only
    rw [h]
  · intro h
    refine ⟨⟨false, 0, 0, "Failed to read log file: " ++ lf₂, lf₂, "", []⟩,
      ?_, rfl, append_ne_empty_left _ _ (by decide), rfl⟩
    unfold undo_rename
    dsimp only
    rw [h]
  · intro h1 h2 h3
    refine ⟨⟨false, 0, 0, "Log file contains no rename records.", lf₃, "", []⟩,
      ?_, rfl, (by decide : ("Log file contains no rename records." : String) ≠ ""), rfl⟩
    unfold undo_rename
    dsimp only
    rw [h1]
    dsimp only
    rw [h2]
    dsimp only
    rw [if_pos (by simp [h3])]
  · intro h1 h2 h3 h4 h5 h6
    refine ⟨⟨false, 0, 0, "Log file format invalid (missing original_path).", lf₄, "", []⟩,
      ?_, rfl,
      (by decide : ("Log file format invalid (missing original_path)." : String) ≠ ""), rfl⟩
    unfold undo_rename
    dsimp only
    rw [h1]
    dsimp only
    rw [h2]
    dsimp only
    rw [if_neg (by simp [h3])]
    rw [h4]
    dsimp only
    rw [h5]
    dsimp only
    rw [if_pos (by simp [h6])]
  · intro h1 h2 h3 h4 h5 h6 h7 h8
    refine ⟨⟨false, 0, 0, "No backup directories found in " ++ pyDirname op₅, lf₅, "", []⟩,
      ?_, rfl, append_ne_empty_left _ _ (by decide), rfl⟩
    unfold undo_rename
    dsimp only
    rw [h1]
    dsimp only
    rw [h2]
    dsimp only
    rw [if_neg (by simp [h3])]
    rw [h4]
    dsimp only
    rw [h5]
    dsimp only
    rw [if_neg (by simp [h6])]
    rw [h7]
    dsimp only
    rw [h8]

def fsC8 : FS :=
  ⟨[("/u/raw.json", ⟨.raw "not json", 10⟩),
    ("/u/empty.json", ⟨.json (.jobj [("renamed_files", .jarr [])]), 11⟩),
    ("/u/bad.json", ⟨.json (.jobj [("renamed_files", .jarr [.jobj []])]), 12⟩),
    ("/u/nb.json", ⟨.json (.jobj [("renamed_files",
      .jarr [.jobj [("original_path", .jstr "/nb/x.txt")]])]), 13⟩)],
   [("/u", 5)]⟩

theorem C8_undo_failure_reporting_witness :
    find_latest_log fsC8 "/u" = none ∧
    load_rename_log fsC8 "/u/raw.json" = .ok none ∧
    load_rename_log fsC8 "/u/empty.json"
      = .ok (some (.jobj [("renamed_files", .jarr [])])) ∧
    load_rename_log fsC8 "/u/bad.json"
      = .ok (some (.jobj [("renamed_files", .jarr [.jobj []])])) ∧
    load_rename_log fsC8 "/u/nb.json"
      = .ok (some (.jobj [("renamed_files",
          .jarr [.jobj [("original_path", .jstr "/nb/x.txt")]])])) ∧
    insSort descMtime (globMtime fsC8 (pyDirname "/nb/x.txt") backupGlobName) = [] ∧
    (∃ u, undo_rename fsC8 "/u" none = (fsC8, .ok u) ∧
      u.success = false ∧ u.error_message ≠ "" ∧ u.restored_count = 0) ∧
    (∃ u, undo_rename fsC8 "/u" (some "/u/raw.json") = (fsC8, .ok u) ∧
      u.success = false ∧ u.error_message ≠ "" ∧ u.restored_count = 0) ∧
    (∃ u, undo_rename fsC8 "/u" (some "/u/empty.json") = (fsC8, .ok u) ∧
      u.success = false ∧ u.error_message ≠ "" ∧ u.restored_count = 0) ∧
    (∃ u, undo_rename fsC8 "/u" (some "/u/bad.json") = (fsC8, .ok u) ∧
      u.success = false ∧ u.error_message ≠ "" ∧ u.restored_count = 0) ∧
    (∃ u, undo_rename fsC8 "/u" (some "/u/nb.json") = (fsC8, .ok u) ∧
      u.success = false ∧ u.error_message ≠ "" ∧ u.restored_count = 0) := by
  have h := C8_undo_failure_reporting fsC8 "/u"
    "/u/raw.json" "/u/empty.json" "/u/bad.json" "/u/nb.json"
    (.jobj [("renamed_files", .jarr [])]) (.jarr [])
    (.jobj [("renamed_files", .jarr [.jobj []])]) (.jarr [.jobj []])
    (.jobj []) (.jstr "")
    (.jobj [("renamed_files", .jarr [.jobj [("original_path", .jstr "/nb/x.txt")]])])
    (.jarr [.jobj [("original_path", .jstr "/nb/x.txt")]])
    (.jobj [("original_path", .jstr "/nb/x.txt")]) (.jstr "/nb/x.txt")
    "/nb/x.txt"
  refine ⟨by rfl, by rfl, by rfl, by rfl, by rfl, by rfl,
    h.1 (by rfl),
    h.2.1 (by rfl),
    h.2.2.1 (by rfl) (by rfl) (by rfl),
    h.2.2.2.1 (by rfl) (by rfl) (by rfl) (by rfl) (by rfl) (by rfl),
    h.2.2.2.2 (by rfl) (by rfl) (by rfl) (by rfl) (by rfl) (by rfl) (by rfl) (by rfl)⟩

/-! ### Infrastructure for the round-trip analysis -/

theorem startsD_mono_append {pre : List Char} {b : String} (c : String)
    (h : startsD pre b.data = true) : startsD pre (b ++ c).data = true := by
  obtain ⟨rest, hrest⟩ := startsD_eq_true h
  rw [String.data_append, hrest, List.append_assoc]
  exact startsD_append _ _

theorem eraseKey_idem {α : Type} (l : List (String × α)) (p : String) :
    eraseKey (eraseKey l p) p = eraseKey l p := by
  induction l with
  | nil => rfl
  | cons e t ih =>
    obtain ⟨k, v⟩ := e
    by_cases hk : k = p
    · simp [eraseKey, hk, ih]
    · simp [eraseKey, hk, ih]

theorem nodup_map_inj {α β : Type} (f : α → β) (l : List α) (h : (l.map f).Nodup) :
    ∀ x ∈ l, ∀ y ∈ l, f x = f y → x = y := by
  induction l with
  | nil => simp
  | cons a t ih =>
    simp only [List.map_cons, List.nodup_cons] at h
    intro x hx y hy hf
    rcases List.mem_cons.mp hx with hx | hx <;> rcases List.mem_cons.mp hy with hy | hy
    · rw [hx, hy]
    · exfalso
      apply h.1
      rw [hx] at hf
      rw [hf]
      exact List.mem_map_of_mem f hy
    · exfalso
      apply h.1
      rw [hy] at hf
      rw [← hf]
      exact List.mem_map_of_mem f hx
    · exact ih h.2 x hx y hy hf

theorem renameLoop_origs (env : Env) (cfg : BulkRenameConfig) (bdir : String)
    {l : List String} {fs : FS} {c : Int} {fs' : FS} {c' : Int} {recs : List Record}
    (h : renameLoop env cfg bdir l fs c = (fs', c', .ok recs)) :
    recs.map (fun rec => rec.original_path) = l := by
  obtain ⟨hlen, hspec⟩ := renameLoop_ok_spec env cfg bdir l fs c fs' c' recs h
  apply List.ext_getElem?
  intro i
  by_cases hi : i < recs.length
  · have h1 : recs[i]? = some (recs.get ⟨i, hi⟩) := List.getElem?_eq_getElem hi
    have hi' : i < l.length := by omega
    have h2 : l[i]? = some (l.get ⟨i, hi'⟩) := List.getElem?_eq_getElem hi'
    obtain ⟨ho, -⟩ := hspec i _ _ h1 h2
    rw [List.getElem?_map, h1, h2]
    simp only [List.get_eq_getElem] at ho
    simp [ho]
  · have h1 : recs[i]? = none := List.getElem?_eq_none (by omega)
    have h2 : l[i]? = none := List.getElem?_eq_none (by omega)
    rw [List.getElem?_map, h1, h2]
    rfl

theorem renameLoop_ok_mem_nondry (env : Env) (cfg : BulkRenameConfig) (bdir : String)
    (hdry : cfg.dryRun = false)
    {l : List String} {fs : FS} {c : Int} {fs' : FS} {c' : Int} {recs : List Record}
    (h : renameLoop env cfg bdir l fs c = (fs', c', .ok recs)) :
    ∀ rec ∈ recs,
      (rec.skipped = some "Name unchanged." ∧ rec.renamed_at = none ∧
        rec.new_path = rec.original_path) ∨
      (rec.skipped = none ∧ rec.renamed_at = some (env.strftime "%Y-%m-%d %H:%M:%S") ∧
        rec.new_path ≠ rec.original_path) := by
  obtain ⟨hlen, hspec⟩ := renameLoop_ok_spec env cfg bdir l fs c fs' c' recs h
  intro rec hr
  obtain ⟨i, hi, hget⟩ := List.getElem_of_mem hr
  have h1 : recs[i]? = some rec := by rw [List.getElem?_eq_getElem hi, hget]
  have hi' : i < l.length := by rw [← hlen]; omega
  have h2 : l[i]? = some (l.get ⟨i, hi'⟩) := List.getElem?_eq_getElem hi'
  exact ((hspec i rec _ h1 h2).2.2.2.2.2) hdry

theorem renameLoop_dirs (env : Env) (cfg : BulkRenameConfig) (bdir : String) :
    ∀ (l : List String) (fs : FS) (c : Int) (fs' : FS) (c' : Int) (recs : List Record),
      renameLoop env cfg bdir l fs c = (fs', c', .ok recs) →
      fs'.dirs = fs.dirs ∨
      (fs'.dirs = (bdir, env.now) :: eraseKey fs.dirs bdir ∧
        recs.filter (fun rec => rec.renamed_at.isSome) ≠ []) := by
  intro l
  induction l with
  | nil =>
    intro fs c fs' c' recs h
    simp only [renameLoop, Prod.mk.injEq] at h
    obtain ⟨h1, -, -⟩ := h
    subst h1
    exact Or.inl rfl
  | cons fp rest ih =>
    intro fs c fs' c' recs h
    simp only [renameLoop] at h
    cases hbn : build_new_name env cfg (pyBasename fp) c with
    | error e =>
      rw [hbn] at h
      simp at h
    | ok nn =>
      rw [hbn] at h
      dsimp only at h
      by_cases hdry : cfg.dryRun = true
      · rw [if_pos hdry] at h
        rcases hrec : renameLoop env cfg bdir rest fs (if cfg.numbering then c + 1 else c)
          with ⟨fs₁, c₁, res₁⟩
        rw [hrec] at h
        cases res₁ with
        | error e => simp [Except.map] at h
        | ok rs =>
          simp only [Except.map, Prod.mk.injEq, Except.ok.injEq] at h
          obtain ⟨hfs, -, hrecs⟩ := h
          subst hrecs
          rw [← hfs]
          rcases ih fs (if cfg.numbering then c + 1 else c) fs₁ c₁ rs hrec with hh | ⟨hh, hne⟩
          · exact Or.inl hh
          · refine Or.inr ⟨hh, ?_⟩
            simpa using hne
      · rw [if_neg hdry] at h
        by_cases hskip : fp = joinPath cfg.directory nn
        · rw [if_pos hskip] at h
          rcases hrec : renameLoop env cfg bdir rest fs (if cfg.numbering then c + 1 else c)
            with ⟨fs₁, c₁, res₁⟩
          rw [hrec] at h
          cases res₁ with
          | error e => simp [Except.map] at h
          | ok rs =>
            simp only [Except.map, Prod.mk.injEq, Except.ok.injEq] at h
            obtain ⟨hfs, -, hrecs⟩ := h
            subst hrecs
            rw [← hfs]
            rcases ih fs (if cfg.numbering then c + 1 else c) fs₁ c₁ rs hrec with hh | ⟨hh, hne⟩
            · exact Or.inl hh
            · refine Or.inr ⟨hh, ?_⟩
              simpa using hne
        · rw [if_neg hskip] at h
          by_cases hex : pyExists fs (joinPath cfg.directory nn) = true
          · rw [if_pos hex] at h
            simp at h
          · rw [if_neg hex] at h
            cases hcp : copy2 (ensure_directory env fs bdir) fp (joinPath bdir (pyBasename fp)) with
            | error e =>
              rw [hcp] at h
              simp at h
            | ok fs2 =>
              rw [hcp] at h
              dsimp only at h
              cases hrp : pyReplace fs2 fp (joinPath cfg.directory nn) with
              | error e =>
                rw [hrp] at h
                simp at h
              | ok fs3 =>
                rw [hrp] at h
                dsimp only at h
                rcases hrec : renameLoop env cfg bdir rest fs3 (if cfg.numbering then c + 1 else c)
                  with ⟨fs₁, c₁, res₁⟩
                rw [hrec] at h
                cases res₁ with
                | error e => simp [Except.map] at h
                | ok rs =>
                  simp only [Except.map, Prod.mk.injEq, Except.ok.injEq] at h
                  obtain ⟨hfs, -, hrecs⟩ := h
                  subst hrecs
                  rw [← hfs]
                  obtain ⟨X, d, -, hfs2, -⟩ := copy2_ok_shape hcp
                  obtain ⟨d', -, -, hfs3⟩ := pyReplace_ok_shape hrp
                  have hd3 : fs3.dirs = (ensure_directory env fs bdir).dirs := by
                    rw [hfs3, FS.dirs_setFile, FS.dirs_removeFile, hfs2, FS.dirs_setFile]
                  have hfilter : ∀ rs' : List Record,
                      (((⟨pyBasename fp, nn, fp, joinPath cfg.directory nn, none,
                        some (env.strftime "%Y-%m-%d %H:%M:%S")⟩ : Record) :: rs').filter
                          (fun rec => rec.renamed_at.isSome)) ≠ [] := by
                    intro rs'
                    simp [List.filter_cons]
                  by_cases hpe : pyExists fs bdir = true
                  · have hens : (ensure_directory env fs bdir).dirs = fs.dirs := by
                      unfold ensure_directory
                      rw [if_pos hpe]
                    rcases ih fs3 (if cfg.numbering then c + 1 else c) fs₁ c₁ rs hrec
                      with hh | ⟨hh, -⟩
                    · rw [hh, hd3, hens]
                      exact Or.inl rfl
                    · rw [hh, hd3, hens]
                      exact Or.inr ⟨rfl, hfilter rs⟩
                  · have hens : (ensure_directory env fs bdir).dirs
                        = (bdir, env.now) :: eraseKey fs.dirs bdir := by
                      unfold ensure_directory
                      rw [if_neg hpe]
                      rfl
                    rcases ih fs3 (if cfg.numbering then c + 1 else c) fs₁ c₁ rs hrec
                      with hh | ⟨hh, -⟩
                    · rw [hh, hd3, hens]
                      exact Or.inr ⟨rfl, hfilter rs⟩
                    · rw [hh, hd3, hens]
                      refine Or.inr ⟨?_, hfilter rs⟩
                      rw [show eraseKey ((bdir, env.now) :: eraseKey fs.dirs bdir) bdir
                          = eraseKey (eraseKey fs.dirs bdir) bdir by simp [eraseKey]]
                      rw [eraseKey_idem]

theorem rename_files_ok_decomp {env : Env} {cfg : BulkRenameConfig} {fs fs' : FS}
    {r : RenameResult} (hdry : cfg.dryRun = false)
    (h : rename_files env cfg fs = (fs', .ok r)) :
    ∃ fsL c, renameLoop env cfg (backupDirOf env cfg)
        (collect_files fs cfg.directory cfg.extensions) fs cfg.numberingStart
        = (fsL, c, .ok r.records) ∧
      fs' = write_log env fsL (logFileOf env cfg) r.records ∧
      r.renamed_count = r.records.length ∧
      (collect_files fs cfg.directory cfg.extensions).isEmpty = false := by
  unfold rename_files at h
  cases hval : validate fs cfg with
  | error e =>
    rw [hval] at h
    simp at h
  | ok u =>
    rw [hval] at h
    dsimp only at h
    by_cases hemp : (collect_files fs cfg.directory cfg.extensions).isEmpty = true
    · rw [if_pos hemp] at h
      simp at h
    · rw [if_neg hemp] at h
      rcases hloop : renameLoop env cfg (backupDirOf env cfg)
          (collect_files fs cfg.directory cfg.extensions) fs cfg.numberingStart
        with ⟨fs₁, c₁, res₁⟩
      rw [hloop] at h
      cases res₁ with
      | error e => simp at h
      | ok records =>
        dsimp only at h
        rw [if_neg (by simp [hdry]), if_neg (by simp [hdry]), if_neg (by simp [hdry])] at h
        injection h with h1 h2
        injection h2 with h2
        have hrecseq : records = r.records := by rw [← h2]
        refine ⟨fs₁, c₁, ?_, ?_, ?_, by simpa using hemp⟩
        · rw [← hrecseq]
        · rw [← hrecseq]
          exact h1.symm
        · rw [← h2]

theorem filter_renamed_skipped_length (recs : List Record)
    (h : ∀ rec ∈ recs, (rec.skipped.isSome = true ∧ rec.renamed_at = none) ∨
      (rec.skipped = none ∧ rec.renamed_at.isSome = true)) :
    (recs.filter (fun rec => rec.renamed_at.isSome)).length
      + (recs.filter (fun rec => rec.skipped.isSome)).length = recs.length := by
  induction recs with
  | nil => rfl
  | cons rec t ih =>
    have hr := h rec (by simp)
    have ht := ih (fun q hq => h q (by simp [hq]))
    rcases hr with ⟨h1, h2⟩ | ⟨h1, h2⟩
    · simp [List.filter_cons, h1, h2]
      omega
    · simp [List.filter_cons, h1, h2]
      omega

/-! ### JSON-record parsing facts for undo -/

theorem pyGet_rec_original_name (r : Record) :
    pyGet (recToJVal r) "original_name" (.jstr "") = .ok (.jstr r.original_name) := by rfl

theorem pyGet_rec_new_name (r : Record) :
    pyGet (recToJVal r) "new_name" (.jstr "") = .ok (.jstr r.new_name) := by rfl

theorem pyGet_rec_original_path (r : Record) :
    pyGet (recToJVal r) "original_path" (.jstr "") = .ok (.jstr r.original_path) := by rfl

theorem pyGet_rec_new_path (r : Record) :
    pyGet (recToJVal r) "new_path" (.jstr "") = .ok (.jstr r.new_path) := by rfl

theorem pyGet_rec_skipped_some (r : Record) (s : String) (h : r.skipped = some s) :
    pyGet (recToJVal r) "skipped" .jnull = .ok (.jstr s) := by
  unfold recToJVal
  rw [h]
  rfl

theorem pyGet_rec_skipped_none (r : Record) (h : r.skipped = none) :
    pyGet (recToJVal r) "skipped" .jnull = .ok .jnull := by
  unfold recToJVal
  rw [h]
  cases hrn : r.renamed_at with
  | none => rfl
  | some t => rfl

/-- Behaviour of undo's per-record loop over the serialized records of a
successful apply: every renamed record is restored (original content back at
the original path, renamed file removed), skipped records are skipped again,
and the counters add up. -/
theorem undoLoop_restore (fs : FS) (dir bdir : String)
    (hbsub : ∀ n, childOf? dir (joinPath bdir n) = none) :
    ∀ (rs : List Record) (fsk : FS) (res skp : Nat) (dets : List (JVal × String)),
      rs.Nodup →
      (∀ r ∈ rs, (r.skipped = some "Name unchanged." ∧ r.renamed_at = none) ∨
        (r.skipped = none ∧ r.renamed_at.isSome = true)) →
      (∀ r ∈ rs, childOf? dir r.original_path = some r.original_name ∧
        childOf? dir r.new_path = some r.new_name) →
      (∀ r ∈ rs, r.renamed_at.isSome = true → r.original_path ≠ r.new_path) →
      (∀ r₁ ∈ rs, ∀ r₂ ∈ rs, r₁.renamed_at.isSome = true → r₁.new_path ≠ r₂.original_path) →
      (∀ r₁ ∈ rs, ∀ r₂ ∈ rs, r₁.original_path = r₂.original_path → r₁ = r₂) →
      (∀ r₁ ∈ rs, ∀ r₂ ∈ rs, r₁.renamed_at.isSome = true → r₂.renamed_at.isSome = true →
        r₁.new_path = r₂.new_path → r₁ = r₂) →
      (∀ r ∈ rs, r.renamed_at.isSome = true →
        fsk.read (joinPath bdir r.original_name) = fs.read r.original_path ∧
        (fs.read r.original_path).isSome = true ∧
        fsk.read r.new_path = fs.read r.original_path ∧
        fsk.readDir r.original_path = none) →
      ∃ fsk' dets',
        undoLoop bdir (rs.map recToJVal) fsk res skp dets
          = (fsk', .ok (res + (rs.filter (fun r => r.renamed_at.isSome)).length,
              skp + (rs.filter (fun r => r.skipped.isSome)).length, dets')) ∧
        (∀ r ∈ rs, r.renamed_at.isSome = true →
          fsk'.read r.original_path = fs.read r.original_path ∧
          fsk'.read r.new_path = none) ∧
        (∀ q, (∀ r ∈ rs, r.renamed_at.isSome = true →
            q ≠ r.original_path ∧ q ≠ r.new_path) →
          fsk'.read q = fsk.read q) ∧
        fsk'.dirs = fsk.dirs := by
  intro rs
  induction rs with
  | nil =>
    intro fsk res skp dets _ _ _ _ _ _ _ _
    exact ⟨fsk, dets, by simp [undoLoop], by simp, fun q _ => rfl, rfl⟩
  | cons r0 rest ih =>
    intro fsk res skp dets hnd h1 hch h7 h3 h4 h6 hst
    have hndr : rest.Nodup := (List.nodup_cons.mp hnd).2
    have hr0nin : r0 ∉ rest := (List.nodup_cons.mp hnd).1
    have hmem0 : r0 ∈ r0 :: rest := by simp
    have hmemR : ∀ r ∈ rest, r ∈ r0 :: rest := fun r hr => by simp [hr]
    rcases h1 r0 hmem0 with ⟨hsk, hrn⟩ | ⟨hsk, hrn⟩
    · -- the record was skipped at apply time: undo skips it again
      obtain ⟨fsk', dets', hloop, hsettled, hframe, hdirs⟩ :=
        ih fsk res (skp + 1)
          (dets ++ [(JVal.jstr r0.original_name, "Skipped (was not renamed)")])
          hndr (fun r hr => h1 r (hmemR r hr)) (fun r hr => hch r (hmemR r hr))
          (fun r hr => h7 r (hmemR r hr))
          (fun r₁ hr₁ r₂ hr₂ => h3 r₁ (hmemR _ hr₁) r₂ (hmemR _ hr₂))
          (fun r₁ hr₁ r₂ hr₂ => h4 r₁ (hmemR _ hr₁) r₂ (hmemR _ hr₂))
          (fun r₁ hr₁ r₂ hr₂ => h6 r₁ (hmemR _ hr₁) r₂ (hmemR _ hr₂))
          (fun r hr => hst r (hmemR r hr))
      refine ⟨fsk', dets', ?_, ?_, ?_, hdirs⟩
      · rw [List.map_cons]
        simp only [undoLoop]
        rw [pyGet_rec_original_name r0]
        dsimp only
        rw [pyGet_rec_new_name r0]
        dsimp only
        rw [pyGet_rec_original_path r0]
        dsimp only
        rw [pyGet_rec_new_path r0]
        dsimp only
        rw [pyGet_rec_skipped_some r0 _ hsk]
        dsimp only
        rw [if_pos (by decide : JVal.truthy (.jstr "Name unchanged.") = true)]
        rw [hloop]
        have e1 : ((r0 :: rest).filter (fun r => r.renamed_at.isSome)).length
            = (rest.filter (fun r => r.renamed_at.isSome)).length := by
          simp [List.filter_cons, hrn]
        have e2 : ((r0 :: rest).filter (fun r => r.skipped.isSome)).length
            = (rest.filter (fun r => r.skipped.isSome)).length + 1 := by
          simp [List.filter_cons, hsk]
        rw [e1, e2]
        have e3 : skp + ((rest.filter (fun r => r.skipped.isSome)).length + 1)
            = skp + 1 + (rest.filter (fun r => r.skipped.isSome)).length := by omega
        rw [e3]
      · intro r hr hren
        rcases List.mem_cons.mp hr with hreq | hr
        · exfalso
          rw [hreq, hrn] at hren
          simp at hren
        · exact hsettled r hr hren
      · intro q hq
        exact hframe q (fun r hr hren => hq r (hmemR r hr) hren)
    · -- the record was renamed at apply time: undo restores it
      obtain ⟨hbk, hsome, hnew, hdirn⟩ := hst r0 hmem0 hrn
      obtain ⟨d0, hd0⟩ := Option.isSome_iff_exists.mp hsome
      obtain ⟨hcho, hchn⟩ := hch r0 hmem0
      have hne0 : r0.original_path ≠ r0.new_path := h7 r0 hmem0 hrn
      have hpe1 : pyExists fsk (joinPath bdir r0.original_name) = true := by
        unfold pyExists
        rw [hbk, hd0]
        rfl
      have hpe2 : pyExists fsk r0.new_path = true := by
        unfold pyExists
        rw [hnew, hd0]
        rfl
      have hcp : copy2 fsk (joinPath bdir r0.original_name) r0.original_path
          = .ok (fsk.setFile r0.original_path d0) := by
        unfold copy2
        rw [hbk, hd0]
        dsimp only
        rw [hdirn]
      have hpe3 : pyExists (fsk.setFile r0.original_path d0) r0.new_path = true := by
        unfold pyExists
        rw [FS.read_setFile, if_neg (Ne.symm hne0), hnew, hd0]
        rfl
      have hrm : pyRemove (fsk.setFile r0.original_path d0) r0.new_path
          = .ok ((fsk.setFile r0.original_path d0).removeFile r0.new_path) := by
        unfold pyRemove
        rw [FS.read_setFile, if_neg (Ne.symm hne0), hnew, hd0]
      have hst' : ∀ r ∈ rest, r.renamed_at.isSome = true →
          ((fsk.setFile r0.original_path d0).removeFile r0.new_path).read
              (joinPath bdir r.original_name) = fs.read r.original_path ∧
          (fs.read r.original_path).isSome = true ∧
          ((fsk.setFile r0.original_path d0).removeFile r0.new_path).read r.new_path
              = fs.read r.original_path ∧
          ((fsk.setFile r0.original_path d0).removeFile r0.new_path).readDir
              r.original_path = none := by
        intro r hr hren
        obtain ⟨hbk', hsome', hnew', hdirn'⟩ := hst r (hmemR r hr) hren
        have hrne : r ≠ r0 := fun h => hr0nin (h ▸ hr)
        have hno : r.original_path ≠ r0.original_path := fun h =>
          hrne (h4 r (hmemR r hr) r0 hmem0 h)
        have hnn0 : r.new_path ≠ r0.new_path := fun h =>
          hrne (h6 r (hmemR r hr) r0 hmem0 hren hrn h)
        have hnn_o : r.new_path ≠ r0.original_path := h3 r (hmemR r hr) r0 hmem0 hren
        have hbkne_o : joinPath bdir r.original_name ≠ r0.original_path :=
          (ne_of_childOf_some_none hcho (hbsub r.original_name)).symm
        have hbkne_n : joinPath bdir r.original_name ≠ r0.new_path :=
          (ne_of_childOf_some_none hchn (hbsub r.original_name)).symm
        refine ⟨?_, hsome', ?_, ?_⟩
        · rw [FS.read_removeFile, if_neg hbkne_n, FS.read_setFile, if_neg hbkne_o]
          exact hbk'
        · rw [FS.read_removeFile, if_neg hnn0, FS.read_setFile, if_neg hnn_o]
          exact hnew'
        · rw [FS.readDir_removeFile, FS.readDir_setFile]
          exact hdirn'
      obtain ⟨fsk', dets', hloop, hsettled, hframe, hdirs⟩ :=
        ih ((fsk.setFile r0.original_path d0).removeFile r0.new_path) (res + 1) skp
          (dets ++ [(JVal.jstr r0.original_name, "Restored successfully")])
          hndr (fun r hr => h1 r (hmemR r hr)) (fun r hr => hch r (hmemR r hr))
          (fun r hr => h7 r (hmemR r hr))
          (fun r₁ hr₁ r₂ hr₂ => h3 r₁ (hmemR _ hr₁) r₂ (hmemR _ hr₂))
          (fun r₁ hr₁ r₂ hr₂ => h4 r₁ (hmemR _ hr₁) r₂ (hmemR _ hr₂))
          (fun r₁ hr₁ r₂ hr₂ => h6 r₁ (hmemR _ hr₁) r₂ (hmemR _ hr₂))
          hst'
      refine ⟨fsk', dets', ?_, ?_, ?_, ?_⟩
      · rw [List.map_cons]
        simp only [undoLoop]
        rw [pyGet_rec_original_name r0]
        dsimp only
        rw [pyGet_rec_new_name r0]
        dsimp only
        rw [pyGet_rec_original_path r0]
        dsimp only
        rw [pyGet_rec_new_path r0]
        dsimp only
        rw [pyGet_rec_skipped_none r0 hsk]
        dsimp only
        rw [if_neg (by decide : ¬ JVal.truthy .jnull = true)]
        dsimp only [asPath]
        rw [if_neg (by simp [hpe1])]
        rw [if_neg (by simp [hpe2])]
        rw [hcp]
        dsimp only
        rw [if_pos ⟨hpe3, Ne.symm hne0⟩]
        rw [hrm]
        dsimp only
        rw [hloop]
        have e1 : ((r0 :: rest).filter (fun r => r.renamed_at.isSome)).length
            = (rest.filter (fun r => r.renamed_at.isSome)).length + 1 := by
          simp [List.filter_cons, hrn]
        have e2 : ((r0 :: rest).filter (fun r => r.skipped.isSome)).length
            = (rest.filter (fun r => r.skipped.isSome)).length := by
          simp [List.filter_cons, hsk]
        rw [e1, e2]
        have e3 : res + ((rest.filter (fun r => r.renamed_at.isSome)).length + 1)
            = res + 1 + (rest.filter (fun r => r.renamed_at.isSome)).length := by omega
        rw [e3]
      · intro r hr hren
        rcases List.mem_cons.mp hr with hreq | hr
        · subst hreq
        -- the head's restored state survives the tail
          have hfo : ∀ r' ∈ rest, r'.renamed_at.isSome = true →
              r.original_path ≠ r'.original_path ∧ r.original_path ≠ r'.new_path := by
            intro r' hr' hren'
            have hrne : r' ≠ r := fun h => hr0nin (h ▸ hr')
            exact ⟨fun h => hrne (h4 r' (hmemR _ hr') r hmem0 h.symm),
              fun h => (h3 r' (hmemR _ hr') r hmem0 hren') h.symm⟩
          have hfn : ∀ r' ∈ rest, r'.renamed_at.isSome = true →
              r.new_path ≠ r'.original_path ∧ r.new_path ≠ r'.new_path := by
            intro r' hr' hren'
            have hrne : r' ≠ r := fun h => hr0nin (h ▸ hr')
            exact ⟨h3 r hmem0 r' (hmemR _ hr') hrn,
              fun h => hrne (h6 r' (hmemR _ hr') r hmem0 hren' hrn h.symm)⟩
          constructor
          · rw [hframe r.original_path hfo, FS.read_removeFile, if_neg hne0,
              FS.read_setFile, if_pos rfl]
            exact hd0.symm
          · rw [hframe r.new_path hfn, FS.read_removeFile, if_pos rfl]
        · exact hsettled r hr hren
      · intro q hq
        have hq0 := hq r0 hmem0 hrn
        rw [hframe q (fun r hr hren => hq r (hmemR r hr) hren),
          FS.read_removeFile, if_neg hq0.2, FS.read_setFile, if_neg hq0.1]
      · rw [hdirs, FS.dirs_removeFile, FS.dirs_setFile]

theorem append_single_nil {γ : Type} {A B : List γ} {x : γ} (h1 : A = [x]) (h2 : B = []) :
    A ++ B = [x] := by
  rw [h1, h2]
  rfl

theorem append_nil_single {γ : Type} {A B : List γ} {x : γ} (h1 : A = []) (h2 : B = [x]) :
    A ++ B = [x] := by
  rw [h1, h2]
  rfl

/-! ### Claim C1 (corrected): the apply/undo round trip -/

/-- C1 (amended): the round trip holds for non-chaining batches.  For a
valid non-dry-run apply over a well-formed directory (no pre-existing
`backup_*`/`rename_log_*` artifacts, default artifact locations, new names
plain) in which no record's new path is another record's original path,
undoing the directory restores every non-skipped record to its pre-apply
path and content (the renamed file is removed), and `restored_count` equals
the apply's `renamed_count` minus the number of records marked skipped. -/
theorem C1_round_trip (env : Env) (cfg : BulkRenameConfig) (fs fs₁ : FS) (r : RenameResult)
    (hdry : cfg.dryRun = false)
    (hbd : cfg.backupDir = none) (hlf : cfg.logFile = none)
    (hgd : goodDir cfg.directory = true)
    (hepoch : hasSlash env.epoch.data = false)
    (hwf : (fs.files.map Prod.fst).Nodup)
    (hdisj : ∀ p ∈ fs.files.map Prod.fst, fs.readDir p = none)
    (hcleanB : ∀ p ∈ fs.files.map Prod.fst ++ fs.dirs.map Prod.fst,
      startsD (cfg.directory ++ "/" ++ "backup_").data p.data = false)
    (hcleanL : ∀ p ∈ fs.files.map Prod.fst ++ fs.dirs.map Prod.fst,
      startsD (cfg.directory ++ "/" ++ "rename_log_").data p.data = false)
    (hnn : ∀ rec ∈ r.records, hasSlash rec.new_name.data = false ∧
      startsD "backup_".data rec.new_name.data = false ∧
      startsD "rename_log_".data rec.new_name.data = false)
    (hni : ∀ rec₁ ∈ r.records, ∀ rec₂ ∈ r.records, rec₁.renamed_at.isSome = true →
      rec₁.new_path ≠ rec₂.original_path)
    (hsucc : rename_files env cfg fs = (fs₁, .ok r)) :
    ∃ fs₂ u, undo_rename fs₁ cfg.directory none = (fs₂, .ok u) ∧
      u.restored_count
        = r.renamed_count - (r.records.filter (fun rec => rec.skipped.isSome)).length ∧
      ∀ rec ∈ r.records, rec.skipped = none →
        fs₂.read rec.original_path = fs.read rec.original_path ∧
        fs₂.read rec.new_path = none := by
  obtain ⟨fsL, cL, hloop, hfs₁, hcount, hnemp⟩ := rename_files_ok_decomp hdry hsucc
  -- names and paths of the operation's artifacts
  have hbdirEq := backupDirOf_default env cfg hbd
  have hlogEq := logFileOf_default env cfg hlf
  have hbslash : hasSlash ("backup_" ++ env.epoch).data = false := by
    rw [String.data_append, hasSlash_append, hepoch]
    have h0 : hasSlash "backup_".data = false := rfl
    rw [h0]
    rfl
  have hbne : ("backup_" ++ env.epoch).data ≠ [] := by
    intro hnil
    have hlen := congrArg List.length hnil
    rw [String.data_append] at hlen
    simp only [List.length_append, List.length_cons, List.length_nil] at hlen
    omega
  have hbdirc : childOf? cfg.directory (backupDirOf env cfg)
      = some ("backup_" ++ env.epoch) := by
    rw [hbdirEq]
    exact childOf?_joinPath _ _ hbne hbslash
  have hlnstart : startsD "rename_log_".data
      ("rename_log_" ++ env.epoch ++ ".json").data = true := by
    rw [String.append_assoc]
    exact startsD_data_concat _ _
  have hlogchild : childOf? cfg.directory (logFileOf env cfg)
      = some ("rename_log_" ++ env.epoch ++ ".json") := by
    rw [hlogEq]
    apply childOf?_joinPath
    · intro hnil
      have hlen := congrArg List.length hnil
      rw [String.data_append, String.data_append] at hlen
      simp only [List.length_append, List.length_cons, List.length_nil] at hlen
      omega
    · rw [String.data_append, String.data_append, hasSlash_append, hasSlash_append, hepoch]
      have h1 : hasSlash "rename_log_".data = false := rfl
      have h2 : hasSlash ".json".data = false := rfl
      rw [h1, h2]
      rfl
  have hbdir_selfB : startsD (cfg.directory ++ "/" ++ "backup_").data
      (backupDirOf env cfg).data = true :=
    startsD_child "backup_" hbdirc (startsD_data_concat "backup_" env.epoch)
  have hlogname_true : logGlobName ("rename_log_" ++ env.epoch ++ ".json") = true :=
    logGlobName_concat env.epoch
  have hbglob_ln : backupGlobName ("rename_log_" ++ env.epoch ++ ".json") = false := by
    unfold backupGlobName
    rw [String.data_append, String.data_append]
    rfl
  have hlogglob_bn : logGlobName ("backup_" ++ env.epoch) = false := by
    unfold logGlobName
    have h0 : startsD "rename_log_".data ("backup_" ++ env.epoch).data = false := by
      rw [String.data_append]
      rfl
    rw [h0]
    rfl
  have hbname_ne_ln : ("backup_" ++ env.epoch) ≠ ("rename_log_" ++ env.epoch ++ ".json") :=
    ne_of_glob (backupGlobName_concat env.epoch) hbglob_ln
  have hbdir_ne_lf : backupDirOf env cfg ≠ logFileOf env cfg :=
    ne_of_childOf_some_some hbdirc hlogchild hbname_ne_ln
  -- the backup directory is fresh in the pre-apply state
  have hbdf : fs.read (backupDirOf env cfg) = none := by
    cases hread : fs.read (backupDirOf env cfg) with
    | none => rfl
    | some d =>
      exfalso
      have hmem : backupDirOf env cfg ∈ fs.files.map Prod.fst := by
        apply lookupP_isSome_mem (l := fs.files)
        show (fs.read (backupDirOf env cfg)).isSome = true
        rw [hread]
        rfl
      have hcl := hcleanB _ (List.mem_append.mpr (Or.inl hmem))
      rw [hcl] at hbdir_selfB
      exact absurd hbdir_selfB (by simp)
  have hbdd : fs.readDir (backupDirOf env cfg) = none := by
    cases hread : fs.readDir (backupDirOf env cfg) with
    | none => rfl
    | some t =>
      exfalso
      have hmem : backupDirOf env cfg ∈ fs.dirs.map Prod.fst := by
        apply lookupP_isSome_mem (l := fs.dirs)
        show (fs.readDir (backupDirOf env cfg)).isSome = true
        rw [hread]
        rfl
      have hcl := hcleanB _ (List.mem_append.mpr (Or.inr hmem))
      rw [hcl] at hbdir_selfB
      exact absurd hbdir_selfB (by simp)
  have hbsub : ∀ n, childOf? cfg.directory (joinPath (backupDirOf env cfg) n) = none := by
    intro n
    rw [hbdirEq]
    exact childOf?_joinPath_joinPath _ _ _ hbslash
  have hbsubdirs : ∀ n, fs.readDir (joinPath (backupDirOf env cfg) n) = none := by
    intro n
    cases hread : fs.readDir (joinPath (backupDirOf env cfg) n) with
    | none => rfl
    | some t =>
      exfalso
      have hmem : joinPath (backupDirOf env cfg) n ∈ fs.dirs.map Prod.fst := by
        apply lookupP_isSome_mem (l := fs.dirs)
        show (fs.readDir (joinPath (backupDirOf env cfg) n)).isSome = true
        rw [hread]
        rfl
      have hcl := hcleanB _ (List.mem_append.mpr (Or.inr hmem))
      have hself : startsD (cfg.directory ++ "/" ++ "backup_").data
          (joinPath (backupDirOf env cfg) n).data = true := by
        have h1 : startsD (cfg.directory ++ "/" ++ "backup_").data
            ((backupDirOf env cfg) ++ "/").data = true := startsD_mono_append _ hbdir_selfB
        have h2 := startsD_mono_append n h1
        show startsD _ (joinPath _ n).data = true
        unfold joinPath
        exact h2
      rw [hcl] at hself
      exact absurd hself (by simp)
  -- facts about the plan records
  have hlnodup : (collect_files fs cfg.directory cfg.extensions).Nodup :=
    collect_files_nodup hwf
  have horigs : r.records.map (fun rec => rec.original_path)
      = collect_files fs cfg.directory cfg.extensions :=
    renameLoop_origs env cfg (backupDirOf env cfg) hloop
  have hmapnd : (r.records.map (fun rec => rec.original_path)).Nodup := by
    rw [horigs]
    exact hlnodup
  have hrnodup : r.records.Nodup := hmapnd.of_map
  have horig_inj := nodup_map_inj _ _ hmapnd
  have hmemspec := renameLoop_ok_mem_spec env cfg (backupDirOf env cfg) hloop
  have hone := renameLoop_ok_mem_nondry env cfg (backupDirOf env cfg) hdry hloop
  have hpres : ∀ fp ∈ collect_files fs cfg.directory cfg.extensions,
      (fs.read fp).isSome = true := fun fp hfp => (mem_collect_spec hfp).1
  have hchild : ∀ fp ∈ collect_files fs cfg.directory cfg.extensions,
      childOf? cfg.directory fp = some (pyBasename fp) :=
    fun fp hfp => (mem_collect_spec hfp).2
  have hchrec : ∀ rec ∈ r.records, childOf? cfg.directory rec.original_path
      = some rec.original_name ∧ childOf? cfg.directory rec.new_path = some rec.new_name := by
    intro rec hrr
    obtain ⟨hol, hon, hnp, hnne⟩ := hmemspec rec hrr
    constructor
    · rw [hon]
      exact hchild _ hol
    · rw [hnp]
      exact childOf?_joinPath _ _ hnne (hnn rec hrr).1
  have hview := renameLoop_view env cfg (backupDirOf env cfg) ("backup_" ++ env.epoch)
    hdry hbdirc _ fs cfg.numberingStart fsL cL r.records hloop hpres hlnodup hchild
    hbdf (Or.inl hbdd) hbsubdirs
    (fun rec hrr => ⟨(hnn rec hrr).1, fun he => by
      have hb := (hnn rec hrr).2.1
      rw [he] at hb
      exact absurd (startsD_data_concat "backup_" env.epoch) (by rw [hb]; simp)⟩)
    hni
  simp only [ApplyView] at hview
  obtain ⟨v1, v2, v3, v4, v5, v6, v7, v8⟩ := hview
  -- the written log
  have hlogread : fs₁.read (logFileOf env cfg)
      = some ⟨.json (.jobj [("renamed_files", .jarr (r.records.map recToJVal)),
          ("generated_at", .jstr (env.strftime "%Y-%m-%d %H:%M:%S"))]), env.now⟩ := by
    rw [hfs₁]
    unfold write_log
    rw [FS.read_setFile, if_pos rfl]
  have hreadOther : ∀ q, q ≠ logFileOf env cfg → fs₁.read q = fsL.read q := by
    intro q hq
    rw [hfs₁]
    unfold write_log
    rw [FS.read_setFile, if_neg hq]
  have hfs1dirs : fs₁.dirs = fsL.dirs := by
    rw [hfs₁]
    rfl
  have hfs1files : fs₁.files
      = (logFileOf env cfg, ⟨.json (.jobj [("renamed_files", .jarr (r.records.map recToJVal)),
          ("generated_at", .jstr (env.strftime "%Y-%m-%d %H:%M:%S"))]), env.now⟩)
        :: eraseKey fsL.files (logFileOf env cfg) := by
    rw [hfs₁]
    rfl
  -- classification of post-apply paths against the discovery globs
  obtain ⟨hcovf, hcovd⟩ := renameLoop_paths env cfg (backupDirOf env cfg) _ fs
    cfg.numberingStart fsL cL r.records hloop
  have hkeyF : ∀ p ∈ fsL.files.map Prod.fst, ∀ n, childOf? cfg.directory p = some n →
      logGlobName n = false ∧ backupGlobName n = false := by
    intro p hp n hc
    rcases hcovf p hp with hh | ⟨m, hm⟩ | ⟨rec, hrr, hh⟩
    · constructor
      · by_cases hg : logGlobName n = true
        · exfalso
          have hps := startsD_child "rename_log_" hc (logGlobName_startsD hg)
          have hcl := hcleanL p (List.mem_append.mpr (Or.inl hh))
          rw [hcl] at hps
          exact absurd hps (by simp)
        · simpa using hg
      · by_cases hg : backupGlobName n = true
        · exfalso
          have hps := startsD_child "backup_" hc (by unfold backupGlobName at hg; exact hg)
          have hcl := hcleanB p (List.mem_append.mpr (Or.inl hh))
          rw [hcl] at hps
          exact absurd hps (by simp)
        · simpa using hg
    · exfalso
      rw [hm, hbsub m] at hc
      exact absurd hc (by simp)
    · obtain ⟨-, -, hnp, -⟩ := hmemspec rec hrr
      obtain ⟨hpj, -, -⟩ := childOf?_eq_some hc
      rw [hh, hnp] at hpj
      have hneq : rec.new_name = n := joinPath_inj hpj
      constructor
      · by_cases hg : logGlobName n = true
        · exfalso
          have hf := (hnn rec hrr).2.2
          rw [hneq] at hf
          have hns := logGlobName_startsD hg
          rw [hf] at hns
          exact absurd hns (by simp)
        · simpa using hg
      · by_cases hg : backupGlobName n = true
        · exfalso
          have hf := (hnn rec hrr).2.1
          rw [hneq] at hf
          unfold backupGlobName at hg
          rw [hf] at hg
          exact absurd hg (by simp)
        · simpa using hg
  have hkeyD_log : ∀ p ∈ fsL.dirs.map Prod.fst, ∀ n, childOf? cfg.directory p = some n →
      logGlobName n = false := by
    intro p hp n hc
    rcases hcovd p hp with hh | hh
    · by_cases hg : logGlobName n = true
      · exfalso
        have hps := startsD_child "rename_log_" hc (logGlobName_startsD hg)
        have hcl := hcleanL p (List.mem_append.mpr (Or.inr hh))
        rw [hcl] at hps
        exact absurd hps (by simp)
      · simpa using hg
    · rw [hh, hbdirc] at hc
      injection hc with hc
      rw [← hc]
      exact hlogglob_bn
  -- the log discovery glob finds exactly the written log
  have hglobL : globMtime fs₁ cfg.directory logGlobName
      = [(logFileOf env cfg, env.now)] := by
    unfold globMtime
    apply append_single_nil
    · rw [hfs1files, List.filterMap_cons]
      dsimp only
      rw [hlogchild]
      dsimp only
      rw [if_pos hlogname_true]
      dsimp only
      congr 1
      rw [List.filterMap_eq_nil]
      intro e he
      have hkey : e.1 ∈ fsL.files.map Prod.fst :=
        mem_map_fst_eraseKey (List.mem_map_of_mem Prod.fst he)
      cases hc : childOf? cfg.directory e.1 with
      | none => rfl
      | some n =>
        dsimp only
        rw [if_neg (by rw [(hkeyF e.1 hkey n hc).1]; simp)]
    · rw [List.filterMap_eq_nil]
      intro e he
      rw [hfs1dirs] at he
      have hkey : e.1 ∈ fsL.dirs.map Prod.fst := List.mem_map_of_mem Prod.fst he
      cases hc : childOf? cfg.directory e.1 with
      | none => rfl
      | some n =>
        dsimp only
        rw [if_neg (by rw [hkeyD_log e.1 hkey n hc]; simp)]
  have hfind : find_latest_log fs₁ cfg.directory = some (logFileOf env cfg) := by
    unfold find_latest_log
    rw [hglobL]
    rfl
  have hload : load_rename_log fs₁ (logFileOf env cfg)
      = .ok (some (.jobj [("renamed_files", .jarr (r.records.map recToJVal)),
          ("generated_at", .jstr (env.strftime "%Y-%m-%d %H:%M:%S"))])) := by
    unfold load_rename_log
    rw [hlogread]
  have hpgetRF : pyGet (.jobj [("renamed_files", .jarr (r.records.map recToJVal)),
      ("generated_at", .jstr (env.strftime "%Y-%m-%d %H:%M:%S"))])
      "renamed_files" (.jarr []) = .ok (.jarr (r.records.map recToJVal)) := by rfl
  -- the plan is nonempty; name its first record
  rcases hrecs : r.records with _ | ⟨r0, rest⟩
  · exfalso
    rw [hrecs] at horigs
    rw [← horigs] at hnemp
    simp at hnemp
  rw [← hrecs]
  have hr0mem : r0 ∈ r.records := by
    rw [hrecs]
    exact List.mem_cons_self _ _
  obtain ⟨hcho0, -⟩ := hchrec r0 hr0mem
  obtain ⟨ho0eq, ho0ne, ho0sl⟩ := childOf?_eq_some hcho0
  have ho0str : r0.original_path ≠ "" := by
    intro h
    have hd := congrArg String.data h
    rw [ho0eq, data_joinPath] at hd
    simp at hd
  have hpd0 : pyDirname r0.original_path = cfg.directory := by
    rw [ho0eq]
    exact pyDirname_joinPath _ _ hgd ho0sl
  have htruthy : (JVal.jarr (r.records.map recToJVal)).truthy = true := by
    rw [hrecs]
    rfl
  have hfe : firstElem (.jarr (r.records.map recToJVal)) = .ok (recToJVal r0) := by
    rw [hrecs]
    rfl
  have htro : (JVal.jstr r0.original_path).truthy = true := by
    show decide (r0.original_path ≠ "") = true
    exact decide_eq_true ho0str
  -- exactly-one bookkeeping
  have honeW : ∀ rec ∈ r.records, (rec.skipped.isSome = true ∧ rec.renamed_at = none) ∨
      (rec.skipped = none ∧ rec.renamed_at.isSome = true) := by
    intro rec hrr
    rcases hone rec hrr with ⟨hs, hrn2, -⟩ | ⟨hs, hrn2, -⟩
    · exact Or.inl ⟨by rw [hs]; rfl, hrn2⟩
    · exact Or.inr ⟨hs, by rw [hrn2]; rfl⟩
  have hcountSum := filter_renamed_skipped_length r.records honeW
  -- split on whether the backup directory was created
  rcases renameLoop_dirs env cfg (backupDirOf env cfg) _ fs cfg.numberingStart fsL cL
    r.records hloop with hSL | ⟨hSR, -⟩
  · -- no rename happened: no backup directory, undo reports the failure
    have hR : r.records.filter (fun rec => rec.renamed_at.isSome) = [] := by
      rcases v2 with hv | ⟨-, hR⟩
      · exfalso
        have hnone : fsL.readDir (backupDirOf env cfg) = none := by
          show lookupP fsL.dirs _ = none
          rw [hSL]
          exact hbdd
        rw [hnone] at hv
        exact absurd hv (by simp)
      · exact hR
    have hall : ∀ rec ∈ r.records, rec.renamed_at.isSome = false := by
      intro rec hrr
      by_cases hg : rec.renamed_at.isSome = true
      · exfalso
        have hmemf : rec ∈ r.records.filter (fun rec => rec.renamed_at.isSome) :=
          List.mem_filter.mpr ⟨hrr, hg⟩
        rw [hR] at hmemf
        simp at hmemf
      · simpa using hg
    have hskall : r.records.filter (fun rec => rec.skipped.isSome) = r.records := by
      apply List.filter_eq_self.mpr
      intro rec hrr
      rcases honeW rec hrr with ⟨hs, -⟩ | ⟨-, hrn2⟩
      · exact hs
      · exfalso
        have hf := hall rec hrr
        rw [hrn2] at hf
        exact absurd hf (by simp)
    have hglobB : globMtime fs₁ cfg.directory backupGlobName = [] := by
      unfold globMtime
      rw [List.append_eq_nil]
      constructor
      · rw [List.filterMap_eq_nil]
        intro e he
        rw [hfs1files] at he
        rcases List.mem_cons.mp he with he | he
        · rw [he]
          dsimp only
          rw [hlogchild]
          dsimp only
          rw [if_neg (by rw [hbglob_ln]; simp)]
        · have hkey : e.1 ∈ fsL.files.map Prod.fst :=
            mem_map_fst_eraseKey (List.mem_map_of_mem Prod.fst he)
          cases hc : childOf? cfg.directory e.1 with
          | none => rfl
          | some n =>
            dsimp only
            rw [if_neg (by rw [(hkeyF e.1 hkey n hc).2]; simp)]
      · rw [List.filterMap_eq_nil]
        intro e he
        rw [hfs1dirs, hSL] at he
        have hkey : e.1 ∈ fs.dirs.map Prod.fst := List.mem_map_of_mem Prod.fst he
        cases hc : childOf? cfg.directory e.1 with
        | none => rfl
        | some n =>
          dsimp only
          rw [if_neg (by
            by_cases hg : backupGlobName n = true
            · exfalso
              have hps := startsD_child "backup_" hc (by unfold backupGlobName at hg; exact hg)
              have hcl := hcleanB e.1 (List.mem_append.mpr (Or.inr hkey))
              rw [hcl] at hps
              exact absurd hps (by simp)
            · simpa using hg)]
    have hundo : undo_rename fs₁ cfg.directory none
        = (fs₁, .ok ⟨false, 0, 0, "No backup directories found in " ++ cfg.directory,
            logFileOf env cfg, "", []⟩) := by
      unfold undo_rename
      dsimp only
      rw [hfind]
      dsimp only
      rw [hload]
      dsimp only
      rw [hpgetRF]
      dsimp only
      rw [if_neg (by simp [htruthy])]
      rw [hfe]
      dsimp only
      rw [pyGet_rec_original_path r0]
      dsimp only
      rw [if_neg (by simp [htro])]
      dsimp only [asPath]
      rw [hpd0, hglobB]
      rfl
    refine ⟨fs₁, _, hundo, ?_, ?_⟩
    · show (0 : Nat) = r.renamed_count
        - (r.records.filter (fun rec => rec.skipped.isSome)).length
      rw [hskall, hcount]
      omega
    · intro rec hrr hskn
      exfalso
      rcases honeW rec hrr with ⟨hs, -⟩ | ⟨-, hrn2⟩
      · rw [hskn] at hs
        exact absurd hs (by simp)
      · have hf := hall rec hrr
        rw [hrn2] at hf
        exact absurd hf (by simp)
  · -- at least one rename happened: the backup directory is found and undo restores
    have hglobB : globMtime fs₁ cfg.directory backupGlobName
        = [(backupDirOf env cfg, env.now)] := by
      unfold globMtime
      apply append_nil_single
      · rw [List.filterMap_eq_nil]
        intro e he
        rw [hfs1files] at he
        rcases List.mem_cons.mp he with he | he
        · rw [he]
          dsimp only
          rw [hlogchild]
          dsimp only
          rw [if_neg (by rw [hbglob_ln]; simp)]
        · have hkey : e.1 ∈ fsL.files.map Prod.fst :=
            mem_map_fst_eraseKey (List.mem_map_of_mem Prod.fst he)
          cases hc : childOf? cfg.directory e.1 with
          | none => rfl
          | some n =>
            dsimp only
            rw [if_neg (by rw [(hkeyF e.1 hkey n hc).2]; simp)]
      · rw [hfs1dirs, hSR, List.filterMap_cons]
        dsimp only
        rw [hbdirc]
        dsimp only
        rw [if_pos (backupGlobName_concat env.epoch)]
        dsimp only
        congr 1
        rw [List.filterMap_eq_nil]
        intro e he
        have hkey : e.1 ∈ fs.dirs.map Prod.fst :=
          mem_map_fst_eraseKey (List.mem_map_of_mem Prod.fst he)
        cases hc : childOf? cfg.directory e.1 with
        | none => rfl
        | some n =>
          dsimp only
          rw [if_neg (by
            by_cases hg : backupGlobName n = true
            · exfalso
              have hps := startsD_child "backup_" hc (by unfold backupGlobName at hg; exact hg)
              have hcl := hcleanB e.1 (List.mem_append.mpr (Or.inr hkey))
              rw [hcl] at hps
              exact absurd hps (by simp)
            · simpa using hg)]
    have hpeb : pyExists fs₁ (backupDirOf env cfg) = true := by
      unfold pyExists
      have hrdb : fs₁.readDir (backupDirOf env cfg) = some env.now := by
        show lookupP fs₁.dirs _ = _
        rw [hfs1dirs, hSR]
        simp [lookupP]
      rw [hrdb]
      simp
    -- the state invariant feeding the undo loop
    have hstate : ∀ rec ∈ r.records, rec.renamed_at.isSome = true →
        fs₁.read (joinPath (backupDirOf env cfg) rec.original_name)
          = fs.read rec.original_path ∧
        (fs.read rec.original_path).isSome = true ∧
        fs₁.read rec.new_path = fs.read rec.original_path ∧
        fs₁.readDir rec.original_path = none := by
      intro rec hrr hren
      have hmemf : rec ∈ r.records.filter (fun rec => rec.renamed_at.isSome) :=
        List.mem_filter.mpr ⟨hrr, hren⟩
      have hkeyo : rec.original_path ∈ fs.files.map Prod.fst :=
        lookupP_isSome_mem (hpres _ (hmemspec rec hrr).1)
      refine ⟨?_, hpres _ (hmemspec rec hrr).1, ?_, ?_⟩
      · rw [hreadOther _ (ne_of_childOf_some_none hlogchild (hbsub rec.original_name)).symm]
        exact v3 rec hmemf
      · have hnnlf : rec.new_path ≠ logFileOf env cfg := by
          apply ne_of_childOf_some_some (hchrec rec hrr).2 hlogchild
          intro he
          have hf := (hnn rec hrr).2.2
          rw [he] at hf
          rw [hf] at hlnstart
          exact absurd hlnstart (by simp)
        rw [hreadOther _ hnnlf]
        exact v4 rec hmemf
      · have hone_bdir : rec.original_path ≠ backupDirOf env cfg := by
          intro h
          have hcl := hcleanB _ (List.mem_append.mpr (Or.inl hkeyo))
          rw [h, hbdir_selfB] at hcl
          exact absurd hcl (by simp)
        have hstep : fs₁.readDir rec.original_path = fsL.readDir rec.original_path := by
          show lookupP fs₁.dirs _ = lookupP fsL.dirs _
          rw [hfs1dirs]
        rw [hstep, v1 _ hone_bdir]
        exact hdisj _ hkeyo
    obtain ⟨fs₂', dets', hloopEq, hsettled, hframe, -⟩ :=
      undoLoop_restore fs cfg.directory (backupDirOf env cfg) hbsub r.records fs₁ 0 0 []
        hrnodup
        (fun rec hrr => by
          rcases hone rec hrr with ⟨hs, hrn2, -⟩ | ⟨hs, hrn2, -⟩
          · exact Or.inl ⟨hs, hrn2⟩
          · exact Or.inr ⟨hs, by rw [hrn2]; rfl⟩)
        hchrec
        (fun rec hrr hren => by
          rcases hone rec hrr with ⟨-, hrn2, -⟩ | ⟨-, -, hne2⟩
          · rw [hrn2] at hren
            exact absurd hren (by simp)
          · exact fun h => hne2 h.symm)
        hni horig_inj
        (fun r₁ h₁ r₂ h₂ hren₁ hren₂ heq =>
          horig_inj r₁ h₁ r₂ h₂
            (v8 r₁ (List.mem_filter.mpr ⟨h₁, hren₁⟩) r₂ (List.mem_filter.mpr ⟨h₂, hren₂⟩) heq))
        hstate
    have hundo : undo_rename fs₁ cfg.directory none
        = (fs₂', .ok ⟨decide (0 < 0 + (r.records.filter
              (fun rec => rec.renamed_at.isSome)).length),
            0 + (r.records.filter (fun rec => rec.renamed_at.isSome)).length,
            0 + (r.records.filter (fun rec => rec.skipped.isSome)).length,
            if 0 + (r.records.filter (fun rec => rec.renamed_at.isSome)).length = 0 then
              "No files could be restored. Check backup directory." else "",
            logFileOf env cfg, backupDirOf env cfg, dets'⟩) := by
      unfold undo_rename
      dsimp only
      rw [hfind]
      dsimp only
      rw [hload]
      dsimp only
      rw [hpgetRF]
      dsimp only
      rw [if_neg (by simp [htruthy])]
      rw [hfe]
      dsimp only
      rw [pyGet_rec_original_path r0]
      dsimp only
      rw [if_neg (by simp [htro])]
      dsimp only [asPath]
      rw [hpd0, hglobB]
      dsimp only [insSort, insertLe]
      rw [if_neg (by simp [hpeb])]
      dsimp only [toIter]
      rw [hloopEq]
    refine ⟨fs₂', _, hundo, ?_, ?_⟩
    · show 0 + (r.records.filter (fun rec => rec.renamed_at.isSome)).length
        = r.renamed_count - (r.records.filter (fun rec => rec.skipped.isSome)).length
      rw [hcount]
      omega
    · intro rec hrr hskn
      have hren : rec.renamed_at.isSome = true := by
        rcases honeW rec hrr with ⟨hs, -⟩ | ⟨-, hrn2⟩
        · rw [hskn] at hs
          exact absurd hs (by simp)
        · exact hrn2
      exact hsettled rec hrr hren

/-- Chaining batch refuting the unconditional round trip: with prefix `a`,
`ab.txt` is renamed to `aab.txt` and `b.txt` to `ab.txt` — so the second
record's new path is the first record's original path. -/
def cfgC1x : BulkRenameConfig :=
  ⟨"/d", "a", "", false, 1, 0, false, "", none, none, none, false, none, none⟩

def fsC1x : FS :=
  ⟨[("/d/ab.txt", ⟨.raw "A", 1⟩), ("/d/b.txt", ⟨.raw "B", 2⟩)], [("/d", 0)]⟩

def applyC1x : FS × Except PyError RenameResult := rename_files envW cfgC1x fsC1x

def rC1x : RenameResult :=
  match applyC1x.2 with
  | .ok rr => rr
  | .error _ => rFallback

def undoC1x : FS × Except PyError UndoResult :=
  undo_rename applyC1x.1 cfgC1x.directory none

def uC1x : UndoResult :=
  match undoC1x.2 with
  | .ok u => u
  | .error _ => ⟨false, 0, 0, "", "", "", []⟩

/-- C1 (counterexample to the claim as stated): a valid non-dry-run apply
succeeds, its record for `ab.txt` is not marked skipped, yet after undo the
file `/d/ab.txt` no longer exists at all — undo restores it while
processing the first record and then deletes it again while processing the
second record, whose new path is `/d/ab.txt`.  The claim's round trip fails
without a non-chaining hypothesis. -/
theorem C1_round_trip_counterexample :
    cfgC1x.dryRun = false ∧ validate fsC1x cfgC1x = .ok () ∧
    rename_files envW cfgC1x fsC1x = (applyC1x.1, .ok rC1x) ∧
    undo_rename applyC1x.1 cfgC1x.directory none = (undoC1x.1, .ok uC1x) ∧
    (∃ rec ∈ rC1x.records, rec.skipped = none ∧ rec.original_path = "/d/ab.txt") ∧
    fsC1x.read "/d/ab.txt" = some ⟨.raw "A", 1⟩ ∧
    undoC1x.1.read "/d/ab.txt" = none := by
  refine ⟨rfl, by rfl, by rfl, by rfl, ?_, by rfl, by rfl⟩
  exact ⟨⟨"ab.txt", "aab.txt", "/d/ab.txt", "/d/aab.txt", none, some "T"⟩,
    by decide, by decide, by decide⟩

def cfgC1w : BulkRenameConfig :=
  ⟨"/d", "p", "", false, 1, 0, false, "", none, none, none, false, none, none⟩

def fsC1w : FS := ⟨[("/d/a.txt", ⟨.raw "A", 1⟩)], [("/d", 0)]⟩

def applyC1w : FS × Except PyError RenameResult := rename_files envW cfgC1w fsC1w

def rC1w : RenameResult :=
  match applyC1w.2 with
  | .ok rr => rr
  | .error _ => rFallback

theorem C1_round_trip_witness :
    cfgC1w.dryRun = false ∧ cfgC1w.backupDir = none ∧ cfgC1w.logFile = none ∧
    goodDir cfgC1w.directory = true ∧ hasSlash envW.epoch.data = false ∧
    (fsC1w.files.map Prod.fst).Nodup ∧
    (∀ p ∈ fsC1w.files.map Prod.fst, fsC1w.readDir p = none) ∧
    (∀ p ∈ fsC1w.files.map Prod.fst ++ fsC1w.dirs.map Prod.fst,
      startsD (cfgC1w.directory ++ "/" ++ "backup_").data p.data = false) ∧
    (∀ p ∈ fsC1w.files.map Prod.fst ++ fsC1w.dirs.map Prod.fst,
      startsD (cfgC1w.directory ++ "/" ++ "rename_log_").data p.data = false) ∧
    (∀ rec ∈ rC1w.records, hasSlash rec.new_name.data = false ∧
      startsD "backup_".data rec.new_name.data = false ∧
      startsD "rename_log_".data rec.new_name.data = false) ∧
    (∀ rec₁ ∈ rC1w.records, ∀ rec₂ ∈ rC1w.records, rec₁.renamed_at.isSome = true →
      rec₁.new_path ≠ rec₂.original_path) ∧
    rename_files envW cfgC1w fsC1w = (applyC1w.1, .ok rC1w) ∧
    (∃ fs₂ u, undo_rename applyC1w.1 cfgC1w.directory none = (fs₂, .ok u) ∧
      u.restored_count
        = rC1w.renamed_count - (rC1w.records.filter (fun rec => rec.skipped.isSome)).length ∧
      ∀ rec ∈ rC1w.records, rec.skipped = none →
        fs₂.read rec.original_path = fsC1w.read rec.original_path ∧
        fs₂.read rec.new_path = none) := by
  refine ⟨rfl, rfl, rfl, by rfl, by rfl, by decide, by decide, by decide, by decide,
    by decide, by decide, by rfl, ?_⟩
  exact C1_round_trip envW cfgC1w fsC1w applyC1w.1 rC1w rfl rfl rfl (by rfl) (by rfl)
    (by decide) (by decide) (by decide) (by decide) (by decide) (by decide) (by rfl)

end BFR